import Mathlib

/-!
# gh-dumpster: incremental sync core

A shallow embedding of the fetch loops (`internal/github`), the record store
(`internal/storage`) and the orchestrator (`internal/tracker`), followed by the lemmas
and theorems that relate them to the written specification.

Conventions of the embedding:

* `time.Time` is an instant, an `Int` (nanoseconds from the Unix epoch);
  `t.Before(u)` is `t < u`; a `*time.Time` is an `Option Time`.
* `githubv4.String`, `githubv4.Int`, `githubv4.DateTime` are `String`, `Int`, `Time`.
* `c.gql.Query(ctx, &q, vars)` is a function from the request variables to either an
  error or the decoded page (`Except Error Page`).
* A `for { ... }` page loop is a function with a fuel argument; running out of fuel is
  the outcome `none`.
-/

namespace GhDumpster

/-! ## Data model (`issues.go`, `prs.go`, `discussions.go`) -/

abbrev Time := Int

abbrev Error := String

/-- The zero value of `time.Time` (January 1, year 1, 00:00:00 UTC). -/
def zeroTime : Time := -62135596800000000000

structure Actor where
  Login : String
  deriving DecidableEq, Repr

structure Label where
  Name : String
  Color : String
  deriving DecidableEq, Repr

structure Comment where
  Author : Actor
  Body : String
  CreatedAt : Time
  UpdatedAt : Time
  deriving DecidableEq, Repr

/-- The Go field `Type` is written `Type_` here. The Go field `Details any` holds either
nil or a `map[string]string`; the map is listed as key/value pairs in the order the
source writes them. -/
structure Event where
  Type_ : String
  Actor : Actor
  CreatedAt : Time
  Details : Option (List (String × String))
  deriving DecidableEq, Repr

structure Issue where
  Number : Int
  Title : String
  Body : String
  State : String
  Author : Actor
  CreatedAt : Time
  UpdatedAt : Time
  ClosedAt : Option Time
  Labels : List Label
  Comments : List Comment
  Events : List Event
  deriving DecidableEq, Repr

structure ReviewComment where
  Author : Actor
  Body : String
  Path : String
  CreatedAt : Time
  deriving DecidableEq, Repr

structure Review where
  Author : Actor
  Body : String
  State : String
  SubmittedAt : Time
  Comments : List ReviewComment
  deriving DecidableEq, Repr

structure PullRequest where
  Number : Int
  Title : String
  Body : String
  State : String
  Author : Actor
  CreatedAt : Time
  UpdatedAt : Time
  ClosedAt : Option Time
  MergedAt : Option Time
  Labels : List Label
  Comments : List Comment
  Reviews : List Review
  Events : List Event
  deriving DecidableEq, Repr

structure DiscussionCommentReply where
  Author : Actor
  Body : String
  CreatedAt : Time
  UpdatedAt : Time
  deriving DecidableEq, Repr

structure DiscussionComment where
  Author : Actor
  Body : String
  CreatedAt : Time
  UpdatedAt : Time
  Replies : List DiscussionCommentReply
  deriving DecidableEq, Repr

structure Discussion where
  Number : Int
  Title : String
  Body : String
  Author : Actor
  Category : String
  CreatedAt : Time
  UpdatedAt : Time
  Comments : List DiscussionComment
  deriving DecidableEq, Repr

/-! ## Raw timeline shapes -/

structure closedEvent where
  Actor : String
  CreatedAt : Time
  deriving DecidableEq, Repr

structure reopenedEvent where
  Actor : String
  CreatedAt : Time
  deriving DecidableEq, Repr

structure labeledEvent where
  Actor : String
  CreatedAt : Time
  Label : String
  deriving DecidableEq, Repr

structure unlabeledEvent where
  Actor : String
  CreatedAt : Time
  Label : String
  deriving DecidableEq, Repr

structure assignedEvent where
  Actor : String
  CreatedAt : Time
  Assignee : String
  deriving DecidableEq, Repr

structure unassignedEvent where
  Actor : String
  CreatedAt : Time
  Assignee : String
  deriving DecidableEq, Repr

structure crossReferencedEvent where
  Actor : String
  CreatedAt : Time
  SourceIssue : Int
  SourcePR : Int
  deriving DecidableEq, Repr

structure mergedEvent where
  Actor : String
  CreatedAt : Time
  deriving DecidableEq, Repr

structure reviewRequestedEvent where
  Actor : String
  CreatedAt : Time
  RequestedReviewer : String
  deriving DecidableEq, Repr

structure pullRequestCommit where
  Oid : String
  Message : String
  AuthorName : String
  deriving DecidableEq, Repr

structure issueTimelineItem where
  TypeName : String
  ClosedEvent : closedEvent
  ReopenedEvent : reopenedEvent
  LabeledEvent : labeledEvent
  UnlabeledEvent : unlabeledEvent
  AssignedEvent : assignedEvent
  UnassignedEvent : unassignedEvent
  CrossReferencedEvent : crossReferencedEvent
  deriving DecidableEq, Repr

structure prTimelineItem where
  TypeName : String
  ClosedEvent : closedEvent
  ReopenedEvent : reopenedEvent
  MergedEvent : mergedEvent
  LabeledEvent : labeledEvent
  UnlabeledEvent : unlabeledEvent
  AssignedEvent : assignedEvent
  ReviewRequestedEvent : reviewRequestedEvent
  PullRequestCommit : pullRequestCommit
  deriving DecidableEq, Repr

/-! ## Timeline event normalizers -/

/-- The issue normalizer, `convertTimelineEvent` of `issues.go`; `none` is the nil pointer. -/
def convertTimelineEvent (ti : issueTimelineItem) : Option Event :=
  if ti.TypeName = "ClosedEvent" then
    some { Type_ := "closed", Actor := ⟨ti.ClosedEvent.Actor⟩,
           CreatedAt := ti.ClosedEvent.CreatedAt, Details := none }
  else if ti.TypeName = "ReopenedEvent" then
    some { Type_ := "reopened", Actor := ⟨ti.ReopenedEvent.Actor⟩,
           CreatedAt := ti.ReopenedEvent.CreatedAt, Details := none }
  else if ti.TypeName = "LabeledEvent" then
    some { Type_ := "labeled", Actor := ⟨ti.LabeledEvent.Actor⟩,
           CreatedAt := ti.LabeledEvent.CreatedAt,
           Details := some [("label", ti.LabeledEvent.Label)] }
  else if ti.TypeName = "UnlabeledEvent" then
    some { Type_ := "unlabeled", Actor := ⟨ti.UnlabeledEvent.Actor⟩,
           CreatedAt := ti.UnlabeledEvent.CreatedAt,
           Details := some [("label", ti.UnlabeledEvent.Label)] }
  else if ti.TypeName = "AssignedEvent" then
    some { Type_ := "assigned", Actor := ⟨ti.AssignedEvent.Actor⟩,
           CreatedAt := ti.AssignedEvent.CreatedAt,
           Details := some [("assignee", ti.AssignedEvent.Assignee)] }
  else if ti.TypeName = "UnassignedEvent" then
    some { Type_ := "unassigned", Actor := ⟨ti.UnassignedEvent.Actor⟩,
           CreatedAt := ti.UnassignedEvent.CreatedAt,
           Details := some [("assignee", ti.UnassignedEvent.Assignee)] }
  else if ti.TypeName = "CrossReferencedEvent" then
    some { Type_ := "cross-referenced", Actor := ⟨ti.CrossReferencedEvent.Actor⟩,
           CreatedAt := ti.CrossReferencedEvent.CreatedAt, Details := none }
  else
    none

/-- The pull-request normalizer, `convertPRTimelineEvent` of `prs.go`. The commit case
sets no `CreatedAt`, which therefore keeps the zero value. -/
def convertPRTimelineEvent (ti : prTimelineItem) : Option Event :=
  if ti.TypeName = "ClosedEvent" then
    some { Type_ := "closed", Actor := ⟨ti.ClosedEvent.Actor⟩,
           CreatedAt := ti.ClosedEvent.CreatedAt, Details := none }
  else if ti.TypeName = "ReopenedEvent" then
    some { Type_ := "reopened", Actor := ⟨ti.ReopenedEvent.Actor⟩,
           CreatedAt := ti.ReopenedEvent.CreatedAt, Details := none }
  else if ti.TypeName = "MergedEvent" then
    some { Type_ := "merged", Actor := ⟨ti.MergedEvent.Actor⟩,
           CreatedAt := ti.MergedEvent.CreatedAt, Details := none }
  else if ti.TypeName = "LabeledEvent" then
    some { Type_ := "labeled", Actor := ⟨ti.LabeledEvent.Actor⟩,
           CreatedAt := ti.LabeledEvent.CreatedAt,
           Details := some [("label", ti.LabeledEvent.Label)] }
  else if ti.TypeName = "UnlabeledEvent" then
    some { Type_ := "unlabeled", Actor := ⟨ti.UnlabeledEvent.Actor⟩,
           CreatedAt := ti.UnlabeledEvent.CreatedAt,
           Details := some [("label", ti.UnlabeledEvent.Label)] }
  else if ti.TypeName = "AssignedEvent" then
    some { Type_ := "assigned", Actor := ⟨ti.AssignedEvent.Actor⟩,
           CreatedAt := ti.AssignedEvent.CreatedAt,
           Details := some [("assignee", ti.AssignedEvent.Assignee)] }
  else if ti.TypeName = "ReviewRequestedEvent" then
    some { Type_ := "review_requested", Actor := ⟨ti.ReviewRequestedEvent.Actor⟩,
           CreatedAt := ti.ReviewRequestedEvent.CreatedAt,
           Details := some [("reviewer", ti.ReviewRequestedEvent.RequestedReviewer)] }
  else if ti.TypeName = "PullRequestCommit" then
    some { Type_ := "commit", Actor := ⟨ti.PullRequestCommit.AuthorName⟩,
           CreatedAt := zeroTime,
           Details := some [("sha", ti.PullRequestCommit.Oid),
                            ("message", ti.PullRequestCommit.Message)] }
  else
    none

/-! ## Page responses -/

structure PageInfo where
  HasNextPage : Bool
  EndCursor : String
  deriving DecidableEq, Repr

structure labelNode where
  Name : String
  Color : String
  deriving DecidableEq, Repr

structure commentNode where
  Author : String
  Body : String
  CreatedAt : Time
  UpdatedAt : Time
  deriving DecidableEq, Repr

structure issueNode where
  Number : Int
  Title : String
  Body : String
  State : String
  CreatedAt : Time
  UpdatedAt : Time
  ClosedAt : Option Time
  Author : String
  Labels : List labelNode
  Comments : List commentNode
  TimelineItems : List issueTimelineItem
  deriving DecidableEq, Repr

structure issueQuery where
  PageInfo : PageInfo
  Nodes : List issueNode
  deriving DecidableEq, Repr

structure reviewCommentNode where
  Author : String
  Body : String
  Path : String
  CreatedAt : Time
  deriving DecidableEq, Repr

structure reviewNode where
  Author : String
  Body : String
  State : String
  SubmittedAt : Option Time
  Comments : List reviewCommentNode
  deriving DecidableEq, Repr

structure prNode where
  Number : Int
  Title : String
  Body : String
  State : String
  CreatedAt : Time
  UpdatedAt : Time
  ClosedAt : Option Time
  MergedAt : Option Time
  Author : String
  Labels : List labelNode
  Comments : List commentNode
  Reviews : List reviewNode
  TimelineItems : List prTimelineItem
  deriving DecidableEq, Repr

structure prQuery where
  PageInfo : PageInfo
  Nodes : List prNode
  deriving DecidableEq, Repr

structure replyNode where
  Author : String
  Body : String
  CreatedAt : Time
  UpdatedAt : Time
  deriving DecidableEq, Repr

structure discussionCommentNode where
  Author : String
  Body : String
  CreatedAt : Time
  UpdatedAt : Time
  Replies : List replyNode
  deriving DecidableEq, Repr

structure discussionNode where
  Number : Int
  Title : String
  Body : String
  CreatedAt : Time
  UpdatedAt : Time
  Author : String
  Category : String
  Comments : List discussionCommentNode
  deriving DecidableEq, Repr

structure discussionQuery where
  PageInfo : PageInfo
  Nodes : List discussionNode
  deriving DecidableEq, Repr

/-- Request variables of the issue query: `owner`, `repo`, `since`, `cursor`. -/
structure issueVars where
  owner : String
  repo : String
  since : Option Time
  cursor : Option String
  deriving DecidableEq, Repr

/-- Request variables of the pull-request and discussion queries: `owner`, `repo`, `cursor`. -/
structure pageVars where
  owner : String
  repo : String
  cursor : Option String
  deriving DecidableEq, Repr

/-- What one call of a fetcher did: the page requests it issued, in order, and how it
ended (`none`: still looping when the fuel ran out). -/
structure FetchRun (V R : Type) where
  requests : List V
  outcome : Option (Except Error (List R))

/-- The test `since != nil && t.Before(*since)`. -/
def olderThan (since : Option Time) (t : Time) : Bool :=
  match since with
  | none => false
  | some s => decide (t < s)

/-! ## Node decoding (the loop bodies of the three fetchers) -/

def convertLabel (l : labelNode) : Label :=
  { Name := l.Name, Color := l.Color }

def convertComment (c : commentNode) : Comment :=
  { Author := ⟨c.Author⟩, Body := c.Body, CreatedAt := c.CreatedAt, UpdatedAt := c.UpdatedAt }

/-- Body of the node loop of `FetchIssues` (issues.go, lines 171-207). -/
def convertIssue (node : issueNode) : Issue :=
  { Number := node.Number, Title := node.Title, Body := node.Body, State := node.State,
    Author := ⟨node.Author⟩, CreatedAt := node.CreatedAt, UpdatedAt := node.UpdatedAt,
    ClosedAt := node.ClosedAt,
    Labels := node.Labels.map convertLabel,
    Comments := node.Comments.map convertComment,
    Events := node.TimelineItems.filterMap convertTimelineEvent }

def convertReviewComment (c : reviewCommentNode) : ReviewComment :=
  { Author := ⟨c.Author⟩, Body := c.Body, Path := c.Path, CreatedAt := c.CreatedAt }

/-- A review whose `SubmittedAt` is nil keeps the zero time. -/
def convertReview (r : reviewNode) : Review :=
  { Author := ⟨r.Author⟩, Body := r.Body, State := r.State,
    SubmittedAt := match r.SubmittedAt with
      | some t => t
      | none => zeroTime,
    Comments := r.Comments.map convertReviewComment }

/-- Body of the node loop of `FetchPullRequests` after the `since` test (prs.go, lines 161-221). -/
def convertPullRequest (node : prNode) : PullRequest :=
  { Number := node.Number, Title := node.Title, Body := node.Body, State := node.State,
    Author := ⟨node.Author⟩, CreatedAt := node.CreatedAt, UpdatedAt := node.UpdatedAt,
    ClosedAt := node.ClosedAt, MergedAt := node.MergedAt,
    Labels := node.Labels.map convertLabel,
    Comments := node.Comments.map convertComment,
    Reviews := node.Reviews.map convertReview,
    Events := node.TimelineItems.filterMap convertPRTimelineEvent }

def convertReply (r : replyNode) : DiscussionCommentReply :=
  { Author := ⟨r.Author⟩, Body := r.Body, CreatedAt := r.CreatedAt, UpdatedAt := r.UpdatedAt }

def convertDiscussionComment (c : discussionCommentNode) : DiscussionComment :=
  { Author := ⟨c.Author⟩, Body := c.Body, CreatedAt := c.CreatedAt, UpdatedAt := c.UpdatedAt,
    Replies := c.Replies.map convertReply }

/-- Body of the node loop of `FetchDiscussions` after the `since` test
(discussions.go, lines 104-132). -/
def convertDiscussion (node : discussionNode) : Discussion :=
  { Number := node.Number, Title := node.Title, Body := node.Body, Author := ⟨node.Author⟩,
    Category := node.Category, CreatedAt := node.CreatedAt, UpdatedAt := node.UpdatedAt,
    Comments := node.Comments.map convertDiscussionComment }

/-! ## The three fetch loops -/

/-- The node loop of `FetchIssues`: every node is appended, none is tested. -/
def issuesPage (nodes : List issueNode) (allIssues : List Issue) : List Issue :=
  nodes.foldl (fun acc node => acc ++ [convertIssue node]) allIssues

/-- The page loop of `FetchIssues` (issues.go, lines 157-216). -/
def issuesLoop (query : issueVars → Except Error issueQuery) (owner repo : String)
    (sinceDateTime : Option Time) :
    Nat → Option String → List Issue → FetchRun issueVars Issue
  | 0, _, _ => ⟨[], none⟩
  | fuel + 1, cursor, allIssues =>
    let vars : issueVars := ⟨owner, repo, sinceDateTime, cursor⟩
    match query vars with
    | .error err => ⟨[vars], some (.error err)⟩
    | .ok q =>
      let allIssues := issuesPage q.Nodes allIssues
      if !q.PageInfo.HasNextPage then
        ⟨[vars], some (.ok allIssues)⟩
      else
        let rest := issuesLoop query owner repo sinceDateTime fuel (some q.PageInfo.EndCursor) allIssues
        ⟨vars :: rest.requests, rest.outcome⟩

/-- `FetchIssues` (issues.go, lines 147-219): `since` is wrapped into the query variable
`sinceDateTime` unchanged, the cursor starts nil and the result list starts empty. -/
def FetchIssues (query : issueVars → Except Error issueQuery) (fuel : Nat)
    (owner repo : String) (since : Option Time) : FetchRun issueVars Issue :=
  let sinceDateTime : Option Time :=
    match since with
    | some t => some t
    | none => none
  issuesLoop query owner repo sinceDateTime fuel none []

/-- The node loop of `FetchPullRequests`: a node older than `since` is skipped with
`continue`, every other node is decoded and appended. -/
def prsPage (since : Option Time) (nodes : List prNode) (allPRs : List PullRequest) :
    List PullRequest :=
  nodes.foldl
    (fun acc node => if olderThan since node.UpdatedAt then acc else acc ++ [convertPullRequest node])
    allPRs

/-- The test after the node loop of `FetchPullRequests` (prs.go, lines 230-235):
`since != nil && len(Nodes) > 0` and the last node is before `since`. -/
def prsLastOld (since : Option Time) (nodes : List prNode) : Bool :=
  match since, nodes.getLast? with
  | some s, some lastNode => decide (lastNode.UpdatedAt < s)
  | _, _ => false

/-- The page loop of `FetchPullRequests` (prs.go, lines 143-237). -/
def prsLoop (query : pageVars → Except Error prQuery) (owner repo : String)
    (since : Option Time) :
    Nat → Option String → List PullRequest → FetchRun pageVars PullRequest
  | 0, _, _ => ⟨[], none⟩
  | fuel + 1, cursor, allPRs =>
    let vars : pageVars := ⟨owner, repo, cursor⟩
    match query vars with
    | .error err => ⟨[vars], some (.error err)⟩
    | .ok q =>
      let allPRs := prsPage since q.Nodes allPRs
      if !q.PageInfo.HasNextPage then
        ⟨[vars], some (.ok allPRs)⟩
      else if prsLastOld since q.Nodes then
        ⟨[vars], some (.ok allPRs)⟩
      else
        let rest := prsLoop query owner repo since fuel (some q.PageInfo.EndCursor) allPRs
        ⟨vars :: rest.requests, rest.outcome⟩

/-- `FetchPullRequests` (prs.go, lines 139-240). -/
def FetchPullRequests (query : pageVars → Except Error prQuery) (fuel : Nat)
    (owner repo : String) (since : Option Time) : FetchRun pageVars PullRequest :=
  prsLoop query owner repo since fuel none []

/-- The node loop of `FetchDiscussions`: at the first node older than `since` the flag
`reachedOldDiscussions` is set and the loop is left with `break`. Returns the result
list and the flag. -/
def discussionsPage (since : Option Time) :
    List discussionNode → List Discussion → List Discussion × Bool
  | [], allDiscussions => (allDiscussions, false)
  | node :: rest, allDiscussions =>
    if olderThan since node.UpdatedAt then
      (allDiscussions, true)
    else
      discussionsPage since rest (allDiscussions ++ [convertDiscussion node])

/-- The page loop of `FetchDiscussions` (discussions.go, lines 84-141). -/
def discussionsLoop (query : pageVars → Except Error discussionQuery) (owner repo : String)
    (since : Option Time) :
    Nat → Option String → List Discussion → FetchRun pageVars Discussion
  | 0, _, _ => ⟨[], none⟩
  | fuel + 1, cursor, allDiscussions =>
    let vars : pageVars := ⟨owner, repo, cursor⟩
    match query vars with
    | .error err => ⟨[vars], some (.error err)⟩
    | .ok q =>
      let page := discussionsPage since q.Nodes allDiscussions
      if page.2 || !q.PageInfo.HasNextPage then
        ⟨[vars], some (.ok page.1)⟩
      else
        let rest := discussionsLoop query owner repo since fuel (some q.PageInfo.EndCursor) page.1
        ⟨vars :: rest.requests, rest.outcome⟩

/-- `FetchDiscussions` (discussions.go, lines 80-144). -/
def FetchDiscussions (query : pageVars → Except Error discussionQuery) (fuel : Nat)
    (owner repo : String) (since : Option Time) : FetchRun pageVars Discussion :=
  discussionsLoop query owner repo since fuel none []

/-! ## Page sequences served by the remote -/

/-- The remote answers the request with cursor `cursor` by the first page of `pages`,
and each following request, made with the `EndCursor` of the page before, by the next
page. `ask` is the query with every variable but the cursor fixed; `info` reads the
`PageInfo` of a page. -/
def ServesFrom {P : Type} (ask : Option String → Except Error P) (info : P → PageInfo) :
    Option String → List P → Prop
  | _, [] => True
  | cursor, p :: rest => ask cursor = .ok p ∧ ServesFrom ask info (some (info p).EndCursor) rest

/-- The page sequence ends at its first page with `HasNextPage = false`: it is not
empty, its last page reports no next page and every earlier page reports one. -/
def endsAtLastPage {P : Type} (info : P → PageInfo) : List P → Bool
  | [] => false
  | [p] => !(info p).HasNextPage
  | p :: q :: rest => (info p).HasNextPage && endsAtLastPage info (q :: rest)

/-- A remote that serves a fixed page list: the nil cursor gets the first page, a cursor
`c` gets the page that follows the first page whose `EndCursor` is `c`. -/
def pagedRemote {P : Type} (info : P → PageInfo) (pages : List P) (cursor : Option String) :
    Except Error P :=
  match cursor with
  | none =>
    match pages.head? with
    | some p => .ok p
    | none => .error "no page"
  | some c =>
    match (pages.dropWhile (fun p => (info p).EndCursor != c)).tail.head? with
    | some p => .ok p
    | none => .error "no page"

/-! ## Storage (`internal/storage/storage.go`)

A path is the list of the elements handed to `filepath.Join`; `filepath.Dir` drops the
last element. The file system is part of a `World`, together with the faults the
operating system is going to raise, the random draws of `os.CreateTemp` and the calls
made so far. -/

abbrev Path := List String

abbrev Bytes := String

/-- The sync-state document: one optional watermark per kind. -/
structure SyncState where
  Issues : Option Time
  PRs : Option Time
  Discussions : Option Time
  deriving DecidableEq, Repr

structure Storage where
  baseDir : String
  deriving DecidableEq, Repr

inductive Kind where
  | issues
  | prs
  | discussions
  deriving DecidableEq, Repr

/-- The directory of a kind under the base directory. -/
def Kind.dirName : Kind → String
  | .issues => "issues"
  | .prs => "pull_requests"
  | .discussions => "discussions"

/-- A system call or a page request. -/
inductive Op where
  | query (kind : Kind) (cursor : Option String)
  | mkdirAll (dir : Path)
  | readFile (path : Path)
  | createTemp (dir : Path) (name : Path)
  | write (path : Path)
  | close (path : Path)
  | remove (path : Path)
  | rename (src dst : Path)
  deriving DecidableEq, Repr

/-- A call that was made, and whether it returned without error. -/
structure Call where
  op : Op
  ok : Bool
  deriving DecidableEq, Repr

structure World where
  /-- The regular files and their contents. -/
  files : List (Path × Bytes)
  /-- The directories. -/
  dirs : List Path
  /-- For each coming system call: `none` when it succeeds, `some k` when it fails
  (for a failing write, after `k` bytes). Once the list is used up every call succeeds. -/
  faults : List (Option Nat)
  /-- The next random draw of `os.CreateTemp`. -/
  rand : Nat
  /-- The calls made so far, oldest first. -/
  trace : List Call
  deriving DecidableEq, Repr

def readAt (files : List (Path × Bytes)) (path : Path) : Option Bytes :=
  match files with
  | [] => none
  | (p, b) :: rest => if p = path then some b else readAt rest path

def removeAt (files : List (Path × Bytes)) (path : Path) : List (Path × Bytes) :=
  files.filter (fun f => f.1 ≠ path)

def writeAt (files : List (Path × Bytes)) (path : Path) (data : Bytes) : List (Path × Bytes) :=
  (path, data) :: removeAt files path

/-- The error of `os.ReadFile` that `os.IsNotExist` recognizes. -/
def errNotExist : Error := "file does not exist"

/-- Takes the fault decision of the next system call. -/
def World.fault (w : World) : Option Nat × World :=
  match w.faults with
  | [] => (none, w)
  | f :: rest => (f, { w with faults := rest })

/-- Records a call and its outcome. -/
def World.log (w : World) (op : Op) (ok : Bool) : World :=
  { w with trace := w.trace ++ [⟨op, ok⟩] }

/-- `os.MkdirAll(dir, 0755)`: creates the directory and its missing parents. -/
def osMkdirAll (dir : Path) (w : World) : Except Error Unit × World :=
  match w.fault with
  | (some _, w) => (.error "mkdir failed", w.log (.mkdirAll dir) false)
  | (none, w) => (.ok (), { w.log (.mkdirAll dir) true with dirs := w.dirs ++ dir.inits })

/-- `os.ReadFile(path)`: a missing file is the error `errNotExist`. -/
def osReadFile (path : Path) (w : World) : Except Error Bytes × World :=
  match w.fault with
  | (some _, w) => (.error "read failed", w.log (.readFile path) false)
  | (none, w) =>
    match readAt w.files path with
    | none => (.error errNotExist, w.log (.readFile path) false)
    | some data => (.ok data, w.log (.readFile path) true)

/-- The file name `os.CreateTemp` makes of the pattern `".tmp-*"` and a random number. -/
def tmpName (r : Nat) : String :=
  ".tmp-" ++ Nat.repr r

/-- The first of at most `tries` draws, starting at `r`, whose name is free in `dir`;
when none is free, the last draw. -/
def freeTemp (files : List (Path × Bytes)) (dir : Path) : Nat → Nat → Nat × Bool
  | 0, r => (r, false)
  | tries + 1, r =>
    if (readAt files (dir ++ [tmpName r])).isNone then (r, true)
    else freeTemp files dir tries (r + 1)

/-- `os.CreateTemp(dir, ".tmp-*")`: creates an empty file with a fresh name in `dir`,
giving up after 10000 names that exist already. -/
def osCreateTemp (dir : Path) (w : World) : Except Error Path × World :=
  let draw := freeTemp w.files dir 10000 w.rand
  let name := dir ++ [tmpName draw.1]
  match w.fault with
  | (some _, w) => (.error "create failed", w.log (.createTemp dir name) false)
  | (none, w) =>
    if draw.2 && decide (dir ∈ w.dirs) then
      (.ok name,
        { w.log (.createTemp dir name) true with
          files := writeAt w.files name "", rand := draw.1 + 1 })
    else
      (.error "create failed", w.log (.createTemp dir name) false)

/-- `tmp.Write(jsonData)`: a failing write leaves the first `k` bytes in the file. -/
def osWrite (tmp : Path) (data : Bytes) (w : World) : Except Error Unit × World :=
  match w.fault with
  | (some k, w) =>
    (.error "write failed",
      { w.log (.write tmp) false with files := writeAt w.files tmp (String.mk (data.data.take k)) })
  | (none, w) => (.ok (), { w.log (.write tmp) true with files := writeAt w.files tmp data })

/-- `tmp.Close()`. -/
def osClose (tmp : Path) (w : World) : Except Error Unit × World :=
  match w.fault with
  | (some _, w) => (.error "close failed", w.log (.close tmp) false)
  | (none, w) => (.ok (), w.log (.close tmp) true)

/-- `os.Remove(name)`. -/
def osRemove (name : Path) (w : World) : Except Error Unit × World :=
  match w.fault with
  | (some _, w) => (.error "remove failed", w.log (.remove name) false)
  | (none, w) => (.ok (), { w.log (.remove name) true with files := removeAt w.files name })

/-- `os.Rename(src, dst)`: `dst` gets the content of `src`, which is gone afterwards. -/
def osRename (src dst : Path) (w : World) : Except Error Unit × World :=
  match w.fault with
  | (some _, w) => (.error "rename failed", w.log (.rename src dst) false)
  | (none, w) =>
    match readAt w.files src with
    | none => (.error errNotExist, w.log (.rename src dst) false)
    | some data =>
      (.ok (),
        { w.log (.rename src dst) true with files := writeAt (removeAt w.files src) dst data })

/-- `encoding/json` on the stored types: `json.MarshalIndent` of a record or of the
sync state, and `json.Unmarshal` into a sync state. -/
structure Json where
  marshalState : SyncState → Except Error Bytes
  unmarshalState : Bytes → Except Error SyncState
  marshalIssue : Issue → Except Error Bytes
  marshalPR : PullRequest → Except Error Bytes
  marshalDiscussion : Discussion → Except Error Bytes

def New (baseDir : String) : Storage :=
  { baseDir := baseDir }

/-- `EnsureDirs` (storage.go, lines 25-37). -/
def EnsureDirs (s : Storage) (w : World) : Except Error Unit × World :=
  match osMkdirAll [s.baseDir, "issues"] w with
  | (.error err, w) => (.error err, w)
  | (.ok (), w) =>
    match osMkdirAll [s.baseDir, "pull_requests"] w with
    | (.error err, w) => (.error err, w)
    | (.ok (), w) =>
      match osMkdirAll [s.baseDir, "discussions"] w with
      | (.error err, w) => (.error err, w)
      | (.ok (), w) => (.ok (), w)

/-- Path of the sync-state document. -/
def statePath (s : Storage) : Path :=
  [s.baseDir, ".sync-state.json"]

/-- `LoadSyncState` (storage.go, lines 39-54): a missing file is the empty state. -/
def LoadSyncState (json : Json) (s : Storage) (w : World) : Except Error SyncState × World :=
  let path := statePath s
  match osReadFile path w with
  | (.error err, w) =>
    if err = errNotExist then (.ok { Issues := none, PRs := none, Discussions := none }, w)
    else (.error err, w)
  | (.ok data, w) =>
    match json.unmarshalState data with
    | .error err => (.error err, w)
    | .ok state => (.ok state, w)

/-- `atomicWrite` (storage.go, lines 76-103); `jsonData` is the result of
`json.MarshalIndent(data, "", "  ")`. The errors of the `Close` and `Remove` calls on
the failure paths are dropped, as in the source. -/
def atomicWrite (path : Path) (jsonData : Except Error Bytes) (w : World) :
    Except Error Unit × World :=
  match jsonData with
  | .error err => (.error err, w)
  | .ok jsonData =>
    let dir := path.dropLast
    match osMkdirAll dir w with
    | (.error err, w) => (.error err, w)
    | (.ok (), w) =>
      match osCreateTemp dir w with
      | (.error err, w) => (.error err, w)
      | (.ok tmpName, w) =>
        match osWrite tmpName jsonData w with
        | (.error err, w) =>
          let w := (osClose tmpName w).2
          let w := (osRemove tmpName w).2
          (.error err, w)
        | (.ok (), w) =>
          match osClose tmpName w with
          | (.error err, w) =>
            let w := (osRemove tmpName w).2
            (.error err, w)
          | (.ok (), w) => osRename tmpName path w

/-- `SaveSyncState` (storage.go, lines 56-59). -/
def SaveSyncState (json : Json) (s : Storage) (state : SyncState) (w : World) :
    Except Error Unit × World :=
  atomicWrite (statePath s) (json.marshalState state) w

/-- `formatNumber`: `fmt.Sprintf("%d", n)`, the decimal representation with a leading
minus sign for a negative number. -/
def formatNumber (n : Int) : String :=
  match n with
  | Int.ofNat m => Nat.repr m
  | Int.negSucc m => "-" ++ Nat.repr (m + 1)

/-- `numberPrefix` (storage.go, lines 109-115). The string is ASCII, so its length in
bytes is its length in characters and `s[:2]` is its first two characters. -/
def numberPrefix (n : Int) : String :=
  let s := formatNumber n
  if s.length < 2 then s else String.mk (s.data.take 2)

/-- The path `SaveIssue`, `SavePR` and `SaveDiscussion` compute for a record. -/
def recordPath (s : Storage) (kind : Kind) (number : Int) : Path :=
  [s.baseDir, kind.dirName, numberPrefix number, formatNumber number ++ ".json"]

/-- `SaveIssue` (storage.go, lines 61-64); `data` is the marshalled record. -/
def SaveIssue (s : Storage) (number : Int) (data : Except Error Bytes) (w : World) :
    Except Error Unit × World :=
  atomicWrite [s.baseDir, "issues", numberPrefix number, formatNumber number ++ ".json"] data w

/-- `SavePR` (storage.go, lines 66-69). -/
def SavePR (s : Storage) (number : Int) (data : Except Error Bytes) (w : World) :
    Except Error Unit × World :=
  atomicWrite [s.baseDir, "pull_requests", numberPrefix number, formatNumber number ++ ".json"]
    data w

/-- `SaveDiscussion` (storage.go, lines 71-74). -/
def SaveDiscussion (s : Storage) (number : Int) (data : Except Error Bytes) (w : World) :
    Except Error Unit × World :=
  atomicWrite [s.baseDir, "discussions", numberPrefix number, formatNumber number ++ ".json"]
    data w

/-! ## Orchestrator (`internal/tracker/tracker.go`) -/

structure SyncOptions where
  Owner : String
  Repo : String
  OutputDir : String
  Issues : Bool
  PRs : Bool
  Discussions : Bool
  Since : Option Time
  deriving DecidableEq, Repr

/-- What one invocation finds outside the file system: the `GITHUB_TOKEN` variable, the
clock (what `time.Now()` returns, given the calls made so far), the remote behind each
query, and `encoding/json`. -/
structure Env where
  token : String
  now : List Call → Time
  issueRemote : issueVars → Except Error issueQuery
  prRemote : pageVars → Except Error prQuery
  discussionRemote : pageVars → Except Error discussionQuery
  json : Json

/-- Failure of one kind: the error of the fetch, returned as it is, or
`"failed to save <kind> <number>: ..."`. -/
inductive KindError where
  | fetch (err : Error)
  | save (number : Int) (err : Error)
  deriving DecidableEq, Repr

/-- The errors `Sync` returns: the error of `NewClient`, and the wrapped errors
`"failed to create output directories"`, `"failed to load sync state"`,
`"failed to sync issues"`, `"failed to sync pull requests"`,
`"failed to sync discussions"`, `"failed to save sync state"`. -/
inductive SyncError where
  | newClient
  | ensureDirs (err : Error)
  | loadState (err : Error)
  | syncIssues (err : KindError)
  | syncPRs (err : KindError)
  | syncDiscussions (err : KindError)
  | saveState (err : Error)
  deriving DecidableEq, Repr

/-- `NewClient` (client.go): fails when `GITHUB_TOKEN` is empty. -/
def NewClient (env : Env) : Except SyncError Unit :=
  if env.token = "" then .error .newClient else .ok ()

/-- The page requests of one fetch as calls: every request but the last was answered,
the last one failed exactly when the fetch returned an error. -/
def queryCalls (kind : Kind) (failed : Bool) : List (Option String) → List Call
  | [] => []
  | [c] => [⟨.query kind c, !failed⟩]
  | c :: rest => ⟨.query kind c, true⟩ :: queryCalls kind failed rest

/-- The loop `for _, r := range records { if err := save(r.Number, r); err != nil {
return fmt.Errorf(...) } }` of `syncIssues`, `syncPRs` and `syncDiscussions`. -/
def saveRecords {R : Type} (save : R → World → Except Error Unit × World) (number : R → Int) :
    List R → World → Except KindError Unit × World
  | [], w => (.ok (), w)
  | r :: rest, w =>
    match save r w with
    | (.error err, w) => (.error (.save (number r) err), w)
    | (.ok (), w) => saveRecords save number rest w

/-- `syncIssues` (tracker.go, lines 77-96). -/
def syncIssues (env : Env) (fuel : Nat) (store : Storage) (owner repo : String)
    (since : Option Time) (w : World) : Option (Except KindError Unit × World) :=
  let run := FetchIssues env.issueRemote fuel owner repo since
  match run.outcome with
  | none => none
  | some (.error err) =>
    some (.error (.fetch err),
      { w with trace := w.trace ++ queryCalls .issues true (run.requests.map issueVars.cursor) })
  | some (.ok issues) =>
    some (saveRecords
      (fun issue => SaveIssue store issue.Number (env.json.marshalIssue issue)) Issue.Number
      issues
      { w with trace := w.trace ++ queryCalls .issues false (run.requests.map issueVars.cursor) })

/-- `syncPRs` (tracker.go, lines 98-117). -/
def syncPRs (env : Env) (fuel : Nat) (store : Storage) (owner repo : String)
    (since : Option Time) (w : World) : Option (Except KindError Unit × World) :=
  let run := FetchPullRequests env.prRemote fuel owner repo since
  match run.outcome with
  | none => none
  | some (.error err) =>
    some (.error (.fetch err),
      { w with trace := w.trace ++ queryCalls .prs true (run.requests.map pageVars.cursor) })
  | some (.ok prs) =>
    some (saveRecords
      (fun pr => SavePR store pr.Number (env.json.marshalPR pr)) PullRequest.Number
      prs
      { w with trace := w.trace ++ queryCalls .prs false (run.requests.map pageVars.cursor) })

/-- `syncDiscussions` (tracker.go, lines 119-138). -/
def syncDiscussions (env : Env) (fuel : Nat) (store : Storage) (owner repo : String)
    (since : Option Time) (w : World) : Option (Except KindError Unit × World) :=
  let run := FetchDiscussions env.discussionRemote fuel owner repo since
  match run.outcome with
  | none => none
  | some (.error err) =>
    some (.error (.fetch err),
      { w with
        trace := w.trace ++ queryCalls .discussions true (run.requests.map pageVars.cursor) })
  | some (.ok discussions) =>
    some (saveRecords
      (fun disc => SaveDiscussion store disc.Number (env.json.marshalDiscussion disc))
      Discussion.Number discussions
      { w with
        trace := w.trace ++ queryCalls .discussions false (run.requests.map pageVars.cursor) })

/-- The closure `getSince` of `Sync`: the `--since` flag if given, else the stored value. -/
def getSince (opts : SyncOptions) (stored : Option Time) : Option Time :=
  match opts.Since with
  | some t => some t
  | none => stored

/-- `Sync` (tracker.go, lines 22-75). The result is `none` when a fetch loop does not
come back within the fuel. -/
def Sync (env : Env) (fuel : Nat) (opts : SyncOptions) (w : World) :
    Option (Except SyncError Unit × World) :=
  match NewClient env with
  | .error err => some (.error err, w)
  | .ok () =>
  let store := New opts.OutputDir
  match EnsureDirs store w with
  | (.error err, w) => some (.error (.ensureDirs err), w)
  | (.ok (), w) =>
  match LoadSyncState env.json store w with
  | (.error err, w) => some (.error (.loadState err), w)
  | (.ok state, w) =>
  let syncTime := env.now w.trace
  match (if opts.Issues then
      syncIssues env fuel store opts.Owner opts.Repo (getSince opts state.Issues) w
    else some (.ok (), w)) with
  | none => none
  | some (.error err, w) => some (.error (.syncIssues err), w)
  | some (.ok (), w) =>
  let state := if opts.Issues then { state with Issues := some syncTime } else state
  match (if opts.PRs then
      syncPRs env fuel store opts.Owner opts.Repo (getSince opts state.PRs) w
    else some (.ok (), w)) with
  | none => none
  | some (.error err, w) => some (.error (.syncPRs err), w)
  | some (.ok (), w) =>
  let state := if opts.PRs then { state with PRs := some syncTime } else state
  match (if opts.Discussions then
      syncDiscussions env fuel store opts.Owner opts.Repo (getSince opts state.Discussions) w
    else some (.ok (), w)) with
  | none => none
  | some (.error err, w) => some (.error (.syncDiscussions err), w)
  | some (.ok (), w) =>
  let state := if opts.Discussions then { state with Discussions := some syncTime } else state
  match SaveSyncState env.json store state w with
  | (.error err, w) => some (.error (.saveState err), w)
  | (.ok (), w) => some (.ok (), w)

/-! ## Specification-side notions for the fetch loops -/

/-- All nodes of a page list, in remote order. -/
def allNodes {P N : Type} (nodes : P → List N) : List P → List N
  | [] => []
  | p :: rest => nodes p ++ allNodes nodes rest

/-- The pages a loop asks for when it leaves after the first page on which `stops`
holds: that page and every page before it. -/
def requestedPages {P : Type} (stops : P → Bool) : List P → List P
  | [] => []
  | p :: rest => if stops p then [p] else p :: requestedPages stops rest

/-- The cursors a cursor-following loop sends when it asks for `pages` starting from
`cursor`: the start cursor, then the `EndCursor` of each page but the last. -/
def cursorsFor {P : Type} (info : P → PageInfo) (cursor : Option String) (pages : List P) :
    List (Option String) :=
  match pages with
  | [] => []
  | _ :: _ => cursor :: (pages.dropLast.map (fun p => some (info p).EndCursor))

/-- A request list follows the cursor protocol from `cursor`: its first request carries
`cursor`, and a request that has a successor was answered by a page whose `EndCursor`
is the cursor of that successor. -/
def FollowsCursors {P : Type} (ask : Option String → Except Error P) (info : P → PageInfo) :
    Option String → List (Option String) → Prop
  | _, [] => True
  | cursor, c :: rest =>
    c = cursor ∧
      (rest = [] ∨ ∃ p, ask c = .ok p ∧ FollowsCursors ask info (some (info p).EndCursor) rest)

/-- Stop condition of the issue loop: the page reports no next page. -/
def issuesStops (q : issueQuery) : Bool :=
  !q.PageInfo.HasNextPage

/-- Stop condition of the pull-request loop as the specification words it: the page
reports no next page, or `since` is present, the page is not empty and its last node
is older than `since`. -/
def prsStops (since : Option Time) (q : prQuery) : Bool :=
  !q.PageInfo.HasNextPage ||
    (since.isSome && !q.Nodes.isEmpty &&
      match since, q.Nodes.getLast? with
      | some s, some lastNode => decide (lastNode.UpdatedAt < s)
      | _, _ => false)

/-- Stop condition of the discussion loop: the page holds a node older than `since`,
or it reports no next page. -/
def discussionsStops (since : Option Time) (q : discussionQuery) : Bool :=
  q.Nodes.any (fun node => olderThan since node.UpdatedAt) || !q.PageInfo.HasNextPage

/-- What the node loop of `FetchIssues` adds for one page. -/
def issuesEmit (q : issueQuery) : List Issue :=
  q.Nodes.map convertIssue

/-- What the node loop of `FetchPullRequests` adds for one page. -/
def prsEmit (since : Option Time) (q : prQuery) : List PullRequest :=
  (q.Nodes.filter (fun n => !olderThan since n.UpdatedAt)).map convertPullRequest

/-- What the node loop of `FetchDiscussions` adds for one page. -/
def discussionsEmit (since : Option Time) (q : discussionQuery) : List Discussion :=
  (q.Nodes.takeWhile (fun n => !olderThan since n.UpdatedAt)).map convertDiscussion

/-- Update times never increase along the list (newest first). -/
def Descending {N : Type} (updatedAt : N → Time) (l : List N) : Prop :=
  l.Pairwise (fun a b => updatedAt b ≤ updatedAt a)

/-- The cursor-following page loop the three fetchers share, with the per-page work
`body` and the stop test `stops` left open; its requests are the cursors alone. -/
def pageLoop {P R : Type} (ask : Option String → Except Error P) (info : P → PageInfo)
    (body : P → List R → List R) (stops : P → Bool) :
    Nat → Option String → List R → FetchRun (Option String) R
  | 0, _, _ => ⟨[], none⟩
  | fuel + 1, cursor, acc =>
    match ask cursor with
    | .error err => ⟨[cursor], some (.error err)⟩
    | .ok p =>
      if stops p then
        ⟨[cursor], some (.ok (body p acc))⟩
      else
        let rest := pageLoop ask info body stops fuel (some (info p).EndCursor) (body p acc)
        ⟨cursor :: rest.requests, rest.outcome⟩

/-- The specification's test "update time not before `since`": `since ≤ t`, and true
when `since` is absent. -/
def notBefore (since : Option Time) (t : Time) : Bool :=
  match since with
  | none => true
  | some s => decide (s ≤ t)

/-! ## Example inputs -/

def exIssueNode (number : Int) (updatedAt : Time) : issueNode :=
  { Number := number, Title := "t", Body := "b", State := "OPEN", CreatedAt := 1,
    UpdatedAt := updatedAt, ClosedAt := none, Author := "a", Labels := [], Comments := [],
    TimelineItems := [] }

def exPRNode (number : Int) (updatedAt : Time) : prNode :=
  { Number := number, Title := "t", Body := "b", State := "OPEN", CreatedAt := 1,
    UpdatedAt := updatedAt, ClosedAt := none, MergedAt := none, Author := "a", Labels := [],
    Comments := [], Reviews := [], TimelineItems := [] }

def exDiscussionNode (number : Int) (updatedAt : Time) : discussionNode :=
  { Number := number, Title := "t", Body := "b", CreatedAt := 1, UpdatedAt := updatedAt,
    Author := "a", Category := "c", Comments := [] }

/-- Three issue pages, newest first. -/
def exIssuePages : List issueQuery :=
  [⟨⟨true, "c1"⟩, [exIssueNode 5 40, exIssueNode 4 30]⟩,
   ⟨⟨true, "c2"⟩, [exIssueNode 3 20, exIssueNode 2 10]⟩,
   ⟨⟨false, "c3"⟩, [exIssueNode 1 5]⟩]

def exIssueRemote (v : issueVars) : Except Error issueQuery :=
  pagedRemote issueQuery.PageInfo exIssuePages v.cursor

/-- Three pull-request pages, newest first. -/
def exPRPages : List prQuery :=
  [⟨⟨true, "c1"⟩, [exPRNode 5 40, exPRNode 4 30]⟩,
   ⟨⟨true, "c2"⟩, [exPRNode 3 20, exPRNode 2 10]⟩,
   ⟨⟨false, "c3"⟩, [exPRNode 1 5]⟩]

def exPRRemote (v : pageVars) : Except Error prQuery :=
  pagedRemote prQuery.PageInfo exPRPages v.cursor

/-- Three discussion pages, newest first. -/
def exDiscussionPages : List discussionQuery :=
  [⟨⟨true, "c1"⟩, [exDiscussionNode 5 40, exDiscussionNode 4 30]⟩,
   ⟨⟨true, "c2"⟩, [exDiscussionNode 3 20, exDiscussionNode 2 10]⟩,
   ⟨⟨false, "c3"⟩, [exDiscussionNode 1 5]⟩]

def exDiscussionRemote (v : pageVars) : Except Error discussionQuery :=
  pagedRemote discussionQuery.PageInfo exDiscussionPages v.cursor

/-! ## Specification-side notions for the normalizers -/

/-- The detail keys the specification gives each event tag. -/
def detailKeys (tag : String) : List String :=
  if tag = "labeled" ∨ tag = "unlabeled" then ["label"]
  else if tag = "assigned" ∨ tag = "unassigned" then ["assignee"]
  else if tag = "review_requested" then ["reviewer"]
  else if tag = "commit" then ["sha", "message"]
  else []

/-- The keys of the detail map of an event (none for a nil map). -/
def Event.keys (e : Event) : List String :=
  match e.Details with
  | none => []
  | some kv => kv.map Prod.fst

/-- The remote type names of the ten recognized event tags. -/
def recognizedTypeNames : List String :=
  ["ClosedEvent", "ReopenedEvent", "LabeledEvent", "UnlabeledEvent", "AssignedEvent",
   "UnassignedEvent", "CrossReferencedEvent", "MergedEvent", "ReviewRequestedEvent",
   "PullRequestCommit"]

/-- An issue timeline item and a pull-request timeline item carry the same
discriminator and the same populated shape, for the shapes both item types have. -/
def SameShapes (ti : issueTimelineItem) (pi : prTimelineItem) : Prop :=
  pi.TypeName = ti.TypeName ∧ pi.ClosedEvent = ti.ClosedEvent ∧
    pi.ReopenedEvent = ti.ReopenedEvent ∧ pi.LabeledEvent = ti.LabeledEvent ∧
    pi.UnlabeledEvent = ti.UnlabeledEvent ∧ pi.AssignedEvent = ti.AssignedEvent

def exIssueItem (typeName : String) : issueTimelineItem :=
  { TypeName := typeName, ClosedEvent := ⟨"u", 7⟩, ReopenedEvent := ⟨"u", 7⟩,
    LabeledEvent := ⟨"u", 7, "bug"⟩, UnlabeledEvent := ⟨"u", 7, "bug"⟩,
    AssignedEvent := ⟨"u", 7, "v"⟩, UnassignedEvent := ⟨"u", 7, "v"⟩,
    CrossReferencedEvent := ⟨"u", 7, 1, 2⟩ }

def exPRItem (typeName : String) : prTimelineItem :=
  { TypeName := typeName, ClosedEvent := ⟨"u", 7⟩, ReopenedEvent := ⟨"u", 7⟩,
    MergedEvent := ⟨"u", 7⟩, LabeledEvent := ⟨"u", 7, "bug"⟩,
    UnlabeledEvent := ⟨"u", 7, "bug"⟩, AssignedEvent := ⟨"u", 7, "v"⟩,
    ReviewRequestedEvent := ⟨"u", 7, "v"⟩, PullRequestCommit := ⟨"abc", "msg", "u"⟩ }

/-! ## Specification-side notions for the store and the orchestrator -/

/-- The decimal digits of a number, most significant first. -/
def decimalDigits (n : Nat) : List Char :=
  if n < 10 then [Nat.digitChar n] else decimalDigits (n / 10) ++ [Nat.digitChar (n % 10)]
termination_by n
decreasing_by omega

/-- The number made of the two leading decimal digits of `n` (`n` itself below 100). -/
def leadingTwo (n : Nat) : Nat :=
  if n < 100 then n else leadingTwo (n / 10)
termination_by n
decreasing_by omega

/-- The last element of the path is a name made by `os.CreateTemp`: it starts with `.tmp-`. -/
def isTmpPath (p : Path) : Bool :=
  match p.getLast? with
  | some name => (".tmp-".data).isPrefixOf name.data
  | none => false

def succeeded {ε α : Type} : Except ε α → Bool
  | .ok _ => true
  | .error _ => false

/-- What the calls `ops`, made between the worlds `w` and `w'`, did to the trace and to
the files that are not temporary files: the trace grew by `ops`; such a file changed
only if a rename onto it succeeded; such a file that existed still exists; and the
target of a rename that succeeded exists. -/
def Frame (w w' : World) (ops : List Call) : Prop :=
  w'.trace = w.trace ++ ops ∧
    (∀ q, isTmpPath q = false → (∀ src, (⟨.rename src q, true⟩ : Call) ∉ ops) →
      readAt w'.files q = readAt w.files q) ∧
    (∀ q, isTmpPath q = false → (readAt w.files q).isSome = true →
      (readAt w'.files q).isSome = true) ∧
    (∀ src q, (⟨.rename src q, true⟩ : Call) ∈ ops → isTmpPath q = false →
      (readAt w'.files q).isSome = true)

/-- The calls an atomic write to `path` can make: `MkdirAll` of its directory,
`CreateTemp` in that directory, `Write`, `Close` and `Remove` on a temporary file of
that directory, and the rename of such a file onto `path`. -/
def WriteOp (path : Path) : Op → Prop
  | .mkdirAll d => d = path.dropLast
  | .createTemp d name =>
    d = path.dropLast ∧ name.dropLast = path.dropLast ∧ isTmpPath name = true
  | .write p => p.dropLast = path.dropLast ∧ isTmpPath p = true
  | .close p => p.dropLast = path.dropLast ∧ isTmpPath p = true
  | .remove p => p.dropLast = path.dropLast ∧ isTmpPath p = true
  | .rename src dst => dst = path ∧ src.dropLast = path.dropLast ∧ isTmpPath src = true
  | .query _ _ => False
  | .readFile _ => False

/-- The call creates, writes, removes or renames the file `p`. -/
def Op.modifies (p : Path) : Op → Bool
  | .createTemp _ name => decide (name = p)
  | .write q => decide (q = p)
  | .remove q => decide (q = p)
  | .rename src dst => decide (src = p) || decide (dst = p)
  | _ => false

/-- The path lies strictly below the directory of kind `k`. -/
def underKind (s : Storage) (k : Kind) (p : Path) : Bool :=
  decide (p.take 2 = [s.baseDir, k.dirName]) && decide (2 < p.length)

/-- The call fetches or saves for kind `k`: it is a page request of that kind, or a
system call on a path strictly below the directory of that kind. -/
def Op.worksFor (s : Storage) (k : Kind) : Op → Bool
  | .query k' _ => decide (k' = k)
  | .mkdirAll d => underKind s k d
  | .readFile p => underKind s k p
  | .createTemp d name => underKind s k d || underKind s k name
  | .write p => underKind s k p
  | .close p => underKind s k p
  | .remove p => underKind s k p
  | .rename src dst => underKind s k src || underKind s k dst

/-- The order in which `Sync` goes through the kinds. -/
def Kind.rank : Kind → Nat
  | .issues => 0
  | .prs => 1
  | .discussions => 2

/-- The kind whose fetch or save failed, for the three errors that say so. -/
def SyncError.failedKind : SyncError → Option Kind
  | .syncIssues _ => some .issues
  | .syncPRs _ => some .prs
  | .syncDiscussions _ => some .discussions
  | _ => none

/-- The calls of the sync of one kind: its page requests and the calls of the atomic
writes of its records. -/
def KindOp (s : Storage) (k : Kind) (op : Op) : Prop :=
  (∃ cursor, op = .query k cursor) ∨ ∃ number, WriteOp (recordPath s k number) op

/-- The calls `Sync` makes before the first kind: `EnsureDirs` and `LoadSyncState`. -/
def PrologueOp (s : Storage) (op : Op) : Prop :=
  (∃ k : Kind, op = .mkdirAll [s.baseDir, k.dirName]) ∨ op = .readFile (statePath s)

/-- The sync state with the watermark of every requested kind replaced by `t`. -/
def advance (opts : SyncOptions) (t : Time) (state : SyncState) : SyncState :=
  { Issues := if opts.Issues then some t else state.Issues,
    PRs := if opts.PRs then some t else state.PRs,
    Discussions := if opts.Discussions then some t else state.Discussions }

/-- The state `LoadSyncState` finds in the files: empty without a state file. -/
def storedState (json : Json) (s : Storage) (files : List (Path × Bytes)) :
    Except Error SyncState :=
  match readAt files (statePath s) with
  | none => .ok { Issues := none, PRs := none, Discussions := none }
  | some data => json.unmarshalState data

def showTime : Option Time → String
  | none => "null"
  | some t => formatNumber t

/-- A stand-in for `encoding/json` on small examples. -/
def exJson : Json :=
  { marshalState := fun st =>
      .ok ("[" ++ showTime st.Issues ++ "," ++ showTime st.PRs ++ "," ++
        showTime st.Discussions ++ "]"),
    unmarshalState := fun data =>
      if data = "[null,5,null]" then .ok { Issues := none, PRs := some 5, Discussions := none }
      else .error "unexpected document",
    marshalIssue := fun issue => .ok ("issue " ++ formatNumber issue.Number),
    marshalPR := fun pr => .ok ("pr " ++ formatNumber pr.Number),
    marshalDiscussion := fun disc => .ok ("discussion " ++ formatNumber disc.Number) }

/-- An environment on the example pages whose clock shows 100 plus the number of calls
made so far. -/
def exEnv : Env :=
  { token := "token", now := fun trace => 100 + trace.length, issueRemote := exIssueRemote,
    prRemote := exPRRemote, discussionRemote := exDiscussionRemote, json := exJson }

/-- A world whose only file is a sync state with the pull-request watermark 5. -/
def exWorld : World :=
  { files := [(["out", ".sync-state.json"], "[null,5,null]")], dirs := [], faults := [],
    rand := 0, trace := [] }

/-- The example world with a fault at the twelfth system call, the write of the second
record, which fails after three bytes. -/
def exFaultyWorld : World :=
  { exWorld with faults := List.replicate 11 none ++ [some 3] }

def exOptions : SyncOptions :=
  { Owner := "o", Repo := "r", OutputDir := "out", Issues := true, PRs := false,
    Discussions := true, Since := none }

/-- The world a run leaves behind (the start world when the run does not come back). -/
def worldAfter (run : Option (Except SyncError Unit × World)) (w : World) : World :=
  match run with
  | some (_, w') => w'
  | none => w

/-! ## Specification-side notions for the invariants of a run -/

/-- The example environment with a clock that shows 10 plus the number of calls made so
far: the records of the example pages were updated after the run starts. -/
def exLateEnv : Env :=
  { exEnv with now := fun trace => 10 + trace.length }

/-- The watermark a sync state holds for a kind. -/
def SyncState.watermark (st : SyncState) : Kind → Option Time
  | .issues => st.Issues
  | .prs => st.PRs
  | .discussions => st.Discussions

/-- The run after the state is loaded, as the specification words it: for each requested
kind in the order issues, pull requests, discussions, fetch with the lower bound
`since` of that kind and persist every record; at the first failure return its error;
otherwise save the loaded state with the watermark of every requested kind replaced by
`syncTime`. -/
def syncKindsWith (env : Env) (fuel : Nat) (opts : SyncOptions) (store : Storage)
    (since : Kind → Option Time) (syncTime : Time) (loaded : SyncState) (w : World) :
    Option (Except SyncError Unit × World) :=
  match (if opts.Issues then
      syncIssues env fuel store opts.Owner opts.Repo (since .issues) w
    else some (.ok (), w)) with
  | none => none
  | some (.error err, w) => some (.error (.syncIssues err), w)
  | some (.ok (), w) =>
  match (if opts.PRs then
      syncPRs env fuel store opts.Owner opts.Repo (since .prs) w
    else some (.ok (), w)) with
  | none => none
  | some (.error err, w) => some (.error (.syncPRs err), w)
  | some (.ok (), w) =>
  match (if opts.Discussions then
      syncDiscussions env fuel store opts.Owner opts.Repo (since .discussions) w
    else some (.ok (), w)) with
  | none => none
  | some (.error err, w) => some (.error (.syncDiscussions err), w)
  | some (.ok (), w) =>
  match SaveSyncState env.json store (advance opts syncTime loaded) w with
  | (.error err, w) => some (.error (.saveState err), w)
  | (.ok (), w) => some (.ok (), w)

/-- The path of a persisted document: the sync-state document (`none`) or the record of
a kind with a number. -/
def documentPath (s : Storage) : Option (Kind × Int) → Path
  | none => statePath s
  | some (k, n) => recordPath s k n

/-- The worlds an atomic write goes through, oldest first: the world it starts in and
the world after each of its system calls. It follows `atomicWrite` call by call. -/
def atomicWriteStates (path : Path) (jsonData : Except Error Bytes) (w : World) : List World :=
  match jsonData with
  | .error _ => [w]
  | .ok jsonData =>
    let dir := path.dropLast
    match osMkdirAll dir w with
    | (.error _, w1) => [w, w1]
    | (.ok (), w1) =>
      match osCreateTemp dir w1 with
      | (.error _, w2) => [w, w1, w2]
      | (.ok tmpName, w2) =>
        match osWrite tmpName jsonData w2 with
        | (.error _, w3) =>
          let w4 := (osClose tmpName w3).2
          let w5 := (osRemove tmpName w4).2
          [w, w1, w2, w3, w4, w5]
        | (.ok (), w3) =>
          match osClose tmpName w3 with
          | (.error _, w4) =>
            let w5 := (osRemove tmpName w4).2
            [w, w1, w2, w3, w4, w5]
          | (.ok (), w4) => [w, w1, w2, w3, w4, (osRename tmpName path w4).2]

/-- One system call of an atomic write of `data` to `path` leads from world `a` to world
`b`: the trace grows by that one call, which is a call of `WriteOp`; it touches `path`
only if it is a rename onto `path`; and `path` holds in `b` what it held in `a`, unless
the call is a successful rename of a file that held the complete bytes of `data`, after
which `path` holds those bytes. -/
def WriteStep (path : Path) (data : Except Error Bytes) (a b : World) : Prop :=
  ∃ c : Call, b.trace = a.trace ++ [c] ∧ WriteOp path c.op ∧
    (c.op.modifies path = true → ∃ src, c.op = .rename src path) ∧
    (readAt b.files path = readAt a.files path ∨
      ∃ src bytes, c = ⟨.rename src path, true⟩ ∧ data = .ok bytes ∧
        readAt a.files src = some bytes ∧ readAt b.files path = some bytes)

/-- The path as one string: its elements joined by the separator `/`, as
`filepath.Join` joins them before it cleans the result. -/
def Path.render (p : Path) : String :=
  String.intercalate "/" p

/-- The save function of a kind: `SaveIssue`, `SavePR` or `SaveDiscussion`. -/
def Kind.save : Kind → Storage → Int → Except Error Bytes → World → Except Error Unit × World
  | .issues => SaveIssue
  | .prs => SavePR
  | .discussions => SaveDiscussion

/-- The example encoding with a decoder that also reads the state document the first
example run writes. -/
def exRepeatJson : Json :=
  { exJson with
    unmarshalState := fun data =>
      if data = "[null,5,null]" then .ok { Issues := none, PRs := some 5, Discussions := none }
      else if data = "[104,5,104]" then
        .ok { Issues := some 104, PRs := some 5, Discussions := some 104 }
      else .error "unexpected document" }

/-- The example environment with that encoding, for the first of two runs. -/
def exFirstEnv : Env :=
  { exEnv with json := exRepeatJson }

/-- The environment of the second run: the same remotes and encoding, a later clock. -/
def exSecondEnv : Env :=
  { exFirstEnv with now := fun trace => 200 + trace.length }

/-- The sync of one kind, `result`, persists the fetch `run` from the world `w`: it
comes back exactly when the fetch does; when the fetch returned an error it returns
that error after the page requests of the fetch; when the fetch returned records its
calls are the page requests of the fetch followed by calls that each belong to the
atomic write of one of these records, a success has renamed a file onto the path of
every record, and an error is the save error of one of the records. -/
def PersistsRun {V R : Type} (s : Storage) (kind : Kind) (cursor : V → Option String)
    (number : R → Int) (marshal : R → Except Error Bytes) (run : FetchRun V R) (w : World)
    (result : Option (Except KindError Unit × World)) : Prop :=
  (result = none ↔ run.outcome = none) ∧
    ∀ res w₁, result = some (res, w₁) →
      (∀ e, run.outcome = some (.error e) →
        res = .error (.fetch e) ∧
          w₁.trace = w.trace ++ queryCalls kind true (run.requests.map cursor)) ∧
      (∀ records, run.outcome = some (.ok records) →
        ∃ saves,
          w₁.trace = w.trace ++ queryCalls kind false (run.requests.map cursor) ++ saves ∧
            (∀ c ∈ saves, ∃ rec ∈ records, WriteOp (recordPath s kind (number rec)) c.op) ∧
            (res = .ok () → ∀ rec ∈ records, ∃ b src, marshal rec = .ok b ∧
              (⟨.rename src (recordPath s kind (number rec)), true⟩ : Call) ∈ saves) ∧
            (∀ err, res = .error err → ∃ rec ∈ records, ∃ e, err = .save (number rec) e))

/-- The options of the example with all three kinds requested and the override 25. -/
def exSinceOptions : SyncOptions :=
  { Owner := "o", Repo := "r", OutputDir := "out", Issues := true, PRs := true,
    Discussions := true, Since := some 25 }

/-- The remote, asked for the page at `cursor` and then for the page at the `EndCursor`
of each answer, gives within `n` requests an error or a page on which the loop stops:
`n` is enough fuel for the page loop. -/
def answersWithin {P : Type} (ask : Option String → Except Error P) (info : P → PageInfo)
    (stops : P → Bool) : Nat → Option String → Bool
  | 0, _ => false
  | n + 1, cursor =>
    match ask cursor with
    | .error _ => true
    | .ok p => stops p || answersWithin ask info stops n (some (info p).EndCursor)

/-- The issue remote filters on the server: asked from the nil cursor with the lower
bound `since`, it serves a page sequence that ends at its first page without a next
page and whose nodes are the issues of `all` that were not updated before `since`. -/
def FiltersIssues (remote : issueVars → Except Error issueQuery) (owner repo : String)
    (all : List issueNode) (since : Option Time) : Prop :=
  ∃ pages,
    ServesFrom (fun c => remote ⟨owner, repo, since, c⟩) issueQuery.PageInfo none pages ∧
      endsAtLastPage issueQuery.PageInfo pages = true ∧
      allNodes issueQuery.Nodes pages = all.filter (fun n => notBefore since n.UpdatedAt)

/-- A world without files. -/
def exEmptyWorld : World :=
  { files := [], dirs := [], faults := [], rand := 0, trace := [] }

/-- A world whose only file is a sync state with the discussion watermark 35. -/
def exSkewWorld : World :=
  { exEmptyWorld with files := [(["out", ".sync-state.json"], "[null,null,35]")] }

def exIssueOptions : SyncOptions :=
  { Owner := "o", Repo := "r", OutputDir := "out", Issues := true, PRs := false,
    Discussions := false, Since := none }

def exPROptions : SyncOptions :=
  { Owner := "o", Repo := "r", OutputDir := "out", Issues := false, PRs := true,
    Discussions := false, Since := none }

def exDiscussionOptions : SyncOptions :=
  { Owner := "o", Repo := "r", OutputDir := "out", Issues := false, PRs := false,
    Discussions := true, Since := none }

/-- The example encoding with the update time in the document of a pull request and a
decoder for the state documents of the runs that start with the clock at 14. -/
def exReplayJson : Json :=
  { exJson with
    marshalPR := fun pr =>
      .ok ("pr " ++ formatNumber pr.Number ++ " at " ++ formatNumber pr.UpdatedAt),
    unmarshalState := fun data =>
      if data = "[null,null,35]" then .ok { Issues := none, PRs := none, Discussions := some 35 }
      else if data = "[null,null,14]" then
        .ok { Issues := none, PRs := none, Discussions := some 14 }
      else if data = "[null,14,null]" then
        .ok { Issues := none, PRs := some 14, Discussions := none }
      else if data = "[14,null,null]" then
        .ok { Issues := some 14, PRs := none, Discussions := none }
      else .error "unexpected document" }

/-- The example environment with the clock at 10 plus the number of calls made so far,
behind the stored watermark 35 and behind the update times of the example records. -/
def exSkewEnv : Env :=
  { exLateEnv with json := exReplayJson }

/-- A pull-request remote that serves two versions of the pull request 5 on one page. -/
def exVersionRemote (v : pageVars) : Except Error prQuery :=
  pagedRemote prQuery.PageInfo [⟨⟨false, "c1"⟩, [exPRNode 5 40, exPRNode 5 5]⟩] v.cursor

def exVersionEnv : Env :=
  { exSkewEnv with prRemote := exVersionRemote }

/-- An issue remote that does not filter by update time: it lists the issue 2 only when
it is asked with a lower bound, and the issue 1 only when it is asked without one. -/
def exOddIssueRemote (v : issueVars) : Except Error issueQuery :=
  match v.cursor with
  | none => .ok ⟨⟨false, "c1"⟩, if v.since.isSome then [exIssueNode 2 60] else [exIssueNode 1 50]⟩
  | some _ => .error "no page"

def exOddEnv : Env :=
  { exSkewEnv with issueRemote := exOddIssueRemote }

/-- Three issues of a repository, newest first. -/
def exFilterNodes : List issueNode :=
  [exIssueNode 7 150, exIssueNode 5 40, exIssueNode 4 30]

/-- An issue remote that filters on the server: one page with the issues of
`exFilterNodes` that were not updated before the lower bound of the request. -/
def exFilterRemote (v : issueVars) : Except Error issueQuery :=
  match v.cursor with
  | none => .ok ⟨⟨false, "c1"⟩, exFilterNodes.filter (fun n => notBefore v.since n.UpdatedAt)⟩
  | some _ => .error "no page"

/-- The environment of the first of two runs, with the filtering issue remote. -/
def exFilterFirstEnv : Env :=
  { exFirstEnv with issueRemote := exFilterRemote }

/-- The environment of the second run: the same remotes and encoding, a later clock. -/
def exFilterSecondEnv : Env :=
  { exSecondEnv with issueRemote := exFilterRemote }

/-- The world the example run with a fault leaves behind: the run failed at the second
issue. -/
def exFailedFirst : World :=
  worldAfter (Sync exEnv 3 exOptions exFaultyWorld) exFaultyWorld

/-- The world after a first run that starts with the clock at 14, behind the stored
discussion watermark 35. -/
def exSkewFirst : World :=
  worldAfter (Sync exSkewEnv 3 exDiscussionOptions exSkewWorld) exSkewWorld

/-- The world after a first run against the remote with two versions of one number. -/
def exVersionFirst : World :=
  worldAfter (Sync exVersionEnv 3 exPROptions exEmptyWorld) exEmptyWorld

/-- The world after a first run against the issue remote that does not filter. -/
def exOddFirst : World :=
  worldAfter (Sync exOddEnv 3 exIssueOptions exEmptyWorld) exEmptyWorld

/-- The world after the first of the two example runs with the filtering remote. -/
def exFilterFirst : World :=
  worldAfter (Sync exFilterFirstEnv 3 exOptions exWorld) exWorld

/-! ## Lemmas on the fetch loops -/

theorem issuesPage_eq (nodes : List issueNode) (acc : List Issue) :
    issuesPage nodes acc = acc ++ nodes.map convertIssue := by
  unfold issuesPage
  induction nodes generalizing acc with
  | nil => simp
  | cons n rest ih => simp [List.foldl_cons, ih]

theorem prsPage_eq (since : Option Time) (nodes : List prNode) (acc : List PullRequest) :
    prsPage since nodes acc =
      acc ++ (nodes.filter (fun n => !olderThan since n.UpdatedAt)).map convertPullRequest := by
  unfold prsPage
  induction nodes generalizing acc with
  | nil => simp
  | cons n rest ih =>
    by_cases h : olderThan since n.UpdatedAt = true
    · simp [List.foldl_cons, ih, h]
    · simp [List.foldl_cons, ih, h]

theorem discussionsPage_fst (since : Option Time) (nodes : List discussionNode)
    (acc : List Discussion) :
    (discussionsPage since nodes acc).1 =
      acc ++ (nodes.takeWhile (fun n => !olderThan since n.UpdatedAt)).map convertDiscussion := by
  induction nodes generalizing acc with
  | nil => simp [discussionsPage]
  | cons n rest ih =>
    by_cases h : olderThan since n.UpdatedAt = true
    · simp [discussionsPage, h, List.takeWhile_cons]
    · simp [discussionsPage, h, List.takeWhile_cons, ih]

theorem discussionsPage_snd (since : Option Time) (nodes : List discussionNode)
    (acc : List Discussion) :
    (discussionsPage since nodes acc).2 =
      nodes.any (fun node => olderThan since node.UpdatedAt) := by
  induction nodes generalizing acc with
  | nil => simp [discussionsPage]
  | cons n rest ih =>
    by_cases h : olderThan since n.UpdatedAt = true
    · simp [discussionsPage, h]
    · simp [discussionsPage, h, ih]

theorem issuesBody_eq (q : issueQuery) (acc : List Issue) :
    issuesPage q.Nodes acc = acc ++ issuesEmit q :=
  issuesPage_eq q.Nodes acc

theorem prsBody_eq (since : Option Time) (q : prQuery) (acc : List PullRequest) :
    prsPage since q.Nodes acc = acc ++ prsEmit since q :=
  prsPage_eq since q.Nodes acc

theorem discussionsBody_eq (since : Option Time) (q : discussionQuery)
    (acc : List Discussion) :
    (discussionsPage since q.Nodes acc).1 = acc ++ discussionsEmit since q :=
  discussionsPage_fst since q.Nodes acc

theorem prsLastOld_eq (since : Option Time) (q : prQuery) :
    (!q.PageInfo.HasNextPage || prsLastOld since q.Nodes) = prsStops since q := by
  unfold prsStops prsLastOld
  cases since with
  | none => simp
  | some s =>
    cases hl : q.Nodes.getLast? with
    | none => simp
    | some lastNode =>
      have hne : q.Nodes.isEmpty = false := by
        cases hN : q.Nodes with
        | nil => simp [hN] at hl
        | cons a l => rfl
      simp [hne]

theorem issuesLoop_eq (query : issueVars → Except Error issueQuery) (owner repo : String)
    (since : Option Time) (fuel : Nat) (cursor : Option String) (acc : List Issue) :
    issuesLoop query owner repo since fuel cursor acc =
      let run := pageLoop (fun c => query ⟨owner, repo, since, c⟩) issueQuery.PageInfo
        (fun q acc => issuesPage q.Nodes acc) issuesStops fuel cursor acc
      ⟨run.requests.map (fun c => ⟨owner, repo, since, c⟩), run.outcome⟩ := by
  induction fuel generalizing cursor acc with
  | zero => simp [issuesLoop, pageLoop]
  | succ fuel ih =>
    simp only [issuesLoop, pageLoop]
    cases hq : query ⟨owner, repo, since, cursor⟩ with
    | error err => simp
    | ok q =>
      by_cases hn : q.PageInfo.HasNextPage = true
      · simp [issuesStops, hn, ih]
      · simp [issuesStops, hn]

theorem prsLoop_eq (query : pageVars → Except Error prQuery) (owner repo : String)
    (since : Option Time) (fuel : Nat) (cursor : Option String) (acc : List PullRequest) :
    prsLoop query owner repo since fuel cursor acc =
      let run := pageLoop (fun c => query ⟨owner, repo, c⟩) prQuery.PageInfo
        (fun q acc => prsPage since q.Nodes acc) (prsStops since) fuel cursor acc
      ⟨run.requests.map (fun c => ⟨owner, repo, c⟩), run.outcome⟩ := by
  induction fuel generalizing cursor acc with
  | zero => simp [prsLoop, pageLoop]
  | succ fuel ih =>
    simp only [prsLoop, pageLoop]
    cases hq : query ⟨owner, repo, cursor⟩ with
    | error err => simp
    | ok q =>
      have hs := prsLastOld_eq since q
      by_cases hn : q.PageInfo.HasNextPage = true
      · by_cases hl : prsLastOld since q.Nodes = true
        · simp [hn, hl] at hs
          simp [hn, hl, ← hs]
        · simp [hn, hl] at hs
          simp [hn, hl, hs, ih]
      · simp [hn] at hs
        simp [hn, hs]

theorem discussionsLoop_eq (query : pageVars → Except Error discussionQuery)
    (owner repo : String) (since : Option Time) (fuel : Nat) (cursor : Option String)
    (acc : List Discussion) :
    discussionsLoop query owner repo since fuel cursor acc =
      let run := pageLoop (fun c => query ⟨owner, repo, c⟩) discussionQuery.PageInfo
        (fun q acc => (discussionsPage since q.Nodes acc).1) (discussionsStops since)
        fuel cursor acc
      ⟨run.requests.map (fun c => ⟨owner, repo, c⟩), run.outcome⟩ := by
  induction fuel generalizing cursor acc with
  | zero => simp [discussionsLoop, pageLoop]
  | succ fuel ih =>
    simp only [discussionsLoop, pageLoop]
    cases hq : query ⟨owner, repo, cursor⟩ with
    | error err => simp
    | ok q =>
      by_cases hs : discussionsStops since q = true
      · have hs2 := hs
        simp only [discussionsStops, ← discussionsPage_snd since q.Nodes acc] at hs2
        simp [hs, hs2]
      · have hs2 := hs
        simp only [discussionsStops, ← discussionsPage_snd since q.Nodes acc] at hs2
        simp [hs, hs2, ih]

theorem requestedPages_ne_nil {P : Type} (stops : P → Bool) (p : P) (rest : List P) :
    requestedPages stops (p :: rest) ≠ [] := by
  unfold requestedPages
  split <;> simp

theorem requestedPages_stop {P : Type} (stops : P → Bool) (p : P) (rest : List P)
    (h : stops p = true) : requestedPages stops (p :: rest) = [p] := by
  simp [requestedPages, h]

theorem requestedPages_go {P : Type} (stops : P → Bool) (p : P) (rest : List P)
    (h : ¬ stops p = true) :
    requestedPages stops (p :: rest) = p :: requestedPages stops rest := by
  simp [requestedPages, h]

theorem requestedPages_length_le {P : Type} (stops : P → Bool) (pages : List P) :
    (requestedPages stops pages).length ≤ pages.length := by
  induction pages with
  | nil => simp [requestedPages]
  | cons p rest ih =>
    unfold requestedPages
    split
    · simp
    · simpa using ih

theorem cursorsFor_length {P : Type} (info : P → PageInfo) (cursor : Option String)
    (pages : List P) : (cursorsFor info cursor pages).length = pages.length := by
  cases pages with
  | nil => rfl
  | cons p rest => simp [cursorsFor]

theorem endsAtLastPage_cons {P : Type} (info : P → PageInfo) (p q : P) (rest : List P) :
    endsAtLastPage info (p :: q :: rest) =
      ((info p).HasNextPage && endsAtLastPage info (q :: rest)) := rfl

/-- On a page sequence that ends at its first page without a next page, some page
stops the loop, so the requested pages are the non-stopping prefix and one more. -/
theorem requestedPages_length {P : Type} (info : P → PageInfo) (stops : P → Bool)
    (hstop : ∀ p, (info p).HasNextPage = false → stops p = true) (pages : List P)
    (hend : endsAtLastPage info pages = true) :
    (requestedPages stops pages).length = (pages.takeWhile (fun p => !stops p)).length + 1 := by
  induction pages with
  | nil => simp [endsAtLastPage] at hend
  | cons p rest ih =>
    by_cases hs : stops p = true
    · simp [requestedPages, hs, List.takeWhile_cons]
    · cases rest with
      | nil =>
        simp [endsAtLastPage] at hend
        exact absurd (hstop p hend) hs
      | cons q rest =>
        rw [endsAtLastPage_cons] at hend
        simp only [Bool.and_eq_true] at hend
        rw [requestedPages_go stops p _ hs, List.length_cons, ih hend.2]
        simp [List.takeWhile_cons, hs]

/-- The loop on a served page sequence: it asks for the pages up to the first stopping
page, following the cursors, and returns what the bodies of those pages emit. -/
theorem pageLoop_served {P R : Type} (ask : Option String → Except Error P)
    (info : P → PageInfo) (body : P → List R → List R) (stops : P → Bool)
    (emit : P → List R) (hbody : ∀ p acc, body p acc = acc ++ emit p)
    (hstop : ∀ p, (info p).HasNextPage = false → stops p = true) :
    ∀ (pages : List P) (cursor : Option String) (acc : List R) (fuel : Nat),
      ServesFrom ask info cursor pages → endsAtLastPage info pages = true →
      pages.length ≤ fuel →
      (pageLoop ask info body stops fuel cursor acc).requests =
          cursorsFor info cursor (requestedPages stops pages) ∧
        (pageLoop ask info body stops fuel cursor acc).outcome =
          some (.ok (acc ++ allNodes emit (requestedPages stops pages))) := by
  intro pages
  induction pages with
  | nil => intro cursor acc fuel _ hend; simp [endsAtLastPage] at hend
  | cons p rest ih =>
    intro cursor acc fuel hserve hend hfuel
    obtain ⟨hask, hrest⟩ := hserve
    cases fuel with
    | zero => simp at hfuel
    | succ fuel =>
      by_cases hs : stops p = true
      · simp [pageLoop, hask, hs, requestedPages, cursorsFor, allNodes, hbody]
      · cases rest with
        | nil =>
          simp [endsAtLastPage] at hend
          exact absurd (hstop p hend) hs
        | cons q rest =>
          rw [endsAtLastPage_cons] at hend
          simp only [Bool.and_eq_true] at hend
          have hlen : (q :: rest).length ≤ fuel := by
            simp only [List.length_cons] at hfuel ⊢
            omega
          obtain ⟨h1, h2⟩ := ih (some (info p).EndCursor) (body p acc) fuel hrest hend.2 hlen
          have hne := requestedPages_ne_nil stops q rest
          rw [requestedPages_go stops p _ hs]
          constructor
          · simp only [pageLoop, hask, hs, h1]
            cases hrp : requestedPages stops (q :: rest) with
            | nil => exact absurd hrp hne
            | cons a l => simp [cursorsFor]
          · simp only [pageLoop, hask, hs, h2]
            simp [allNodes, hbody]

/-- Whatever the remote answers and however much fuel there is, the requests of the
loop follow the cursor protocol. -/
theorem pageLoop_follows {P R : Type} (ask : Option String → Except Error P)
    (info : P → PageInfo) (body : P → List R → List R) (stops : P → Bool) :
    ∀ (fuel : Nat) (cursor : Option String) (acc : List R),
      FollowsCursors ask info cursor (pageLoop ask info body stops fuel cursor acc).requests := by
  intro fuel
  induction fuel with
  | zero => intro cursor acc; simp [pageLoop, FollowsCursors]
  | succ fuel ih =>
    intro cursor acc
    cases hask : ask cursor with
    | error err => simp [pageLoop, hask, FollowsCursors]
    | ok p =>
      by_cases hs : stops p = true
      · simp [pageLoop, hask, hs, FollowsCursors]
      · simp only [pageLoop, hask, hs]
        exact ⟨rfl, Or.inr ⟨p, hask, ih _ _⟩⟩

theorem takeWhile_length_le_of_fails {α : Type} (pred : α → Bool) :
    ∀ (l : List α) (i : Nat) (a : α), l[i]? = some a → pred a = false →
      (l.takeWhile pred).length ≤ i := by
  intro l
  induction l with
  | nil => intro i a h; simp at h
  | cons x rest ih =>
    intro i a h hp
    cases i with
    | zero =>
      simp at h
      subst h
      simp [List.takeWhile_cons, hp]
    | succ i =>
      simp at h
      by_cases hx : pred x = true
      · simp only [List.takeWhile_cons, hx, if_true, List.length_cons]
        exact Nat.succ_le_succ (ih i a h hp)
      · simp [List.takeWhile_cons, hx]

theorem le_takeWhile_length {α : Type} (pred : α → Bool) :
    ∀ (l : List α) (k : Nat), k ≤ l.length → (∀ a ∈ l.take k, pred a = true) →
      k ≤ (l.takeWhile pred).length := by
  intro l
  induction l with
  | nil => intro k hk _; simpa using hk
  | cons x rest ih =>
    intro k hk hall
    cases k with
    | zero => exact Nat.zero_le _
    | succ k =>
      have hx : pred x = true := hall x (by simp)
      simp only [List.takeWhile_cons, hx, if_true, List.length_cons]
      refine Nat.succ_le_succ (ih k (by simpa using hk) ?_)
      intro a ha
      exact hall a (by simp [ha])

theorem takeWhile_append_of_fails {α : Type} (pred : α → Bool) (l₁ l₂ : List α)
    (h : ∃ x ∈ l₁, pred x = false) :
    (l₁ ++ l₂).takeWhile pred = l₁.takeWhile pred := by
  induction l₁ with
  | nil => simp at h
  | cons a l ih =>
    by_cases ha : pred a = true
    · obtain ⟨x, hx, hxp⟩ := h
      have hx2 : x ∈ l := by
        rcases List.mem_cons.mp hx with rfl | hx
        · simp [ha] at hxp
        · exact hx
      simp [List.takeWhile_cons, ha, ih ⟨x, hx2, hxp⟩]
    · simp [List.takeWhile_cons, ha]

theorem notBefore_eq (since : Option Time) (t : Time) :
    (!olderThan since t) = notBefore since t := by
  cases since with
  | none => simp [olderThan, notBefore]
  | some s =>
    by_cases h : t < s
    · have : ¬ s ≤ t := not_le.mpr h
      simp [olderThan, notBefore, h, this]
    · have : s ≤ t := not_lt.mp h
      simp [olderThan, notBefore, h, this]

theorem requestedPages_issues (pages : List issueQuery)
    (hend : endsAtLastPage issueQuery.PageInfo pages = true) :
    requestedPages issuesStops pages = pages := by
  induction pages with
  | nil => rfl
  | cons p rest ih =>
    cases rest with
    | nil =>
      simp [endsAtLastPage] at hend
      simp [requestedPages, issuesStops, hend]
    | cons q rest =>
      rw [endsAtLastPage_cons] at hend
      simp only [Bool.and_eq_true] at hend
      rw [requestedPages_go _ _ _ (by simp [issuesStops, hend.1]), ih hend.2]

theorem allNodes_map {P N R : Type} (nodes : P → List N) (f : N → R) (pages : List P) :
    allNodes (fun p => (nodes p).map f) pages = (allNodes nodes pages).map f := by
  induction pages with
  | nil => rfl
  | cons p rest ih => simp [allNodes, ih]

/-- With update times descending over the whole sequence, the pull-request pages that
are requested emit every node that is not before `since`: the early stop loses none. -/
theorem prs_emitted_eq_filter (since : Option Time) (pages : List prQuery)
    (hend : endsAtLastPage prQuery.PageInfo pages = true)
    (hdesc : Descending prNode.UpdatedAt (allNodes prQuery.Nodes pages)) :
    allNodes
        (prsEmit since)
        (requestedPages (prsStops since) pages) =
      ((allNodes prQuery.Nodes pages).filter (fun n => !olderThan since n.UpdatedAt)).map
        convertPullRequest := by
  have hemit : prsEmit since = fun q =>
      (q.Nodes.filter (fun n => !olderThan since n.UpdatedAt)).map convertPullRequest := rfl
  rw [hemit]
  induction pages with
  | nil => rfl
  | cons p rest ih =>
    unfold Descending at hdesc
    simp only [allNodes, List.pairwise_append] at hdesc
    obtain ⟨_, hrestd, hcross⟩ := hdesc
    by_cases hs : prsStops since p = true
    · rw [requestedPages_stop _ _ _ hs]
      simp only [allNodes, List.append_nil, List.filter_append, List.map_append]
      cases rest with
      | nil => simp [allNodes]
      | cons q rest =>
        rw [endsAtLastPage_cons] at hend
        simp only [Bool.and_eq_true] at hend
        have hold : (allNodes prQuery.Nodes (q :: rest)).filter
            (fun n => !olderThan since n.UpdatedAt) = [] := by
          rw [List.filter_eq_nil_iff]
          intro b hb
          cases since with
          | none => simp [prsStops, hend.1] at hs
          | some s =>
            cases hl : p.Nodes.getLast? with
            | none => simp [prsStops, hend.1, hl] at hs
            | some lastNode =>
              simp [prsStops, hend.1, hl] at hs
              have hmem : lastNode ∈ p.Nodes := List.mem_of_getLast?_eq_some hl
              have hle := hcross lastNode hmem b hb
              have : b.UpdatedAt < s := lt_of_le_of_lt hle hs.2
              simp [olderThan, this]
        rw [hold]
        simp
    · cases rest with
      | nil =>
        simp [endsAtLastPage] at hend
        simp [prsStops, hend] at hs
      | cons q rest =>
        rw [endsAtLastPage_cons] at hend
        simp only [Bool.and_eq_true] at hend
        rw [requestedPages_go _ _ _ hs]
        simp only [allNodes]
        rw [ih hend.2 hrestd]
        simp [allNodes, List.filter_append]

/-- The discussion pages that are requested emit the longest prefix of the whole node
sequence that holds no node older than `since`. -/
theorem discussions_emitted_eq_takeWhile (since : Option Time) (pages : List discussionQuery)
    (hend : endsAtLastPage discussionQuery.PageInfo pages = true) :
    allNodes
        (discussionsEmit since)
        (requestedPages (discussionsStops since) pages) =
      ((allNodes discussionQuery.Nodes pages).takeWhile
        (fun n => !olderThan since n.UpdatedAt)).map convertDiscussion := by
  have hemit : discussionsEmit since = fun q =>
      (q.Nodes.takeWhile (fun n => !olderThan since n.UpdatedAt)).map convertDiscussion := rfl
  rw [hemit]
  induction pages with
  | nil => rfl
  | cons p rest ih =>
    by_cases hany : p.Nodes.any (fun node => olderThan since node.UpdatedAt) = true
    · have hs : discussionsStops since p = true := by simp [discussionsStops, hany]
      rw [requestedPages_stop _ _ _ hs]
      simp only [allNodes, List.append_nil]
      simp only [List.any_eq_true] at hany
      obtain ⟨x, hx, hxo⟩ := hany
      rw [takeWhile_append_of_fails _ _ _ ⟨x, hx, by simp [hxo]⟩]
    · have hall : ∀ a ∈ p.Nodes, (!olderThan since a.UpdatedAt) = true := by
        intro a ha
        cases ho : olderThan since a.UpdatedAt with
        | false => rfl
        | true => exact absurd (List.any_eq_true.mpr ⟨a, ha, ho⟩) hany
      cases rest with
      | nil =>
        simp [endsAtLastPage] at hend
        have hs : discussionsStops since p = true := by simp [discussionsStops, hend]
        rw [requestedPages_stop _ _ _ hs]
        simp [allNodes, List.takeWhile_eq_self_iff.mpr hall]
      | cons q rest =>
        rw [endsAtLastPage_cons] at hend
        simp only [Bool.and_eq_true] at hend
        have hs : ¬ discussionsStops since p = true := by
          simp [discussionsStops, hend.1]
          simpa using hany
        rw [requestedPages_go _ _ _ hs]
        simp only [allNodes]
        rw [ih hend.2, List.takeWhile_append_of_pos hall, List.map_append,
          List.takeWhile_eq_self_iff.mpr hall]
        rfl

theorem prsStops_of_last (since : Option Time) (q : prQuery)
    (h : q.PageInfo.HasNextPage = false) : prsStops since q = true := by
  simp [prsStops, h]

theorem discussionsStops_of_last (since : Option Time) (q : discussionQuery)
    (h : q.PageInfo.HasNextPage = false) : discussionsStops since q = true := by
  simp [discussionsStops, h]

theorem issuesStops_of_last (q : issueQuery)
    (h : q.PageInfo.HasNextPage = false) : issuesStops q = true := by
  simp [issuesStops, h]

theorem FetchIssues_eq (query : issueVars → Except Error issueQuery) (fuel : Nat)
    (owner repo : String) (since : Option Time) :
    FetchIssues query fuel owner repo since = issuesLoop query owner repo since fuel none [] := by
  cases since <;> rfl

/-! ## Theorems on the fetchers -/

/-- C1. `FetchPullRequests` cutoff exactness: on a page sequence served by the remote
that ends at its first page without a next page and whose update times are descending
over the whole sequence, the fetch returns, for every optional `since`, exactly the
remote nodes whose update time is not before `since` (a node updated exactly at `since`
is kept), decoded, in remote order; with `since` absent it returns every node of every
page. The decoded record of a node carries the number, the update time and every other
field of that node, so the numbers and update times of the returned records are those
of the qualifying nodes, in remote order; every returned record is not before `since`,
and every qualifying node of every page, also of a later page, has its record in the
result. -/
theorem FetchPullRequests_cutoff_exact
    (query : pageVars → Except Error prQuery) (owner repo : String) (since : Option Time)
    (pages : List prQuery) (fuel : Nat)
    (hserve : ServesFrom (fun c => query ⟨owner, repo, c⟩) prQuery.PageInfo none pages)
    (hend : endsAtLastPage prQuery.PageInfo pages = true)
    (hdesc : Descending prNode.UpdatedAt (allNodes prQuery.Nodes pages))
    (hfuel : pages.length ≤ fuel) :
    (FetchPullRequests query fuel owner repo since).outcome =
        some (.ok (((allNodes prQuery.Nodes pages).filter
          (fun n => notBefore since n.UpdatedAt)).map convertPullRequest)) ∧
      (since = none →
        (FetchPullRequests query fuel owner repo since).outcome =
          some (.ok ((allNodes prQuery.Nodes pages).map convertPullRequest))) ∧
      (∀ node : prNode,
        (convertPullRequest node).Number = node.Number ∧
          (convertPullRequest node).UpdatedAt = node.UpdatedAt ∧
          (convertPullRequest node).Title = node.Title ∧
          (convertPullRequest node).Body = node.Body ∧
          (convertPullRequest node).State = node.State ∧
          (convertPullRequest node).Author = ⟨node.Author⟩ ∧
          (convertPullRequest node).CreatedAt = node.CreatedAt ∧
          (convertPullRequest node).ClosedAt = node.ClosedAt ∧
          (convertPullRequest node).MergedAt = node.MergedAt ∧
          (convertPullRequest node).Labels = node.Labels.map convertLabel ∧
          (convertPullRequest node).Comments = node.Comments.map convertComment ∧
          (convertPullRequest node).Reviews = node.Reviews.map convertReview ∧
          (convertPullRequest node).Events =
            node.TimelineItems.filterMap convertPRTimelineEvent) ∧
      ∃ prs, (FetchPullRequests query fuel owner repo since).outcome = some (.ok prs) ∧
        prs.map (fun pr => (pr.Number, pr.UpdatedAt)) =
          ((allNodes prQuery.Nodes pages).filter (fun n => notBefore since n.UpdatedAt)).map
            (fun n => (n.Number, n.UpdatedAt)) ∧
        (∀ pr ∈ prs, notBefore since pr.UpdatedAt = true) ∧
        ∀ node ∈ allNodes prQuery.Nodes pages, notBefore since node.UpdatedAt = true →
          ∃ pr ∈ prs, pr.Number = node.Number ∧ pr.UpdatedAt = node.UpdatedAt := by
  have hmain : (FetchPullRequests query fuel owner repo since).outcome =
      some (.ok (((allNodes prQuery.Nodes pages).filter
        (fun n => notBefore since n.UpdatedAt)).map convertPullRequest)) := by
    unfold FetchPullRequests
    rw [prsLoop_eq]
    have h := (pageLoop_served (fun c => query ⟨owner, repo, c⟩) prQuery.PageInfo
      (fun q acc => prsPage since q.Nodes acc) (prsStops since)
      (prsEmit since)
      (prsBody_eq since) (prsStops_of_last since)
      pages none [] fuel hserve hend hfuel).2
    simp only [h, List.nil_append]
    rw [prs_emitted_eq_filter since pages hend hdesc]
    simp only [notBefore_eq]
  have hfields : ∀ node : prNode,
      (convertPullRequest node).Number = node.Number ∧
        (convertPullRequest node).UpdatedAt = node.UpdatedAt :=
    fun node => ⟨rfl, rfl⟩
  refine ⟨hmain, ?_, fun node => ⟨rfl, rfl, rfl, rfl, rfl, rfl, rfl, rfl, rfl, rfl, rfl, rfl, rfl⟩,
    _, hmain, ?_, ?_, ?_⟩
  · intro hnone
    rw [hmain, hnone]
    simp [notBefore]
  · rw [List.map_map]
    refine List.map_congr_left ?_
    intro node _
    exact Prod.ext (hfields node).1 (hfields node).2
  · intro pr hpr
    obtain ⟨node, hnode, rfl⟩ := List.mem_map.mp hpr
    rw [(hfields node).2]
    exact (List.mem_filter.mp hnode).2
  · intro node hnode hnew
    exact ⟨convertPullRequest node,
      List.mem_map.mpr ⟨node, List.mem_filter.mpr ⟨hnode, hnew⟩, rfl⟩, hfields node⟩

/-- C1, on the example pages with `since = 20`: the record of the node updated exactly
at 20 is returned and the nodes updated at 10 and 5 are dropped; the three records
returned carry the numbers 5, 4, 3 and the update times 40, 30, 20 of their nodes. -/
theorem FetchPullRequests_cutoff_exact_witness :
    (FetchPullRequests exPRRemote 3 "o" "r" (some 20)).outcome =
      some (.ok [
        { Number := 5, Title := "t", Body := "b", State := "OPEN", Author := ⟨"a"⟩,
          CreatedAt := 1, UpdatedAt := 40, ClosedAt := none, MergedAt := none, Labels := [],
          Comments := [], Reviews := [], Events := [] },
        { Number := 4, Title := "t", Body := "b", State := "OPEN", Author := ⟨"a"⟩,
          CreatedAt := 1, UpdatedAt := 30, ClosedAt := none, MergedAt := none, Labels := [],
          Comments := [], Reviews := [], Events := [] },
        { Number := 3, Title := "t", Body := "b", State := "OPEN", Author := ⟨"a"⟩,
          CreatedAt := 1, UpdatedAt := 20, ClosedAt := none, MergedAt := none, Labels := [],
          Comments := [], Reviews := [], Events := [] }]) :=
  (FetchPullRequests_cutoff_exact exPRRemote "o" "r" (some 20) exPRPages 3
    ⟨rfl, rfl, rfl, trivial⟩ rfl (by unfold Descending; decide) (by decide)).1

/-- C2. `FetchDiscussions` cutoff: on a page sequence served by the remote that ends at
its first page without a next page, the fetch returns, for every optional `since`,
exactly the longest prefix, in remote order, of the concatenated page nodes whose update
time is not before `since`, decoded: the first older node and everything after it (also
on the same page) is not emitted. The page requests are the pages up to the first page
that holds an older node or reports no next page, so no page is requested after a page
that holds an older node. With `since` absent every node of every page is returned. The
decoded record of a node carries the number, the update time and every other field of
that node, so the numbers and update times of the returned records are those of the
nodes of that prefix, in remote order, and every returned record is not before
`since`. -/
theorem FetchDiscussions_stops_at_first_old
    (query : pageVars → Except Error discussionQuery) (owner repo : String)
    (since : Option Time) (pages : List discussionQuery) (fuel : Nat)
    (hserve : ServesFrom (fun c => query ⟨owner, repo, c⟩) discussionQuery.PageInfo none pages)
    (hend : endsAtLastPage discussionQuery.PageInfo pages = true)
    (hfuel : pages.length ≤ fuel) :
    (FetchDiscussions query fuel owner repo since).outcome =
        some (.ok (((allNodes discussionQuery.Nodes pages).takeWhile
          (fun n => notBefore since n.UpdatedAt)).map convertDiscussion)) ∧
      (FetchDiscussions query fuel owner repo since).requests.length =
        (pages.takeWhile (fun q => !discussionsStops since q)).length + 1 ∧
      (∀ (i : Nat) (q : discussionQuery) (n : discussionNode) (s : Time),
        pages[i]? = some q → n ∈ q.Nodes → since = some s → n.UpdatedAt < s →
        (FetchDiscussions query fuel owner repo since).requests.length ≤ i + 1) ∧
      (since = none →
        (FetchDiscussions query fuel owner repo since).outcome =
          some (.ok ((allNodes discussionQuery.Nodes pages).map convertDiscussion))) ∧
      (∀ node : discussionNode,
        (convertDiscussion node).Number = node.Number ∧
          (convertDiscussion node).UpdatedAt = node.UpdatedAt ∧
          (convertDiscussion node).Title = node.Title ∧
          (convertDiscussion node).Body = node.Body ∧
          (convertDiscussion node).Author = ⟨node.Author⟩ ∧
          (convertDiscussion node).Category = node.Category ∧
          (convertDiscussion node).CreatedAt = node.CreatedAt ∧
          (convertDiscussion node).Comments = node.Comments.map convertDiscussionComment) ∧
      ∃ discussions,
        (FetchDiscussions query fuel owner repo since).outcome = some (.ok discussions) ∧
          discussions.map (fun d => (d.Number, d.UpdatedAt)) =
            ((allNodes discussionQuery.Nodes pages).takeWhile
              (fun n => notBefore since n.UpdatedAt)).map (fun n => (n.Number, n.UpdatedAt)) ∧
          ∀ d ∈ discussions, notBefore since d.UpdatedAt = true := by
  have hrun := pageLoop_served (fun c => query ⟨owner, repo, c⟩) discussionQuery.PageInfo
      (fun q acc => (discussionsPage since q.Nodes acc).1) (discussionsStops since)
      (discussionsEmit since)
      (discussionsBody_eq since) (discussionsStops_of_last since)
      pages none [] fuel hserve hend hfuel
  have hmain : (FetchDiscussions query fuel owner repo since).outcome =
      some (.ok (((allNodes discussionQuery.Nodes pages).takeWhile
        (fun n => notBefore since n.UpdatedAt)).map convertDiscussion)) := by
    unfold FetchDiscussions
    rw [discussionsLoop_eq]
    simp only [hrun.2, List.nil_append]
    rw [discussions_emitted_eq_takeWhile since pages hend]
    simp only [notBefore_eq]
  have hlen : (FetchDiscussions query fuel owner repo since).requests.length =
      (pages.takeWhile (fun q => !discussionsStops since q)).length + 1 := by
    unfold FetchDiscussions
    rw [discussionsLoop_eq]
    simp only [hrun.1, List.length_map, cursorsFor_length]
    exact requestedPages_length discussionQuery.PageInfo (discussionsStops since)
      (discussionsStops_of_last since) pages hend
  have hfields : ∀ node : discussionNode,
      (convertDiscussion node).Number = node.Number ∧
        (convertDiscussion node).UpdatedAt = node.UpdatedAt :=
    fun node => ⟨rfl, rfl⟩
  refine ⟨hmain, hlen, ?_, ?_, fun node => ⟨rfl, rfl, rfl, rfl, rfl, rfl, rfl, rfl⟩,
    _, hmain, ?_, ?_⟩
  · intro i q n s hi hn hs hlt
    rw [hlen]
    have hstops : (!discussionsStops since q) = false := by
      have : q.Nodes.any (fun node => olderThan since node.UpdatedAt) = true :=
        List.any_eq_true.mpr ⟨n, hn, by simp [olderThan, hs, hlt]⟩
      simp [discussionsStops, this]
    exact Nat.succ_le_succ
      (takeWhile_length_le_of_fails (fun q => !discussionsStops since q) pages i q hi hstops)
  · intro hnone
    rw [hmain, hnone]
    have hall : (allNodes discussionQuery.Nodes pages).takeWhile
        (fun n => notBefore none n.UpdatedAt) = allNodes discussionQuery.Nodes pages :=
      List.takeWhile_eq_self_iff.mpr (fun _ _ => rfl)
    rw [hall]
  · rw [List.map_map]
    refine List.map_congr_left ?_
    intro node _
    exact Prod.ext (hfields node).1 (hfields node).2
  · intro d hd
    obtain ⟨node, hnode, rfl⟩ := List.mem_map.mp hd
    rw [(hfields node).2]
    exact @List.mem_takeWhile_imp discussionNode
      (fun n : discussionNode => notBefore since n.UpdatedAt) _ node hnode

/-- C2, on the example pages with `since = 30`: the result stops before the node updated
at 20, the two records returned carry the numbers 5, 4 and the update times 40, 30 of
their nodes, and only the first two pages are requested. -/
theorem FetchDiscussions_stops_at_first_old_witness :
    (FetchDiscussions exDiscussionRemote 3 "o" "r" (some 30)).outcome =
        some (.ok [
          { Number := 5, Title := "t", Body := "b", Author := ⟨"a"⟩, Category := "c",
            CreatedAt := 1, UpdatedAt := 40, Comments := [] },
          { Number := 4, Title := "t", Body := "b", Author := ⟨"a"⟩, Category := "c",
            CreatedAt := 1, UpdatedAt := 30, Comments := [] }]) ∧
      (FetchDiscussions exDiscussionRemote 3 "o" "r" (some 30)).requests.length = 2 :=
  ⟨(FetchDiscussions_stops_at_first_old exDiscussionRemote "o" "r" (some 30) exDiscussionPages 3
      ⟨rfl, rfl, rfl, trivial⟩ rfl (by decide)).1,
    (FetchDiscussions_stops_at_first_old exDiscussionRemote "o" "r" (some 30) exDiscussionPages 3
      ⟨rfl, rfl, rfl, trivial⟩ rfl (by decide)).2.1⟩

/-- C3. `FetchIssues` performs no client-side cutoff: on a page sequence served by the
remote that ends at its first page without a next page, for every `since`, present or
absent, it requests every page, returns one decoded record for every node of every
page in remote order, and hands `since` unchanged (with the owner and the repository)
to every page request. -/
theorem FetchIssues_no_cutoff
    (query : issueVars → Except Error issueQuery) (owner repo : String)
    (since : Option Time) (pages : List issueQuery) (fuel : Nat)
    (hserve : ServesFrom (fun c => query ⟨owner, repo, since, c⟩) issueQuery.PageInfo none pages)
    (hend : endsAtLastPage issueQuery.PageInfo pages = true)
    (hfuel : pages.length ≤ fuel) :
    (FetchIssues query fuel owner repo since).outcome =
        some (.ok ((allNodes issueQuery.Nodes pages).map convertIssue)) ∧
      (FetchIssues query fuel owner repo since).requests =
        (cursorsFor issueQuery.PageInfo none pages).map
          (fun c => ⟨owner, repo, since, c⟩) ∧
      (FetchIssues query fuel owner repo since).requests.length = pages.length := by
  have hdef := FetchIssues_eq query fuel owner repo since
  have hrun := pageLoop_served (fun c => query ⟨owner, repo, since, c⟩) issueQuery.PageInfo
      (fun q acc => issuesPage q.Nodes acc) issuesStops
      issuesEmit
      issuesBody_eq issuesStops_of_last
      pages none [] fuel hserve hend hfuel
  rw [requestedPages_issues pages hend] at hrun
  have hreq : (FetchIssues query fuel owner repo since).requests =
      (cursorsFor issueQuery.PageInfo none pages).map (fun c => ⟨owner, repo, since, c⟩) := by
    rw [hdef, issuesLoop_eq]
    simp only [hrun.1]
  refine ⟨?_, hreq, ?_⟩
  · rw [hdef, issuesLoop_eq]
    simp only [hrun.2, List.nil_append]
    have hemit : issuesEmit = fun q => q.Nodes.map convertIssue := rfl
    rw [hemit, allNodes_map]
  · rw [hreq, List.length_map, cursorsFor_length]

/-- C3, on the example pages with `since = 30`: all five issues come back, also those
updated before 30, and each of the three requests carries `since = 30`. -/
theorem FetchIssues_no_cutoff_witness :
    (FetchIssues exIssueRemote 3 "o" "r" (some 30)).outcome =
        some (.ok [convertIssue (exIssueNode 5 40), convertIssue (exIssueNode 4 30),
          convertIssue (exIssueNode 3 20), convertIssue (exIssueNode 2 10),
          convertIssue (exIssueNode 1 5)]) ∧
      (FetchIssues exIssueRemote 3 "o" "r" (some 30)).requests =
        [⟨"o", "r", some 30, none⟩, ⟨"o", "r", some 30, some "c1"⟩,
          ⟨"o", "r", some 30, some "c2"⟩] :=
  ⟨(FetchIssues_no_cutoff exIssueRemote "o" "r" (some 30) exIssuePages 3
      ⟨rfl, rfl, rfl, trivial⟩ rfl (by decide)).1,
    (FetchIssues_no_cutoff exIssueRemote "o" "r" (some 30) exIssuePages 3
      ⟨rfl, rfl, rfl, trivial⟩ rfl (by decide)).2.1⟩

/-- C4. `FetchPullRequests` page-loop termination: on a page sequence served by the
remote that ends at its first page without a next page, the number of page requests is
the 1-based index of the first page that reports no next page or that (with `since`
present and the page not empty) ends in a node older than `since`. A node older than
`since` does not stop the loop by itself: while every page so far reports a next page
and does not end in an older node, the next page is requested, whatever the other
nodes are. No page is requested after a page that is not empty and whose nodes are all
older than `since`. -/
theorem FetchPullRequests_page_requests
    (query : pageVars → Except Error prQuery) (owner repo : String) (since : Option Time)
    (pages : List prQuery) (fuel : Nat)
    (hserve : ServesFrom (fun c => query ⟨owner, repo, c⟩) prQuery.PageInfo none pages)
    (hend : endsAtLastPage prQuery.PageInfo pages = true)
    (hfuel : pages.length ≤ fuel) :
    (FetchPullRequests query fuel owner repo since).requests.length =
        (pages.takeWhile (fun q => !prsStops since q)).length + 1 ∧
      (FetchPullRequests query fuel owner repo since).requests.length ≤ pages.length ∧
      (∀ k : Nat, k ≤ pages.length →
        (∀ q ∈ pages.take k, q.PageInfo.HasNextPage = true ∧
          ∀ lastNode, q.Nodes.getLast? = some lastNode →
            olderThan since lastNode.UpdatedAt = false) →
        k < (FetchPullRequests query fuel owner repo since).requests.length) ∧
      (∀ (i : Nat) (q : prQuery) (s : Time), pages[i]? = some q → since = some s →
        q.Nodes ≠ [] → (∀ n ∈ q.Nodes, n.UpdatedAt < s) →
        (FetchPullRequests query fuel owner repo since).requests.length ≤ i + 1) := by
  have hrun := pageLoop_served (fun c => query ⟨owner, repo, c⟩) prQuery.PageInfo
      (fun q acc => prsPage since q.Nodes acc) (prsStops since)
      (prsEmit since)
      (prsBody_eq since) (prsStops_of_last since)
      pages none [] fuel hserve hend hfuel
  have hreq : (FetchPullRequests query fuel owner repo since).requests.length =
      (requestedPages (prsStops since) pages).length := by
    unfold FetchPullRequests
    rw [prsLoop_eq]
    simp only [hrun.1, List.length_map, cursorsFor_length]
  have hlen : (FetchPullRequests query fuel owner repo since).requests.length =
      (pages.takeWhile (fun q => !prsStops since q)).length + 1 := by
    rw [hreq]
    exact requestedPages_length prQuery.PageInfo (prsStops since)
      (prsStops_of_last since) pages hend
  refine ⟨hlen, ?_, ?_, ?_⟩
  · rw [hreq]
    exact requestedPages_length_le _ _
  · intro k hk hall
    rw [hlen]
    refine Nat.lt_succ_of_le (le_takeWhile_length _ pages k hk ?_)
    intro q hq
    obtain ⟨hnext, hlast⟩ := hall q hq
    cases since with
    | none => simp [prsStops, hnext]
    | some s =>
      cases hl : q.Nodes.getLast? with
      | none => simp [prsStops, hnext, hl]
      | some lastNode =>
        have := hlast lastNode hl
        simp only [olderThan] at this
        simp [prsStops, hnext, hl, this]
  · intro i q s hi hs hne hall
    rw [hlen]
    have hstops : (!prsStops since q) = false := by
      cases hl : q.Nodes.getLast? with
      | none => exact absurd (List.getLast?_eq_none_iff.mp hl) hne
      | some lastNode =>
        have hmem : lastNode ∈ q.Nodes := List.mem_of_getLast?_eq_some hl
        have hlt := hall lastNode hmem
        have hemp : q.Nodes.isEmpty = false := by
          cases hN : q.Nodes with
          | nil => exact absurd hN hne
          | cons a l => rfl
        simp [prsStops, hs, hl, hlt, hemp]
    exact Nat.succ_le_succ
      (takeWhile_length_le_of_fails (fun q => !prsStops since q) pages i q hi hstops)

/-- C4, on the example pages with `since = 20`: the second page ends in a node updated
at 10, so two pages are requested and the third is not. -/
theorem FetchPullRequests_page_requests_witness :
    (FetchPullRequests exPRRemote 3 "o" "r" (some 20)).requests.length =
      (exPRPages.takeWhile (fun q => !prsStops (some 20) q)).length + 1 :=
  (FetchPullRequests_page_requests exPRRemote "o" "r" (some 20) exPRPages 3
    ⟨rfl, rfl, rfl, trivial⟩ rfl (by decide)).1

/-- C5. Cursor-following protocol of `FetchIssues`, `FetchPullRequests` and
`FetchDiscussions`. For any remote and any fuel, the first page request carries the nil
cursor and every later request carries the `EndCursor` of the page that answered the
request before it. On a page sequence served by the remote whose last page, and no
earlier one, reports no next page, the requests go to the pages up to the first page
on which the stop condition of the kind holds (no next page; for pull requests also a
last node older than `since`; for discussions also any node older than `since`) and to
no page after it, so there are at most as many requests as pages, and the fetch
returns a result. -/
theorem fetchers_follow_cursors
    (issueRemote : issueVars → Except Error issueQuery)
    (prRemote : pageVars → Except Error prQuery)
    (discussionRemote : pageVars → Except Error discussionQuery)
    (owner repo : String) (since : Option Time) (fuel : Nat) :
    (FollowsCursors (fun c => issueRemote ⟨owner, repo, since, c⟩) issueQuery.PageInfo none
        ((FetchIssues issueRemote fuel owner repo since).requests.map issueVars.cursor) ∧
      ∀ pages : List issueQuery,
        ServesFrom (fun c => issueRemote ⟨owner, repo, since, c⟩) issueQuery.PageInfo none pages →
        endsAtLastPage issueQuery.PageInfo pages = true → pages.length ≤ fuel →
        (FetchIssues issueRemote fuel owner repo since).requests.map issueVars.cursor =
            cursorsFor issueQuery.PageInfo none (requestedPages issuesStops pages) ∧
          (FetchIssues issueRemote fuel owner repo since).requests.length ≤ pages.length ∧
          ∃ records, (FetchIssues issueRemote fuel owner repo since).outcome =
            some (.ok records)) ∧
    (FollowsCursors (fun c => prRemote ⟨owner, repo, c⟩) prQuery.PageInfo none
        ((FetchPullRequests prRemote fuel owner repo since).requests.map pageVars.cursor) ∧
      ∀ pages : List prQuery,
        ServesFrom (fun c => prRemote ⟨owner, repo, c⟩) prQuery.PageInfo none pages →
        endsAtLastPage prQuery.PageInfo pages = true → pages.length ≤ fuel →
        (FetchPullRequests prRemote fuel owner repo since).requests.map pageVars.cursor =
            cursorsFor prQuery.PageInfo none (requestedPages (prsStops since) pages) ∧
          (FetchPullRequests prRemote fuel owner repo since).requests.length ≤ pages.length ∧
          ∃ records, (FetchPullRequests prRemote fuel owner repo since).outcome =
            some (.ok records)) ∧
    (FollowsCursors (fun c => discussionRemote ⟨owner, repo, c⟩) discussionQuery.PageInfo none
        ((FetchDiscussions discussionRemote fuel owner repo since).requests.map
          pageVars.cursor) ∧
      ∀ pages : List discussionQuery,
        ServesFrom (fun c => discussionRemote ⟨owner, repo, c⟩) discussionQuery.PageInfo
          none pages →
        endsAtLastPage discussionQuery.PageInfo pages = true → pages.length ≤ fuel →
        (FetchDiscussions discussionRemote fuel owner repo since).requests.map
              pageVars.cursor =
            cursorsFor discussionQuery.PageInfo none
              (requestedPages (discussionsStops since) pages) ∧
          (FetchDiscussions discussionRemote fuel owner repo since).requests.length ≤
            pages.length ∧
          ∃ records, (FetchDiscussions discussionRemote fuel owner repo since).outcome =
            some (.ok records)) := by
  have hmapI : ∀ l : List (Option String),
      (l.map (fun c => (⟨owner, repo, since, c⟩ : issueVars))).map issueVars.cursor = l := by
    intro l
    simp [List.map_map, Function.comp_def]
  have hmapP : ∀ l : List (Option String),
      (l.map (fun c => (⟨owner, repo, c⟩ : pageVars))).map pageVars.cursor = l := by
    intro l
    simp [List.map_map, Function.comp_def]
  refine ⟨⟨?_, ?_⟩, ⟨?_, ?_⟩, ⟨?_, ?_⟩⟩
  · rw [FetchIssues_eq, issuesLoop_eq]
    simp only [hmapI]
    exact pageLoop_follows _ _ _ _ _ _ _
  · intro pages hserve hend hfuel
    have hrun := pageLoop_served (fun c => issueRemote ⟨owner, repo, since, c⟩)
      issueQuery.PageInfo (fun q acc => issuesPage q.Nodes acc) issuesStops
      issuesEmit
      issuesBody_eq issuesStops_of_last
      pages none [] fuel hserve hend hfuel
    rw [FetchIssues_eq, issuesLoop_eq]
    simp only [hmapI, hrun.1, hrun.2, List.length_map, cursorsFor_length]
    exact ⟨trivial, requestedPages_length_le _ _, _, rfl⟩
  · unfold FetchPullRequests
    rw [prsLoop_eq]
    simp only [hmapP]
    exact pageLoop_follows _ _ _ _ _ _ _
  · intro pages hserve hend hfuel
    have hrun := pageLoop_served (fun c => prRemote ⟨owner, repo, c⟩) prQuery.PageInfo
      (fun q acc => prsPage since q.Nodes acc) (prsStops since)
      (prsEmit since)
      (prsBody_eq since) (prsStops_of_last since)
      pages none [] fuel hserve hend hfuel
    unfold FetchPullRequests
    rw [prsLoop_eq]
    simp only [hmapP, hrun.1, hrun.2, List.length_map, cursorsFor_length]
    exact ⟨trivial, requestedPages_length_le _ _, _, rfl⟩
  · unfold FetchDiscussions
    rw [discussionsLoop_eq]
    simp only [hmapP]
    exact pageLoop_follows _ _ _ _ _ _ _
  · intro pages hserve hend hfuel
    have hrun := pageLoop_served (fun c => discussionRemote ⟨owner, repo, c⟩)
      discussionQuery.PageInfo
      (fun q acc => (discussionsPage since q.Nodes acc).1) (discussionsStops since)
      (discussionsEmit since)
      (discussionsBody_eq since) (discussionsStops_of_last since)
      pages none [] fuel hserve hend hfuel
    unfold FetchDiscussions
    rw [discussionsLoop_eq]
    simp only [hmapP, hrun.1, hrun.2, List.length_map, cursorsFor_length]
    exact ⟨trivial, requestedPages_length_le _ _, _, rfl⟩

/-- C5, on the example pages with `since = 20`: the pull-request fetch asks with the nil
cursor and then with `c1`, the `EndCursor` of the first page, and stops there. -/
theorem fetchers_follow_cursors_witness :
    (FetchPullRequests exPRRemote 3 "o" "r" (some 20)).requests.map pageVars.cursor =
      cursorsFor prQuery.PageInfo none (requestedPages (prsStops (some 20)) exPRPages) :=
  ((fetchers_follow_cursors exIssueRemote exPRRemote exDiscussionRemote "o" "r" (some 20)
    3).2.1.2 exPRPages ⟨rfl, rfl, rfl, trivial⟩ rfl (by decide)).1

/-! ## Theorems on the normalizers -/

/-- C6 fails as stated: a pull-request timeline item with the discriminator
`UnassignedEvent`, the remote type name of the recognized tag unassigned, yields no
event, and an issue timeline item with the discriminator `MergedEvent` yields none; so
neither normalizer yields an event for each of the ten type names. The event of a
commit carries the zero time, the commit shape having no timestamp. -/
theorem normalizers_miss_recognized_tags :
    "UnassignedEvent" ∈ recognizedTypeNames ∧
      convertPRTimelineEvent (exPRItem "UnassignedEvent") = none ∧
      "MergedEvent" ∈ recognizedTypeNames ∧
      convertTimelineEvent (exIssueItem "MergedEvent") = none ∧
      (¬ ∀ pi : prTimelineItem, pi.TypeName ∈ recognizedTypeNames →
        (convertPRTimelineEvent pi).isSome = true) ∧
      (¬ ∀ ti : issueTimelineItem, ti.TypeName ∈ recognizedTypeNames →
        (convertTimelineEvent ti).isSome = true) ∧
      (convertPRTimelineEvent (exPRItem "PullRequestCommit")).map Event.CreatedAt =
        some zeroTime := by
  refine ⟨by decide, by decide, by decide, by decide, ?_, ?_, by decide⟩
  · intro h
    have h1 := h (exPRItem "UnassignedEvent") (by decide)
    revert h1
    decide
  · intro h
    have h1 := h (exIssueItem "MergedEvent") (by decide)
    revert h1
    decide

/-- C6 as amended. Event normalization completeness, per normalizer. Each of the ten
recognized tags is produced by the normalizer whose item type carries its shape: the
issue normalizer maps the discriminators `ClosedEvent`, `ReopenedEvent`,
`LabeledEvent`, `UnlabeledEvent`, `AssignedEvent`, `UnassignedEvent`,
`CrossReferencedEvent`, and the pull-request normalizer maps `ClosedEvent`,
`ReopenedEvent`, `MergedEvent`, `LabeledEvent`, `UnlabeledEvent`, `AssignedEvent`,
`ReviewRequestedEvent`, `PullRequestCommit`, to an event with the corresponding tag,
the actor and the timestamp of the populated shape (the commit shape has no timestamp,
the event keeps the zero time) and the details of that shape. The key set of the
details of every event produced is the one the tag determines. An item whose
discriminator is none of the ten type names yields no event from either normalizer;
neither does an item with the discriminator `MergedEvent`, `ReviewRequestedEvent` or
`PullRequestCommit` from the issue normalizer, nor an item with the discriminator
`UnassignedEvent` or `CrossReferencedEvent` from the pull-request normalizer. -/
theorem normalizers_complete :
    (∀ ti : issueTimelineItem,
      convertTimelineEvent { ti with TypeName := "ClosedEvent" } =
          some ⟨"closed", ⟨ti.ClosedEvent.Actor⟩, ti.ClosedEvent.CreatedAt, none⟩ ∧
        convertTimelineEvent { ti with TypeName := "ReopenedEvent" } =
          some ⟨"reopened", ⟨ti.ReopenedEvent.Actor⟩, ti.ReopenedEvent.CreatedAt, none⟩ ∧
        convertTimelineEvent { ti with TypeName := "LabeledEvent" } =
          some ⟨"labeled", ⟨ti.LabeledEvent.Actor⟩, ti.LabeledEvent.CreatedAt,
            some [("label", ti.LabeledEvent.Label)]⟩ ∧
        convertTimelineEvent { ti with TypeName := "UnlabeledEvent" } =
          some ⟨"unlabeled", ⟨ti.UnlabeledEvent.Actor⟩, ti.UnlabeledEvent.CreatedAt,
            some [("label", ti.UnlabeledEvent.Label)]⟩ ∧
        convertTimelineEvent { ti with TypeName := "AssignedEvent" } =
          some ⟨"assigned", ⟨ti.AssignedEvent.Actor⟩, ti.AssignedEvent.CreatedAt,
            some [("assignee", ti.AssignedEvent.Assignee)]⟩ ∧
        convertTimelineEvent { ti with TypeName := "UnassignedEvent" } =
          some ⟨"unassigned", ⟨ti.UnassignedEvent.Actor⟩, ti.UnassignedEvent.CreatedAt,
            some [("assignee", ti.UnassignedEvent.Assignee)]⟩ ∧
        convertTimelineEvent { ti with TypeName := "CrossReferencedEvent" } =
          some ⟨"cross-referenced", ⟨ti.CrossReferencedEvent.Actor⟩,
            ti.CrossReferencedEvent.CreatedAt, none⟩) ∧
    (∀ ti : prTimelineItem,
      convertPRTimelineEvent { ti with TypeName := "ClosedEvent" } =
          some ⟨"closed", ⟨ti.ClosedEvent.Actor⟩, ti.ClosedEvent.CreatedAt, none⟩ ∧
        convertPRTimelineEvent { ti with TypeName := "ReopenedEvent" } =
          some ⟨"reopened", ⟨ti.ReopenedEvent.Actor⟩, ti.ReopenedEvent.CreatedAt, none⟩ ∧
        convertPRTimelineEvent { ti with TypeName := "MergedEvent" } =
          some ⟨"merged", ⟨ti.MergedEvent.Actor⟩, ti.MergedEvent.CreatedAt, none⟩ ∧
        convertPRTimelineEvent { ti with TypeName := "LabeledEvent" } =
          some ⟨"labeled", ⟨ti.LabeledEvent.Actor⟩, ti.LabeledEvent.CreatedAt,
            some [("label", ti.LabeledEvent.Label)]⟩ ∧
        convertPRTimelineEvent { ti with TypeName := "UnlabeledEvent" } =
          some ⟨"unlabeled", ⟨ti.UnlabeledEvent.Actor⟩, ti.UnlabeledEvent.CreatedAt,
            some [("label", ti.UnlabeledEvent.Label)]⟩ ∧
        convertPRTimelineEvent { ti with TypeName := "AssignedEvent" } =
          some ⟨"assigned", ⟨ti.AssignedEvent.Actor⟩, ti.AssignedEvent.CreatedAt,
            some [("assignee", ti.AssignedEvent.Assignee)]⟩ ∧
        convertPRTimelineEvent { ti with TypeName := "ReviewRequestedEvent" } =
          some ⟨"review_requested", ⟨ti.ReviewRequestedEvent.Actor⟩,
            ti.ReviewRequestedEvent.CreatedAt,
            some [("reviewer", ti.ReviewRequestedEvent.RequestedReviewer)]⟩ ∧
        convertPRTimelineEvent { ti with TypeName := "PullRequestCommit" } =
          some ⟨"commit", ⟨ti.PullRequestCommit.AuthorName⟩, zeroTime,
            some [("sha", ti.PullRequestCommit.Oid),
              ("message", ti.PullRequestCommit.Message)]⟩) ∧
    (∀ (ti : issueTimelineItem) (e : Event),
      convertTimelineEvent ti = some e → e.keys = detailKeys e.Type_) ∧
    (∀ (ti : prTimelineItem) (e : Event),
      convertPRTimelineEvent ti = some e → e.keys = detailKeys e.Type_) ∧
    (∀ ti : issueTimelineItem,
      ti.TypeName ∉ recognizedTypeNames → convertTimelineEvent ti = none) ∧
    (∀ ti : prTimelineItem,
      ti.TypeName ∉ recognizedTypeNames → convertPRTimelineEvent ti = none) ∧
    (∀ ti : issueTimelineItem,
      ti.TypeName ∈ ["MergedEvent", "ReviewRequestedEvent", "PullRequestCommit"] →
        convertTimelineEvent ti = none) ∧
    (∀ ti : prTimelineItem,
      ti.TypeName ∈ ["UnassignedEvent", "CrossReferencedEvent"] →
        convertPRTimelineEvent ti = none) := by
  refine ⟨?_, ?_, ?_, ?_, ?_, ?_, ?_, ?_⟩
  · intro ti
    simp [convertTimelineEvent]
  · intro ti
    simp [convertPRTimelineEvent]
  · intro ti e h
    unfold convertTimelineEvent at h
    split_ifs at h <;>
      (simp only [Option.some.injEq] at h; subst h; simp [Event.keys, detailKeys])
  · intro ti e h
    unfold convertPRTimelineEvent at h
    split_ifs at h <;>
      (simp only [Option.some.injEq] at h; subst h; simp [Event.keys, detailKeys])
  · intro ti h
    simp only [recognizedTypeNames, List.mem_cons, List.mem_singleton, not_or,
      List.not_mem_nil, or_false] at h
    simp [convertTimelineEvent, h]
  · intro ti h
    simp only [recognizedTypeNames, List.mem_cons, List.mem_singleton, not_or,
      List.not_mem_nil, or_false] at h
    simp [convertPRTimelineEvent, h]
  · intro ti h
    simp only [List.mem_cons, List.mem_singleton, List.not_mem_nil, or_false] at h
    rcases h with h | h | h <;> simp [convertTimelineEvent, h]
  · intro ti h
    simp only [List.mem_cons, List.mem_singleton, List.not_mem_nil, or_false] at h
    rcases h with h | h <;> simp [convertPRTimelineEvent, h]

/-- C6 as amended, on example items: the issue normalizer yields the labeled event of
the `LabeledEvent` shape, the pull-request normalizer yields the commit event with the
zero time, and an item with the discriminator `IssueComment`, which is none of the ten
type names, yields no event from either normalizer. -/
theorem normalizers_complete_witness :
    convertTimelineEvent (exIssueItem "LabeledEvent") =
        some ⟨"labeled", ⟨"u"⟩, 7, some [("label", "bug")]⟩ ∧
      convertPRTimelineEvent (exPRItem "PullRequestCommit") =
        some ⟨"commit", ⟨"u"⟩, zeroTime, some [("sha", "abc"), ("message", "msg")]⟩ ∧
      convertTimelineEvent (exIssueItem "IssueComment") = none ∧
      convertPRTimelineEvent (exPRItem "IssueComment") = none :=
  ⟨(normalizers_complete.1 (exIssueItem "x")).2.2.1,
    (normalizers_complete.2.1 (exPRItem "x")).2.2.2.2.2.2.2,
    normalizers_complete.2.2.2.2.1 (exIssueItem "IssueComment") (by decide),
    normalizers_complete.2.2.2.2.2.1 (exPRItem "IssueComment") (by decide)⟩

/-- C7 fails as stated: on the discriminator `UnassignedEvent` the issue normalizer
yields an event and the pull-request normalizer, given the same discriminator and the
same shapes, yields none; so it is not true that the pull-request normalizer yields
the same event wherever the issue normalizer yields one. -/
theorem pr_vocabulary_not_superset :
    SameShapes (exIssueItem "UnassignedEvent") (exPRItem "UnassignedEvent") ∧
      convertTimelineEvent (exIssueItem "UnassignedEvent") =
        some ⟨"unassigned", ⟨"u"⟩, 7, some [("assignee", "v")]⟩ ∧
      convertPRTimelineEvent (exPRItem "UnassignedEvent") = none ∧
      ¬ ∀ (ti : issueTimelineItem) (pi : prTimelineItem), SameShapes ti pi →
        (convertTimelineEvent ti).isSome = true →
        convertPRTimelineEvent pi = convertTimelineEvent ti := by
  refine ⟨⟨rfl, rfl, rfl, rfl, rfl, rfl⟩, by decide, by decide, ?_⟩
  intro h
  have h1 := h (exIssueItem "UnassignedEvent") (exPRItem "UnassignedEvent")
    ⟨rfl, rfl, rfl, rfl, rfl, rfl⟩ (by decide)
  revert h1
  decide

/-- C7 as amended. Given the same discriminator and the same populated shape, the two
normalizers yield the same event on `ClosedEvent`, `ReopenedEvent`, `LabeledEvent`,
`UnlabeledEvent` and `AssignedEvent`, and both yield none on every discriminator
outside the ten type names; they differ exactly on five discriminators: on
`UnassignedEvent` and `CrossReferencedEvent` only the issue normalizer yields an event,
on `MergedEvent`, `ReviewRequestedEvent` and `PullRequestCommit` only the pull-request
normalizer does. -/
theorem normalizers_differ_on_five (ti : issueTimelineItem) (pi : prTimelineItem)
    (hsame : SameShapes ti pi) :
    (convertPRTimelineEvent pi ≠ convertTimelineEvent ti ↔
        ti.TypeName ∈ ["UnassignedEvent", "CrossReferencedEvent", "MergedEvent",
          "ReviewRequestedEvent", "PullRequestCommit"]) ∧
      (ti.TypeName ∈ ["ClosedEvent", "ReopenedEvent", "LabeledEvent", "UnlabeledEvent",
          "AssignedEvent"] →
        (convertTimelineEvent ti).isSome = true ∧
          convertPRTimelineEvent pi = convertTimelineEvent ti) ∧
      (ti.TypeName ∈ ["UnassignedEvent", "CrossReferencedEvent"] →
        (convertTimelineEvent ti).isSome = true ∧ convertPRTimelineEvent pi = none) ∧
      (ti.TypeName ∈ ["MergedEvent", "ReviewRequestedEvent", "PullRequestCommit"] →
        convertTimelineEvent ti = none ∧ (convertPRTimelineEvent pi).isSome = true) := by
  obtain ⟨hT, hC, hR, hL, hU, hA⟩ := hsame
  simp only [List.mem_cons, List.mem_singleton, List.not_mem_nil, or_false]
  unfold convertPRTimelineEvent convertTimelineEvent
  rw [hT, hC, hR, hL, hU, hA]
  by_cases h1 : ti.TypeName = "ClosedEvent"
  · simp [h1]
  by_cases h2 : ti.TypeName = "ReopenedEvent"
  · simp [h2]
  by_cases h3 : ti.TypeName = "LabeledEvent"
  · simp [h3]
  by_cases h4 : ti.TypeName = "UnlabeledEvent"
  · simp [h4]
  by_cases h5 : ti.TypeName = "AssignedEvent"
  · simp [h5]
  by_cases h6 : ti.TypeName = "UnassignedEvent"
  · simp [h6]
  by_cases h7 : ti.TypeName = "CrossReferencedEvent"
  · simp [h7]
  by_cases h8 : ti.TypeName = "MergedEvent"
  · simp [h8]
  by_cases h9 : ti.TypeName = "ReviewRequestedEvent"
  · simp [h9]
  by_cases h10 : ti.TypeName = "PullRequestCommit"
  · simp [h10]
  simp [h1, h2, h3, h4, h5, h6, h7, h8, h9, h10]

/-- C7 as amended, on two items with the discriminator `CrossReferencedEvent`. -/
theorem normalizers_differ_on_five_witness :
    (convertTimelineEvent (exIssueItem "CrossReferencedEvent")).isSome = true ∧
      convertPRTimelineEvent (exPRItem "CrossReferencedEvent") = none :=
  (normalizers_differ_on_five (exIssueItem "CrossReferencedEvent")
    (exPRItem "CrossReferencedEvent") ⟨rfl, rfl, rfl, rfl, rfl, rfl⟩).2.2.1 (by decide)

/-! ## Lemmas on the store -/

theorem readAt_removeAt (files : List (Path × Bytes)) (p q : Path) :
    readAt (removeAt files p) q = if q = p then none else readAt files q := by
  induction files with
  | nil => simp [removeAt, readAt]
  | cons f rest ih =>
    obtain ⟨fp, fb⟩ := f
    unfold removeAt at ih ⊢
    simp only [ne_eq, decide_not] at ih ⊢
    by_cases hfp : fp = p
    · subst hfp
      by_cases hq : q = fp
      · subst hq
        simpa [List.filter_cons, readAt] using ih
      · have hq2 : ¬ fp = q := fun h => hq h.symm
        simp [List.filter_cons, readAt, hq, hq2, ih]
    · by_cases hq : q = p
      · subst hq
        simp [List.filter_cons, readAt, hfp, ih]
      · simp [List.filter_cons, readAt, hfp, hq, ih]

theorem readAt_writeAt (files : List (Path × Bytes)) (p q : Path) (b : Bytes) :
    readAt (writeAt files p b) q = if q = p then some b else readAt files q := by
  unfold writeAt
  by_cases hq : q = p
  · subst hq
    simp [readAt]
  · have hq2 : ¬ p = q := fun h => hq h.symm
    simp [readAt, hq, hq2, readAt_removeAt]

theorem fault_files (w : World) : (w.fault).2.files = w.files := by
  unfold World.fault
  split <;> rfl

theorem fault_trace (w : World) : (w.fault).2.trace = w.trace := by
  unfold World.fault
  split <;> rfl

theorem isTmpPath_tmp (dir : Path) (r : Nat) : isTmpPath (dir ++ [tmpName r]) = true := by
  simp [isTmpPath, tmpName, List.isPrefixOf_iff_prefix]

theorem ne_of_isTmpPath {p q : Path} (hp : isTmpPath p = true) (hq : isTmpPath q = false) :
    q ≠ p := by
  intro h
  rw [h, hp] at hq
  exact Bool.noConfusion hq

theorem Frame.refl (w : World) : Frame w w [] := by
  refine ⟨by simp, fun _ _ _ => rfl, fun _ _ h => h, ?_⟩
  intro src q h
  simp at h

theorem Frame.trans {w₁ w₂ w₃ : World} {ops₁ ops₂ : List Call}
    (h₁ : Frame w₁ w₂ ops₁) (h₂ : Frame w₂ w₃ ops₂) : Frame w₁ w₃ (ops₁ ++ ops₂) := by
  obtain ⟨t1, f1, k1, r1⟩ := h₁
  obtain ⟨t2, f2, k2, r2⟩ := h₂
  refine ⟨by rw [t2, t1, List.append_assoc], ?_, ?_, ?_⟩
  · intro q hq hno
    rw [f2 q hq (fun src h => hno src (List.mem_append_right _ h)),
      f1 q hq (fun src h => hno src (List.mem_append_left _ h))]
  · intro q hq h
    exact k2 q hq (k1 q hq h)
  · intro src q h hq
    rcases List.mem_append.mp h with h | h
    · exact k2 q hq (r1 src q h hq)
    · exact r2 src q h hq

/-- Calls that leave every file alone that is not a temporary file, none of them a
successful rename. -/
theorem Frame.of_untouched {w w' : World} {ops : List Call}
    (htrace : w'.trace = w.trace ++ ops)
    (hno : ∀ src q, (⟨.rename src q, true⟩ : Call) ∉ ops)
    (hfiles : ∀ q, isTmpPath q = false → readAt w'.files q = readAt w.files q) :
    Frame w w' ops := by
  refine ⟨htrace, fun q hq _ => hfiles q hq, ?_, ?_⟩
  · intro q hq h
    rw [hfiles q hq]
    exact h
  · intro src q h
    exact absurd h (hno src q)

theorem osMkdirAll_frame (dir : Path) (w : World) :
    Frame w (osMkdirAll dir w).2 [⟨.mkdirAll dir, succeeded (osMkdirAll dir w).1⟩] ∧
      (osMkdirAll dir w).2.files = w.files := by
  unfold osMkdirAll
  cases hf : w.fault with
  | mk f w1 =>
    have hfiles : w1.files = w.files := by rw [← fault_files w, hf]
    have htrace : w1.trace = w.trace := by rw [← fault_trace w, hf]
    cases f with
    | some k =>
      refine ⟨Frame.of_untouched ?_ ?_ ?_, ?_⟩
      · simp [World.log, succeeded, htrace]
      · intro src q h
        simp at h
      · intro q _
        simp [World.log, hfiles]
      · simp [World.log, hfiles]
    | none =>
      refine ⟨Frame.of_untouched ?_ ?_ ?_, ?_⟩
      · simp [World.log, succeeded, htrace]
      · intro src q h
        simp at h
      · intro q _
        simp [World.log, hfiles]
      · simp [World.log, hfiles]

theorem osReadFile_frame (path : Path) (w : World) :
    Frame w (osReadFile path w).2 [⟨.readFile path, succeeded (osReadFile path w).1⟩] ∧
      (osReadFile path w).2.files = w.files ∧
      (∀ data, (osReadFile path w).1 = .ok data → readAt w.files path = some data) ∧
      ((osReadFile path w).1 = .error errNotExist → readAt w.files path = none) := by
  unfold osReadFile
  cases hf : w.fault with
  | mk f w1 =>
    have hfiles : w1.files = w.files := by rw [← fault_files w, hf]
    have htrace : w1.trace = w.trace := by rw [← fault_trace w, hf]
    cases f with
    | some k =>
      refine ⟨Frame.of_untouched ?_ ?_ ?_, ?_, ?_, ?_⟩
      · simp [World.log, succeeded, htrace]
      · intro src q h
        simp at h
      · intro q _
        simp [World.log, hfiles]
      · simp [World.log, hfiles]
      · intro data h
        simp at h
      · intro h
        simp [errNotExist] at h
    | none =>
      simp only
      cases hr : readAt w1.files path with
      | none =>
        refine ⟨Frame.of_untouched ?_ ?_ ?_, ?_, ?_, ?_⟩
        · simp [World.log, succeeded, htrace]
        · intro src q h
          simp at h
        · intro q _
          simp [World.log, hfiles]
        · simp [World.log, hfiles]
        · intro data h
          simp at h
        · intro _
          rw [← hfiles, hr]
      | some data =>
        refine ⟨Frame.of_untouched ?_ ?_ ?_, ?_, ?_, ?_⟩
        · simp [World.log, succeeded, htrace]
        · intro src q h
          simp at h
        · intro q _
          simp [World.log, hfiles]
        · simp [World.log, hfiles]
        · intro d h
          simp at h
          rw [← hfiles, hr, h]
        · intro h
          simp at h

/-- One call that is not a successful rename and leaves the files alone that are not
temporary files. -/
theorem frame_log {w w1 w' : World} {op : Op} {ok : Bool}
    (hfiles1 : w1.files = w.files) (htrace1 : w1.trace = w.trace)
    (htrace : w'.trace = w1.trace ++ [⟨op, ok⟩])
    (hno : ∀ src q, op = .rename src q → ok = false)
    (hfiles : ∀ q, isTmpPath q = false → readAt w'.files q = readAt w1.files q) :
    Frame w w' [⟨op, ok⟩] := by
  refine Frame.of_untouched (by rw [htrace, htrace1]) ?_ ?_
  · intro src q h
    simp only [List.mem_singleton, Call.mk.injEq] at h
    have := hno src q h.1.symm
    rw [this] at h
    exact Bool.noConfusion h.2
  · intro q hq
    rw [hfiles q hq, hfiles1]

theorem osCreateTemp_frame (dir : Path) (w : World) :
    ∃ name, name.dropLast = dir ∧ isTmpPath name = true ∧
      Frame w (osCreateTemp dir w).2
        [⟨.createTemp dir name, succeeded (osCreateTemp dir w).1⟩] ∧
      ∀ n, (osCreateTemp dir w).1 = .ok n → n = name := by
  refine ⟨dir ++ [tmpName (freeTemp w.files dir 10000 w.rand).1], by simp,
    isTmpPath_tmp _ _, ?_⟩
  unfold osCreateTemp
  cases hf : w.fault with
  | mk f w1 =>
    have hfiles : w1.files = w.files := by rw [← fault_files w, hf]
    have htrace : w1.trace = w.trace := by rw [← fault_trace w, hf]
    cases f with
    | some k =>
      refine ⟨frame_log hfiles htrace (by simp [World.log, succeeded]) (by simp)
        (by simp [World.log]), ?_⟩
      intro n h
      simp at h
    | none =>
      simp only
      split
      · refine ⟨frame_log hfiles htrace (by simp [World.log, succeeded]) (by simp) ?_, ?_⟩
        · intro q hq
          have hne := ne_of_isTmpPath
            (isTmpPath_tmp dir (freeTemp w.files dir 10000 w.rand).1) hq
          simp [World.log, readAt_writeAt, hne]
        · intro n h
          simp at h
          exact h.symm
      · refine ⟨frame_log hfiles htrace (by simp [World.log, succeeded]) (by simp)
          (by simp [World.log]), ?_⟩
        intro n h
        simp at h

theorem osWrite_frame (tmp : Path) (data : Bytes) (w : World) (ht : isTmpPath tmp = true) :
    Frame w (osWrite tmp data w).2 [⟨.write tmp, succeeded (osWrite tmp data w).1⟩] ∧
      ((osWrite tmp data w).1 = .ok () → readAt (osWrite tmp data w).2.files tmp = some data) := by
  unfold osWrite
  cases hf : w.fault with
  | mk f w1 =>
    have hfiles : w1.files = w.files := by rw [← fault_files w, hf]
    have htrace : w1.trace = w.trace := by rw [← fault_trace w, hf]
    cases f with
    | some k =>
      refine ⟨frame_log hfiles htrace (by simp [World.log, succeeded]) (by simp) ?_, ?_⟩
      · intro q hq
        have hne := ne_of_isTmpPath ht hq
        simp [World.log, readAt_writeAt, hne]
      · intro h
        simp at h
    | none =>
      refine ⟨frame_log hfiles htrace (by simp [World.log, succeeded]) (by simp) ?_, ?_⟩
      · intro q hq
        have hne := ne_of_isTmpPath ht hq
        simp [World.log, readAt_writeAt, hne]
      · intro _
        simp [World.log, readAt_writeAt]

theorem osClose_frame (tmp : Path) (w : World) :
    Frame w (osClose tmp w).2 [⟨.close tmp, succeeded (osClose tmp w).1⟩] ∧
      (osClose tmp w).2.files = w.files := by
  unfold osClose
  cases hf : w.fault with
  | mk f w1 =>
    have hfiles : w1.files = w.files := by rw [← fault_files w, hf]
    have htrace : w1.trace = w.trace := by rw [← fault_trace w, hf]
    cases f with
    | some k =>
      exact ⟨frame_log hfiles htrace (by simp [World.log, succeeded]) (by simp)
        (by simp [World.log]), by simp [World.log, hfiles]⟩
    | none =>
      exact ⟨frame_log hfiles htrace (by simp [World.log, succeeded]) (by simp)
        (by simp [World.log]), by simp [World.log, hfiles]⟩

theorem osRemove_frame (tmp : Path) (w : World) (ht : isTmpPath tmp = true) :
    Frame w (osRemove tmp w).2 [⟨.remove tmp, succeeded (osRemove tmp w).1⟩] := by
  unfold osRemove
  cases hf : w.fault with
  | mk f w1 =>
    have hfiles : w1.files = w.files := by rw [← fault_files w, hf]
    have htrace : w1.trace = w.trace := by rw [← fault_trace w, hf]
    cases f with
    | some k =>
      exact frame_log hfiles htrace (by simp [World.log, succeeded]) (by simp)
        (by simp [World.log])
    | none =>
      refine frame_log hfiles htrace (by simp [World.log, succeeded]) (by simp) ?_
      intro q hq
      have hne := ne_of_isTmpPath ht hq
      simp [World.log, readAt_removeAt, hne]

theorem osRename_frame (src dst : Path) (w : World) (hsrc : isTmpPath src = true) :
    Frame w (osRename src dst w).2 [⟨.rename src dst, succeeded (osRename src dst w).1⟩] ∧
      ((osRename src dst w).1 = .ok () →
        readAt (osRename src dst w).2.files dst = readAt w.files src) := by
  unfold osRename
  cases hf : w.fault with
  | mk f w1 =>
    have hfiles : w1.files = w.files := by rw [← fault_files w, hf]
    have htrace : w1.trace = w.trace := by rw [← fault_trace w, hf]
    cases f with
    | some k =>
      refine ⟨frame_log hfiles htrace (by simp [World.log, succeeded])
        (by simp [succeeded]) (by simp [World.log]), ?_⟩
      intro h
      simp at h
    | none =>
      simp only
      cases hr : readAt w1.files src with
      | none =>
        refine ⟨frame_log hfiles htrace (by simp [World.log, succeeded])
          (by simp [succeeded]) (by simp [World.log]), ?_⟩
        intro h
        simp at h
      | some data =>
        refine ⟨⟨by simp [World.log, succeeded, htrace], ?_, ?_, ?_⟩, ?_⟩
        · intro q hq hno
          have hne := ne_of_isTmpPath hsrc hq
          have hqd : q ≠ dst := by
            intro h
            exact hno src (by simp [succeeded, h])
          simp [World.log, readAt_writeAt, readAt_removeAt, hne, hqd, hfiles]
        · intro q hq h
          have hne := ne_of_isTmpPath hsrc hq
          by_cases hqd : q = dst
          · simp [World.log, readAt_writeAt, hqd]
          · simpa [World.log, readAt_writeAt, readAt_removeAt, hne, hqd, hfiles] using h
        · intro s q h _
          simp only [List.mem_singleton, Call.mk.injEq, Op.rename.injEq] at h
          simp [World.log, readAt_writeAt, h.1.2]
        · intro _
          simp [World.log, readAt_writeAt, ← hfiles, hr]

/-- What an atomic write does: its calls are those of `WriteOp`; files that are not
temporary files change only through its one rename onto `path`; when it succeeds
every call succeeded and `path` holds the marshalled bytes; when it fails no rename
succeeded. -/
theorem atomicWrite_frame (path : Path) (data : Except Error Bytes) (w : World) :
    ∃ ops, Frame w (atomicWrite path data w).2 ops ∧
      (∀ c ∈ ops, WriteOp path c.op) ∧
      ((atomicWrite path data w).1 = .ok () →
        (∀ c ∈ ops, c.ok = true) ∧
          ∃ b, data = .ok b ∧ readAt (atomicWrite path data w).2.files path = some b) ∧
      ((atomicWrite path data w).1 ≠ .ok () →
        ∀ c ∈ ops, ∀ src dst, c.op = .rename src dst → c.ok = false) := by
  cases data with
  | error err =>
    refine ⟨[], by simpa [atomicWrite] using Frame.refl w, by simp, ?_, by simp⟩
    intro h
    simp [atomicWrite] at h
  | ok b =>
    unfold atomicWrite
    simp only
    obtain ⟨fm, _⟩ := osMkdirAll_frame path.dropLast w
    cases h1 : osMkdirAll path.dropLast w with
    | mk r1 w1 =>
      rw [h1] at fm
      cases r1 with
      | error e1 =>
        refine ⟨_, fm, ?_, ?_, ?_⟩
        · intro c hc
          simp only [List.mem_singleton] at hc
          subst hc
          simp [WriteOp]
        · intro h
          simp at h
        · intro _ c hc src dst hop
          simp only [List.mem_singleton] at hc
          subst hc
          simp at hop
      | ok u1 =>
        cases u1
        dsimp only
        obtain ⟨name, hdir, htmp, fc, hname⟩ := osCreateTemp_frame path.dropLast w1
        cases h2 : osCreateTemp path.dropLast w1 with
        | mk r2 w2 =>
          rw [h2] at fc hname
          cases r2 with
          | error e2 =>
            dsimp only
            refine ⟨_, fm.trans fc, ?_, ?_, ?_⟩
            · intro c hc
              simp only [List.singleton_append, List.mem_cons, List.mem_singleton,
                List.not_mem_nil, or_false] at hc
              rcases hc with rfl | rfl <;> simp [WriteOp, hdir, htmp]
            · intro h
              simp at h
            · intro _ c hc src dst hop
              simp only [List.singleton_append, List.mem_cons, List.mem_singleton,
                List.not_mem_nil, or_false] at hc
              rcases hc with rfl | rfl <;> simp at hop
          | ok tmp =>
            dsimp only
            have htn : tmp = name := hname tmp rfl
            subst htn
            obtain ⟨fw, hwr⟩ := osWrite_frame tmp b w2 htmp
            cases h3 : osWrite tmp b w2 with
            | mk r3 w3 =>
              rw [h3] at fw hwr
              cases r3 with
              | error e3 =>
                dsimp only
                have fcl := (osClose_frame tmp w3).1
                have frm := osRemove_frame tmp (osClose tmp w3).2 htmp
                refine ⟨_, ((fm.trans fc).trans fw).trans (fcl.trans frm), ?_, ?_, ?_⟩
                · intro c hc
                  simp only [List.singleton_append, List.cons_append, List.nil_append,
                    List.mem_cons, List.mem_singleton, List.not_mem_nil, or_false] at hc
                  rcases hc with rfl | rfl | rfl | rfl | rfl <;> simp [WriteOp, hdir, htmp]
                · intro h
                  simp at h
                · intro _ c hc src dst hop
                  simp only [List.singleton_append, List.cons_append, List.nil_append,
                    List.mem_cons, List.mem_singleton, List.not_mem_nil, or_false] at hc
                  rcases hc with rfl | rfl | rfl | rfl | rfl <;> simp at hop
              | ok u3 =>
                cases u3
                dsimp only
                obtain ⟨fcl, hclf⟩ := osClose_frame tmp w3
                cases h4 : osClose tmp w3 with
                | mk r4 w4 =>
                  rw [h4] at fcl hclf
                  cases r4 with
                  | error e4 =>
                    dsimp only
                    have frm := osRemove_frame tmp w4 htmp
                    refine ⟨_, (((fm.trans fc).trans fw).trans fcl).trans frm, ?_, ?_, ?_⟩
                    · intro c hc
                      simp only [List.singleton_append, List.cons_append, List.nil_append,
                        List.mem_cons, List.mem_singleton, List.not_mem_nil, or_false] at hc
                      rcases hc with rfl | rfl | rfl | rfl | rfl <;>
                        simp [WriteOp, hdir, htmp]
                    · intro h
                      simp at h
                    · intro _ c hc src dst hop
                      simp only [List.singleton_append, List.cons_append, List.nil_append,
                        List.mem_cons, List.mem_singleton, List.not_mem_nil, or_false] at hc
                      rcases hc with rfl | rfl | rfl | rfl | rfl <;> simp at hop
                  | ok u4 =>
                    cases u4
                    dsimp only
                    obtain ⟨frn, hrn⟩ := osRename_frame tmp path w4 htmp
                    refine ⟨_, (((fm.trans fc).trans fw).trans fcl).trans frn, ?_, ?_, ?_⟩
                    · intro c hc
                      simp only [List.singleton_append, List.cons_append, List.nil_append,
                        List.mem_cons, List.mem_singleton, List.not_mem_nil, or_false] at hc
                      rcases hc with rfl | rfl | rfl | rfl | rfl <;>
                        simp [WriteOp, hdir, htmp]
                    · intro h
                      refine ⟨?_, b, rfl, ?_⟩
                      · intro c hc
                        simp only [List.singleton_append, List.cons_append, List.nil_append,
                          List.mem_cons, List.mem_singleton, List.not_mem_nil, or_false] at hc
                        rcases hc with rfl | rfl | rfl | rfl | rfl <;> simp [succeeded, h]
                      · rw [hrn h, hclf]
                        exact hwr rfl
                    · intro h c hc src dst hop
                      simp only [List.singleton_append, List.cons_append, List.nil_append,
                        List.mem_cons, List.mem_singleton, List.not_mem_nil, or_false] at hc
                      rcases hc with rfl | rfl | rfl | rfl | rfl
                      · simp at hop
                      · simp at hop
                      · simp at hop
                      · simp at hop
                      · cases hres : (osRename tmp path w4).1 with
                        | error e => simp [succeeded]
                        | ok u => exact absurd hres h

/-! ## Lemmas on record numbers and paths -/

theorem toDigitsCore_append (b : Nat) :
    ∀ (fuel n : Nat) (ds : List Char),
      Nat.toDigitsCore b fuel n ds = Nat.toDigitsCore b fuel n [] ++ ds := by
  intro fuel
  induction fuel with
  | zero => intro n ds; simp [Nat.toDigitsCore]
  | succ fuel ih =>
    intro n ds
    simp only [Nat.toDigitsCore]
    split
    · simp
    · rw [ih (n / b) (Nat.digitChar (n % b) :: ds), ih (n / b) [Nat.digitChar (n % b)]]
      simp

theorem toDigitsCore_eq_decimalDigits :
    ∀ (fuel n : Nat), n < fuel → Nat.toDigitsCore 10 fuel n [] = decimalDigits n := by
  intro fuel
  induction fuel with
  | zero => intro n h; omega
  | succ fuel ih =>
    intro n h
    rw [decimalDigits]
    simp only [Nat.toDigitsCore]
    by_cases hn : n < 10
    · have h0 : n / 10 = 0 := by omega
      have hm : n % 10 = n := by omega
      simp [hn, h0, hm]
    · have h0 : ¬ n / 10 = 0 := by omega
      simp only [hn, h0, if_false]
      rw [toDigitsCore_append, ih (n / 10) (by omega)]

theorem repr_eq_decimalDigits (n : Nat) : Nat.repr n = String.mk (decimalDigits n) := by
  simp only [Nat.repr, Nat.toDigits, List.asString]
  rw [toDigitsCore_eq_decimalDigits (n + 1) n (by omega)]

theorem decimalDigits_length_one (n : Nat) (h : n < 10) : (decimalDigits n).length = 1 := by
  rw [decimalDigits]
  simp [h]

theorem decimalDigits_length_two (n : Nat) (h : 10 ≤ n) : 2 ≤ (decimalDigits n).length := by
  induction n using Nat.strong_induction_on with
  | _ n ih =>
    rw [decimalDigits]
    have hn : ¬ n < 10 := by omega
    simp only [hn, if_false, List.length_append, List.length_singleton]
    by_cases h100 : n < 100
    · rw [decimalDigits_length_one (n / 10) (by omega)]
    · have := ih (n / 10) (by omega) (by omega)
      omega

theorem leadingTwo_bounds (n : Nat) (h : 10 ≤ n) : 10 ≤ leadingTwo n ∧ leadingTwo n < 100 := by
  induction n using Nat.strong_induction_on with
  | _ n ih =>
    rw [leadingTwo]
    by_cases h100 : n < 100
    · simp [h100, h]
    · simp only [h100, if_false]
      exact ih (n / 10) (by omega) (by omega)

theorem decimalDigits_take_two (n : Nat) (h : 10 ≤ n) :
    (decimalDigits n).take 2 = decimalDigits (leadingTwo n) := by
  induction n using Nat.strong_induction_on with
  | _ n ih =>
    by_cases h100 : n < 100
    · have hl : leadingTwo n = n := by
        rw [leadingTwo]
        simp [h100]
      rw [hl]
      have hn : ¬ n < 10 := by omega
      have hlen : (decimalDigits n).length = 2 := by
        rw [decimalDigits]
        simp only [hn, if_false, List.length_append, List.length_singleton]
        rw [decimalDigits_length_one (n / 10) (by omega)]
      exact List.take_of_length_le (by omega)
    · have hl : leadingTwo n = leadingTwo (n / 10) := by
        rw [leadingTwo]
        simp [h100]
      have hn : ¬ n < 10 := by omega
      rw [hl, ← ih (n / 10) (by omega) (by omega)]
      conv_lhs => rw [decimalDigits]
      simp only [hn, if_false]
      exact List.take_append_of_le_length (decimalDigits_length_two (n / 10) (by omega))

theorem leadingTwo_eq_div (n : Nat) (h : 10 ≤ n) :
    leadingTwo n = n / 10 ^ (Nat.log 10 n - 1) := by
  induction n using Nat.strong_induction_on with
  | _ n ih =>
    rw [leadingTwo]
    by_cases h100 : n < 100
    · have hlog : Nat.log 10 n = 1 := by
        rw [Nat.log_eq_iff (by simp)]
        constructor <;> simp <;> omega
      simp [h100, hlog]
    · simp only [h100, if_false]
      rw [ih (n / 10) (by omega) (by omega)]
      have hlog : Nat.log 10 n = Nat.log 10 (n / 10) + 1 := by
        rw [Nat.log_div_base]
        have : 1 ≤ Nat.log 10 n := Nat.log_pos (by decide) h
        omega
      have hpos : 1 ≤ Nat.log 10 (n / 10) := Nat.log_pos (by decide) (by omega)
      rw [hlog, Nat.add_sub_cancel, Nat.div_div_eq_div_mul]
      congr 1
      obtain ⟨k, hk⟩ : ∃ k, Nat.log 10 (n / 10) = k + 1 := ⟨Nat.log 10 (n / 10) - 1, by omega⟩
      rw [hk, Nat.add_sub_cancel, pow_succ, mul_comm]

theorem numberPrefix_small (n : Nat) (h : n < 10) : numberPrefix (n : Int) = formatNumber n := by
  have hf : formatNumber (n : Int) = Nat.repr n := rfl
  unfold numberPrefix
  simp only [hf, repr_eq_decimalDigits, String.length, decimalDigits_length_one n h]
  simp

theorem numberPrefix_large (n : Nat) (h : 10 ≤ n) :
    numberPrefix (n : Int) = formatNumber (leadingTwo n) := by
  have hf : ∀ m : Nat, formatNumber (m : Int) = Nat.repr m := fun _ => rfl
  unfold numberPrefix
  simp only [hf, repr_eq_decimalDigits, String.length]
  have := decimalDigits_length_two n h
  have hlt : ¬ (decimalDigits n).length < 2 := by omega
  simp only [hlt, if_false, decimalDigits_take_two n h]

theorem formatNumber_natCast (n : Nat) : formatNumber (n : Int) = String.mk (decimalDigits n) := by
  have hf : formatNumber (n : Int) = Nat.repr n := rfl
  rw [hf, repr_eq_decimalDigits]

theorem digitChar_ne_dot (d : Nat) (h : d < 10) : Nat.digitChar d ≠ '.' := by
  interval_cases d <;> decide

theorem decimalDigits_head (n : Nat) :
    ∃ d rest, d < 10 ∧ decimalDigits n = Nat.digitChar d :: rest := by
  induction n using Nat.strong_induction_on with
  | _ n ih =>
    rw [decimalDigits]
    by_cases hn : n < 10
    · exact ⟨n, [], hn, by simp [hn]⟩
    · obtain ⟨d, rest, hd, hrest⟩ := ih (n / 10) (by omega)
      exact ⟨d, rest ++ [Nat.digitChar (n % 10)], hd, by simp [hn, hrest]⟩

/-- The decimal representation starts with a digit or a minus sign, never with a dot. -/
theorem formatNumber_head (n : Int) :
    ∃ c rest, c ≠ '.' ∧ (formatNumber n).data = c :: rest := by
  cases n with
  | ofNat m =>
    obtain ⟨d, rest, hd, hrest⟩ := decimalDigits_head m
    refine ⟨Nat.digitChar d, rest, digitChar_ne_dot d hd, ?_⟩
    have hf : formatNumber (Int.ofNat m) = Nat.repr m := rfl
    rw [hf, repr_eq_decimalDigits, hrest]
  | negSucc m =>
    refine ⟨'-', (Nat.repr (m + 1)).data, by decide, ?_⟩
    have hf : formatNumber (Int.negSucc m) = "-" ++ Nat.repr (m + 1) := rfl
    rw [hf, String.data_append]
    rfl

theorem isTmpPath_statePath (s : Storage) : isTmpPath (statePath s) = false := by
  simp [isTmpPath, statePath]
  decide

theorem isTmpPath_recordPath (s : Storage) (k : Kind) (n : Int) :
    isTmpPath (recordPath s k n) = false := by
  obtain ⟨c, rest, hc, hdata⟩ := formatNumber_head n
  have hc2 : ('.' == c) = false := by
    simp only [beq_eq_false_iff_ne, ne_eq]
    exact fun h => hc h.symm
  simp only [isTmpPath, recordPath, List.getLast?, List.getLast, String.data_append, hdata]
  simp [List.isPrefixOf, hc2]

/-! ## Theorems on the store -/

/-- C8. Shard naming, for every record number `n ≥ 0`. `formatNumber n` is the decimal
representation of `n`. Below 10, `numberPrefix n` is that whole string. From 10 on it is
the first two characters of that string, and these are the decimal representation of
the number made of the two leading digits, `n / 10 ^ (digits - 2)`, a number from 10
to 99. So 7 gives "7", 42 gives "42" and 123 gives "12". `SaveIssue`, `SavePR` and
`SaveDiscussion` write the record to the file `<decimal number>.json` in the directory
`<base>/<kind directory>/<shard>`: when the save succeeds, that file holds the
marshalled record. -/
theorem numberPrefix_shard (s : Storage) (n : Nat) :
    formatNumber (n : Int) = String.mk (decimalDigits n) ∧
      (n < 10 → numberPrefix (n : Int) = formatNumber (n : Int)) ∧
      (10 ≤ n →
        numberPrefix (n : Int) = String.mk ((formatNumber (n : Int)).data.take 2) ∧
          numberPrefix (n : Int) = formatNumber (leadingTwo n : Nat) ∧
          10 ≤ leadingTwo n ∧ leadingTwo n < 100 ∧
          leadingTwo n = n / 10 ^ (Nat.log 10 n - 1)) ∧
      (numberPrefix 7 = "7" ∧ numberPrefix 42 = "42" ∧ numberPrefix 123 = "12") ∧
      (∀ (data : Except Error Bytes) (w : World), (SaveIssue s n data w).1 = .ok () →
        ∃ b, data = .ok b ∧
          readAt (SaveIssue s n data w).2.files
            [s.baseDir, "issues", numberPrefix (n : Int), formatNumber (n : Int) ++ ".json"] =
              some b) ∧
      (∀ (data : Except Error Bytes) (w : World), (SavePR s n data w).1 = .ok () →
        ∃ b, data = .ok b ∧
          readAt (SavePR s n data w).2.files
            [s.baseDir, "pull_requests", numberPrefix (n : Int),
              formatNumber (n : Int) ++ ".json"] = some b) ∧
      (∀ (data : Except Error Bytes) (w : World), (SaveDiscussion s n data w).1 = .ok () →
        ∃ b, data = .ok b ∧
          readAt (SaveDiscussion s n data w).2.files
            [s.baseDir, "discussions", numberPrefix (n : Int),
              formatNumber (n : Int) ++ ".json"] = some b) := by
  refine ⟨formatNumber_natCast n, numberPrefix_small n, ?_, ⟨by decide, by decide, by decide⟩,
    ?_, ?_, ?_⟩
  · intro h
    refine ⟨?_, numberPrefix_large n h, (leadingTwo_bounds n h).1, (leadingTwo_bounds n h).2,
      leadingTwo_eq_div n h⟩
    have hlen := decimalDigits_length_two n h
    have hlt : ¬ (decimalDigits n).length < 2 := by omega
    unfold numberPrefix
    simp only [formatNumber_natCast, String.length, hlt, if_false]
  · intro data w h
    obtain ⟨ops, _, _, hok, _⟩ := atomicWrite_frame
      [s.baseDir, "issues", numberPrefix (n : Int), formatNumber (n : Int) ++ ".json"] data w
    exact (hok h).2
  · intro data w h
    obtain ⟨ops, _, _, hok, _⟩ := atomicWrite_frame
      [s.baseDir, "pull_requests", numberPrefix (n : Int), formatNumber (n : Int) ++ ".json"]
      data w
    exact (hok h).2
  · intro data w h
    obtain ⟨ops, _, _, hok, _⟩ := atomicWrite_frame
      [s.baseDir, "discussions", numberPrefix (n : Int), formatNumber (n : Int) ++ ".json"]
      data w
    exact (hok h).2

/-- C8, at the record number 123: the shard is the decimal representation of its two
leading digits. -/
theorem numberPrefix_shard_witness :
    numberPrefix ((123 : Nat) : Int) = formatNumber (leadingTwo 123 : Nat) ∧
      10 ≤ leadingTwo 123 ∧ leadingTwo 123 < 100 :=
  ⟨((numberPrefix_shard ⟨"out"⟩ 123).2.2.1 (by decide)).2.1,
    ((numberPrefix_shard ⟨"out"⟩ 123).2.2.1 (by decide)).2.2.1,
    ((numberPrefix_shard ⟨"out"⟩ 123).2.2.1 (by decide)).2.2.2.1⟩

/-! ## Lemmas on the orchestrator -/

theorem queryCalls_mem (k : Kind) (failed : Bool) (cursors : List (Option String)) :
    ∀ c ∈ queryCalls k failed cursors,
      (∃ cursor, c.op = .query k cursor) ∧ (failed = false → c.ok = true) := by
  induction cursors with
  | nil => intro c hc; simp [queryCalls] at hc
  | cons a rest ih =>
    intro c hc
    cases rest with
    | nil =>
      simp only [queryCalls, List.mem_singleton] at hc
      subst hc
      exact ⟨⟨a, rfl⟩, fun h => by simp [h]⟩
    | cons b rest =>
      simp only [queryCalls, List.mem_cons] at hc
      rcases hc with rfl | hc
      · exact ⟨⟨a, rfl⟩, fun _ => rfl⟩
      · exact ih c (by simpa [queryCalls] using hc)

theorem frame_queries (w : World) (k : Kind) (failed : Bool) (cursors : List (Option String)) :
    Frame w { w with trace := w.trace ++ queryCalls k failed cursors }
      (queryCalls k failed cursors) := by
  refine Frame.of_untouched rfl ?_ (fun _ _ => rfl)
  intro src q h
  obtain ⟨⟨cursor, hop⟩, _⟩ := queryCalls_mem k failed cursors _ h
  simp at hop

theorem saveRecords_frame {R : Type} (save : R → World → Except Error Unit × World)
    (number : R → Int) (P : Op → Prop)
    (hsave : ∀ r w, ∃ ops, Frame w (save r w).2 ops ∧ (∀ c ∈ ops, P c.op) ∧
      ((save r w).1 = .ok () → ∀ c ∈ ops, c.ok = true)) :
    ∀ (rs : List R) (w : World), ∃ ops, Frame w (saveRecords save number rs w).2 ops ∧
      (∀ c ∈ ops, P c.op) ∧
      (succeeded (saveRecords save number rs w).1 = true → ∀ c ∈ ops, c.ok = true) := by
  intro rs
  induction rs with
  | nil =>
    intro w
    exact ⟨[], Frame.refl w, by simp, by simp⟩
  | cons r rest ih =>
    intro w
    obtain ⟨ops₁, f₁, p₁, ok₁⟩ := hsave r w
    unfold saveRecords
    cases hs : save r w with
    | mk res w₁ =>
      rw [hs] at f₁ ok₁
      cases res with
      | error err =>
        refine ⟨ops₁, f₁, p₁, ?_⟩
        intro h
        simp [succeeded] at h
      | ok u =>
        cases u
        obtain ⟨ops₂, f₂, p₂, ok₂⟩ := ih w₁
        refine ⟨ops₁ ++ ops₂, f₁.trans f₂, ?_, ?_⟩
        · intro c hc
          rcases List.mem_append.mp hc with hc | hc
          · exact p₁ c hc
          · exact p₂ c hc
        · intro h c hc
          rcases List.mem_append.mp hc with hc | hc
          · exact ok₁ rfl c hc
          · exact ok₂ h c hc

theorem saveKind_frame (s : Storage) (k : Kind) (number : Int) (data : Except Error Bytes)
    (w : World) :
    ∃ ops, Frame w (atomicWrite (recordPath s k number) data w).2 ops ∧
      (∀ c ∈ ops, KindOp s k c.op) ∧
      ((atomicWrite (recordPath s k number) data w).1 = .ok () → ∀ c ∈ ops, c.ok = true) := by
  obtain ⟨ops, f, p, hok, _⟩ := atomicWrite_frame (recordPath s k number) data w
  exact ⟨ops, f, fun c hc => Or.inr ⟨number, p c hc⟩, fun h => (hok h).1⟩

theorem SaveIssue_eq (s : Storage) (number : Int) (data : Except Error Bytes) (w : World) :
    SaveIssue s number data w = atomicWrite (recordPath s .issues number) data w := rfl

theorem SavePR_eq (s : Storage) (number : Int) (data : Except Error Bytes) (w : World) :
    SavePR s number data w = atomicWrite (recordPath s .prs number) data w := rfl

theorem SaveDiscussion_eq (s : Storage) (number : Int) (data : Except Error Bytes)
    (w : World) :
    SaveDiscussion s number data w = atomicWrite (recordPath s .discussions number) data w :=
  rfl

theorem SaveIssue_frame (s : Storage) (json : Json) (issue : Issue) (w : World) :
    ∃ ops, Frame w (SaveIssue s issue.Number (json.marshalIssue issue) w).2 ops ∧
      (∀ c ∈ ops, KindOp s .issues c.op) ∧
      ((SaveIssue s issue.Number (json.marshalIssue issue) w).1 = .ok () →
        ∀ c ∈ ops, c.ok = true) := by
  rw [SaveIssue_eq]
  exact saveKind_frame s .issues issue.Number _ w

theorem SavePR_frame (s : Storage) (json : Json) (pr : PullRequest) (w : World) :
    ∃ ops, Frame w (SavePR s pr.Number (json.marshalPR pr) w).2 ops ∧
      (∀ c ∈ ops, KindOp s .prs c.op) ∧
      ((SavePR s pr.Number (json.marshalPR pr) w).1 = .ok () → ∀ c ∈ ops, c.ok = true) := by
  rw [SavePR_eq]
  exact saveKind_frame s .prs pr.Number _ w

theorem SaveDiscussion_frame (s : Storage) (json : Json) (disc : Discussion) (w : World) :
    ∃ ops, Frame w (SaveDiscussion s disc.Number (json.marshalDiscussion disc) w).2 ops ∧
      (∀ c ∈ ops, KindOp s .discussions c.op) ∧
      ((SaveDiscussion s disc.Number (json.marshalDiscussion disc) w).1 = .ok () →
        ∀ c ∈ ops, c.ok = true) := by
  rw [SaveDiscussion_eq]
  exact saveKind_frame s .discussions disc.Number _ w

theorem syncIssues_frame (env : Env) (fuel : Nat) (s : Storage) (owner repo : String)
    (since : Option Time) (w : World) (r : Except KindError Unit) (w' : World)
    (h : syncIssues env fuel s owner repo since w = some (r, w')) :
    ∃ ops, Frame w w' ops ∧ (∀ c ∈ ops, KindOp s .issues c.op) ∧
      (succeeded r = true → ∀ c ∈ ops, c.ok = true) := by
  unfold syncIssues at h
  simp only at h
  generalize FetchIssues env.issueRemote fuel owner repo since = run at h
  cases ho : run.outcome with
  | none => simp [ho] at h
  | some res =>
    cases res with
    | error err =>
      simp only [ho, Option.some.injEq, Prod.mk.injEq] at h
      obtain ⟨hr, hw⟩ := h
      subst hr hw
      refine ⟨queryCalls .issues true (run.requests.map issueVars.cursor),
        frame_queries w .issues true _, ?_, ?_⟩
      · intro c hc
        exact Or.inl (queryCalls_mem _ _ _ c hc).1
      · intro hs
        simp [succeeded] at hs
    | ok issues =>
      simp only [ho, Option.some.injEq] at h
      obtain ⟨ops, f, p, hok⟩ := saveRecords_frame
        (fun issue => SaveIssue s issue.Number (env.json.marshalIssue issue)) Issue.Number
        (KindOp s .issues)
        (by intro r w; beta_reduce; exact SaveIssue_frame s env.json r w) issues
        ⟨w.files, w.dirs, w.faults, w.rand,
          w.trace ++ queryCalls .issues false (run.requests.map issueVars.cursor)⟩
      rw [h] at f hok
      refine ⟨queryCalls .issues false (run.requests.map issueVars.cursor) ++ ops,
        (frame_queries w .issues false _).trans f, ?_, ?_⟩
      · intro c hc
        rcases List.mem_append.mp hc with hc | hc
        · exact Or.inl (queryCalls_mem _ _ _ c hc).1
        · exact p c hc
      · intro hs c hc
        rcases List.mem_append.mp hc with hc | hc
        · exact (queryCalls_mem _ _ _ c hc).2 rfl
        · exact hok hs c hc

theorem syncPRs_frame (env : Env) (fuel : Nat) (s : Storage) (owner repo : String)
    (since : Option Time) (w : World) (r : Except KindError Unit) (w' : World)
    (h : syncPRs env fuel s owner repo since w = some (r, w')) :
    ∃ ops, Frame w w' ops ∧ (∀ c ∈ ops, KindOp s .prs c.op) ∧
      (succeeded r = true → ∀ c ∈ ops, c.ok = true) := by
  unfold syncPRs at h
  simp only at h
  generalize FetchPullRequests env.prRemote fuel owner repo since = run at h
  cases ho : run.outcome with
  | none => simp [ho] at h
  | some res =>
    cases res with
    | error err =>
      simp only [ho, Option.some.injEq, Prod.mk.injEq] at h
      obtain ⟨hr, hw⟩ := h
      subst hr hw
      refine ⟨queryCalls .prs true (run.requests.map pageVars.cursor),
        frame_queries w .prs true _, ?_, ?_⟩
      · intro c hc
        exact Or.inl (queryCalls_mem _ _ _ c hc).1
      · intro hs
        simp [succeeded] at hs
    | ok prs =>
      simp only [ho, Option.some.injEq] at h
      obtain ⟨ops, f, p, hok⟩ := saveRecords_frame
        (fun pr => SavePR s pr.Number (env.json.marshalPR pr)) PullRequest.Number
        (KindOp s .prs)
        (by intro r w; beta_reduce; exact SavePR_frame s env.json r w) prs
        ⟨w.files, w.dirs, w.faults, w.rand,
          w.trace ++ queryCalls .prs false (run.requests.map pageVars.cursor)⟩
      rw [h] at f hok
      refine ⟨queryCalls .prs false (run.requests.map pageVars.cursor) ++ ops,
        (frame_queries w .prs false _).trans f, ?_, ?_⟩
      · intro c hc
        rcases List.mem_append.mp hc with hc | hc
        · exact Or.inl (queryCalls_mem _ _ _ c hc).1
        · exact p c hc
      · intro hs c hc
        rcases List.mem_append.mp hc with hc | hc
        · exact (queryCalls_mem _ _ _ c hc).2 rfl
        · exact hok hs c hc

theorem syncDiscussions_frame (env : Env) (fuel : Nat) (s : Storage) (owner repo : String)
    (since : Option Time) (w : World) (r : Except KindError Unit) (w' : World)
    (h : syncDiscussions env fuel s owner repo since w = some (r, w')) :
    ∃ ops, Frame w w' ops ∧ (∀ c ∈ ops, KindOp s .discussions c.op) ∧
      (succeeded r = true → ∀ c ∈ ops, c.ok = true) := by
  unfold syncDiscussions at h
  simp only at h
  generalize FetchDiscussions env.discussionRemote fuel owner repo since = run at h
  cases ho : run.outcome with
  | none => simp [ho] at h
  | some res =>
    cases res with
    | error err =>
      simp only [ho, Option.some.injEq, Prod.mk.injEq] at h
      obtain ⟨hr, hw⟩ := h
      subst hr hw
      refine ⟨queryCalls .discussions true (run.requests.map pageVars.cursor),
        frame_queries w .discussions true _, ?_, ?_⟩
      · intro c hc
        exact Or.inl (queryCalls_mem _ _ _ c hc).1
      · intro hs
        simp [succeeded] at hs
    | ok discussions =>
      simp only [ho, Option.some.injEq] at h
      obtain ⟨ops, f, p, hok⟩ := saveRecords_frame
        (fun disc => SaveDiscussion s disc.Number (env.json.marshalDiscussion disc))
        Discussion.Number (KindOp s .discussions)
        (by intro r w; beta_reduce; exact SaveDiscussion_frame s env.json r w) discussions
        ⟨w.files, w.dirs, w.faults, w.rand,
          w.trace ++ queryCalls .discussions false (run.requests.map pageVars.cursor)⟩
      rw [h] at f hok
      refine ⟨queryCalls .discussions false (run.requests.map pageVars.cursor) ++ ops,
        (frame_queries w .discussions false _).trans f, ?_, ?_⟩
      · intro c hc
        rcases List.mem_append.mp hc with hc | hc
        · exact Or.inl (queryCalls_mem _ _ _ c hc).1
        · exact p c hc
      · intro hs c hc
        rcases List.mem_append.mp hc with hc | hc
        · exact (queryCalls_mem _ _ _ c hc).2 rfl
        · exact hok hs c hc

theorem EnsureDirs_frame (s : Storage) (w : World) :
    ∃ ops, Frame w (EnsureDirs s w).2 ops ∧ (∀ c ∈ ops, PrologueOp s c.op) ∧
      ((EnsureDirs s w).1 = .ok () → ∀ c ∈ ops, c.ok = true) ∧
      (EnsureDirs s w).2.files = w.files := by
  have hi : PrologueOp s (.mkdirAll [s.baseDir, "issues"]) := Or.inl ⟨.issues, rfl⟩
  have hp : PrologueOp s (.mkdirAll [s.baseDir, "pull_requests"]) := Or.inl ⟨.prs, rfl⟩
  have hd : PrologueOp s (.mkdirAll [s.baseDir, "discussions"]) := Or.inl ⟨.discussions, rfl⟩
  unfold EnsureDirs
  obtain ⟨f1, e1⟩ := osMkdirAll_frame [s.baseDir, "issues"] w
  cases h1 : osMkdirAll [s.baseDir, "issues"] w with
  | mk r1 w1 =>
    rw [h1] at f1 e1
    cases r1 with
    | error err =>
      refine ⟨_, f1, ?_, ?_, e1⟩
      · intro c hc
        simp only [List.mem_singleton] at hc
        subst hc
        exact hi
      · intro h
        simp at h
    | ok u1 =>
      cases u1
      dsimp only
      obtain ⟨f2, e2⟩ := osMkdirAll_frame [s.baseDir, "pull_requests"] w1
      cases h2 : osMkdirAll [s.baseDir, "pull_requests"] w1 with
      | mk r2 w2 =>
        rw [h2] at f2 e2
        cases r2 with
        | error err =>
          refine ⟨_, f1.trans f2, ?_, ?_, e2.trans e1⟩
          · intro c hc
            simp only [List.singleton_append, List.mem_cons, List.mem_singleton,
              List.not_mem_nil, or_false] at hc
            rcases hc with rfl | rfl
            · exact hi
            · exact hp
          · intro h
            simp at h
        | ok u2 =>
          cases u2
          dsimp only
          obtain ⟨f3, e3⟩ := osMkdirAll_frame [s.baseDir, "discussions"] w2
          cases h3 : osMkdirAll [s.baseDir, "discussions"] w2 with
          | mk r3 w3 =>
            rw [h3] at f3 e3
            have hmem : ∀ c ∈ [(⟨.mkdirAll [s.baseDir, "issues"], succeeded (Except.ok () :
                Except Error Unit)⟩ : Call)] ++ [⟨.mkdirAll [s.baseDir, "pull_requests"],
                succeeded (Except.ok () : Except Error Unit)⟩] ++
                [⟨.mkdirAll [s.baseDir, "discussions"], succeeded r3⟩],
                PrologueOp s c.op ∧ (r3 = .ok () → c.ok = true) := by
              intro c hc
              simp only [List.singleton_append, List.cons_append, List.nil_append,
                List.mem_cons, List.mem_singleton, List.not_mem_nil, or_false] at hc
              rcases hc with rfl | rfl | rfl
              · exact ⟨hi, fun _ => rfl⟩
              · exact ⟨hp, fun _ => rfl⟩
              · exact ⟨hd, fun h => by simp [h, succeeded]⟩
            cases r3 with
            | error err =>
              refine ⟨_, (f1.trans f2).trans f3, fun c hc => (hmem c hc).1, ?_,
                (e3.trans e2).trans e1⟩
              intro h
              simp at h
            | ok u3 =>
              cases u3
              exact ⟨_, (f1.trans f2).trans f3, fun c hc => (hmem c hc).1,
                fun _ c hc => (hmem c hc).2 rfl, (e3.trans e2).trans e1⟩

theorem LoadSyncState_frame (json : Json) (s : Storage) (w : World) :
    ∃ ok, Frame w (LoadSyncState json s w).2 [⟨.readFile (statePath s), ok⟩] ∧
      (LoadSyncState json s w).2.files = w.files ∧
      ∀ state, (LoadSyncState json s w).1 = .ok state → storedState json s w.files = .ok state := by
  obtain ⟨f, e, hok, hne⟩ := osReadFile_frame (statePath s) w
  unfold LoadSyncState
  dsimp only
  cases hr : osReadFile (statePath s) w with
  | mk r w1 =>
    rw [hr] at f e hok hne
    cases r with
    | error err =>
      dsimp only
      by_cases herr : err = errNotExist
      · subst herr
        refine ⟨_, by simpa using f, by simpa using e, ?_⟩
        intro state hst
        simp only [if_true, Except.ok.injEq] at hst
        simp [storedState, hne rfl, hst]
      · refine ⟨_, by simpa [herr] using f, by simpa [herr] using e, ?_⟩
        intro state hst
        simp [herr] at hst
    | ok data =>
      dsimp only
      have hread := hok data rfl
      cases hu : json.unmarshalState data with
      | error err =>
        refine ⟨_, f, e, ?_⟩
        intro state hst
        simp at hst
      | ok st =>
        refine ⟨_, f, e, ?_⟩
        intro state hst
        simp only [Except.ok.injEq] at hst
        simp [storedState, hread, hu, hst]

theorem SaveSyncState_frame (json : Json) (s : Storage) (state : SyncState) (w : World) :
    ∃ ops, Frame w (SaveSyncState json s state w).2 ops ∧
      (∀ c ∈ ops, WriteOp (statePath s) c.op) ∧
      ((SaveSyncState json s state w).1 = .ok () →
        (∀ c ∈ ops, c.ok = true) ∧
          ∃ b, json.marshalState state = .ok b ∧
            readAt (SaveSyncState json s state w).2.files (statePath s) = some b) :=
  let ⟨ops, f, p, hok, _⟩ := atomicWrite_frame (statePath s) (json.marshalState state) w
  ⟨ops, f, p, hok⟩

/-- A kind that is not requested is skipped; a requested one runs its sync. -/
theorem step_frame (s : Storage) (k : Kind) (b : Bool)
    (run : Option (Except KindError Unit × World)) (w : World)
    (hrun : ∀ r w', run = some (r, w') → ∃ ops, Frame w w' ops ∧
      (∀ c ∈ ops, KindOp s k c.op) ∧ (succeeded r = true → ∀ c ∈ ops, c.ok = true))
    (r : Except KindError Unit) (w' : World)
    (h : (if b = true then run else some (.ok (), w)) = some (r, w')) :
    ∃ ops, Frame w w' ops ∧ (∀ c ∈ ops, KindOp s k c.op) ∧
      (succeeded r = true → ∀ c ∈ ops, c.ok = true) := by
  cases b with
  | true => exact hrun r w' (by simpa using h)
  | false =>
    simp only [Bool.false_eq_true, if_false, Option.some.injEq, Prod.mk.injEq] at h
    obtain ⟨_, hw⟩ := h
    subst hw
    exact ⟨[], Frame.refl w, by simp, by simp⟩

/-- One run of `Sync`, whatever its result. The calls it makes frame the files. When it
succeeds, every call succeeded but possibly the read of a missing state file, and the
state file holds the marshalled loaded state advanced to the clock reading taken after
`LoadSyncState`. When it fails with the error of kind `k`, every call is one of the
prologue or one of the sync of a kind not later than `k`. -/
theorem Sync_run (env : Env) (fuel : Nat) (opts : SyncOptions) (w : World)
    (r : Except SyncError Unit) (w' : World) (h : Sync env fuel opts w = some (r, w')) :
    ∃ ops, Frame w w' ops ∧
      (r = .ok () →
        (∀ c ∈ ops, c.ok = true ∨ c.op = .readFile (statePath (New opts.OutputDir))) ∧
          ∃ (w₁ : World) (loaded : SyncState) (bytes : Bytes) (pre : List Call),
            LoadSyncState env.json (New opts.OutputDir) (EnsureDirs (New opts.OutputDir) w).2 =
                (.ok loaded, w₁) ∧
              w₁.trace = w.trace ++ pre ∧
              (∀ c ∈ pre, PrologueOp (New opts.OutputDir) c.op) ∧
              storedState env.json (New opts.OutputDir) w.files = .ok loaded ∧
              env.json.marshalState (advance opts (env.now w₁.trace) loaded) = .ok bytes ∧
              readAt w'.files (statePath (New opts.OutputDir)) = some bytes) ∧
      (∀ err k, r = .error err → err.failedKind = some k →
        ∀ c ∈ ops, PrologueOp (New opts.OutputDir) c.op ∨
          ∃ k', k'.rank ≤ k.rank ∧ KindOp (New opts.OutputDir) k' c.op) := by
  unfold Sync at h
  cases hN : NewClient env with
  | error e =>
    have he : e = .newClient := by
      unfold NewClient at hN
      split at hN
      · exact (Except.error.inj hN).symm
      · exact Except.noConfusion hN
    subst he
    simp only [hN, Option.some.injEq, Prod.mk.injEq] at h
    obtain ⟨hr, hw⟩ := h
    subst hr hw
    refine ⟨[], Frame.refl w, ?_, ?_⟩
    · intro hr
      exact Except.noConfusion hr
    · intro err k hr hk
      cases hr
      simp [SyncError.failedKind] at hk
  | ok u =>
    cases u
    simp only [hN] at h
    obtain ⟨opsE, fE, pE, okE, filesE⟩ := EnsureDirs_frame (New opts.OutputDir) w
    cases hE : EnsureDirs (New opts.OutputDir) w with
    | mk rE wE =>
      rw [hE] at fE okE filesE
      simp only [hE] at h
      cases rE with
      | error e =>
        simp only [Option.some.injEq, Prod.mk.injEq] at h
        obtain ⟨hr, hw⟩ := h
        subst hr hw
        refine ⟨opsE, fE, ?_, ?_⟩
        · intro hr
          exact Except.noConfusion hr
        · intro err k hr hk
          cases hr
          simp [SyncError.failedKind] at hk
      | ok u =>
        cases u
        simp only at h
        obtain ⟨okL, fL, filesL, hL⟩ := LoadSyncState_frame env.json (New opts.OutputDir) wE
        cases hLoad : LoadSyncState env.json (New opts.OutputDir) wE with
        | mk rL wL =>
          rw [hLoad] at fL filesL hL
          simp only [hLoad] at h
          cases rL with
          | error e =>
            simp only [Option.some.injEq, Prod.mk.injEq] at h
            obtain ⟨hr, hw⟩ := h
            subst hr hw
            refine ⟨_, fE.trans fL, ?_, ?_⟩
            · intro hr
              exact Except.noConfusion hr
            · intro err k hr hk
              cases hr
              simp [SyncError.failedKind] at hk
          | ok loaded =>
            simp only at h
            have hpre : ∀ c ∈ opsE ++
                [(⟨.readFile (statePath (New opts.OutputDir)), okL⟩ : Call)],
                PrologueOp (New opts.OutputDir) c.op := by
              intro c hc
              rcases List.mem_append.mp hc with hc | hc
              · exact pE c hc
              · simp only [List.mem_singleton] at hc
                subst hc
                exact Or.inr rfl
            have hokpre : ∀ c ∈ opsE ++
                [(⟨.readFile (statePath (New opts.OutputDir)), okL⟩ : Call)],
                c.ok = true ∨ c.op = .readFile (statePath (New opts.OutputDir)) := by
              intro c hc
              rcases List.mem_append.mp hc with hc | hc
              · exact Or.inl (okE rfl c hc)
              · simp only [List.mem_singleton] at hc
                subst hc
                exact Or.inr rfl
            have fP := fE.trans fL
            have hstored : storedState env.json (New opts.OutputDir) w.files = .ok loaded := by
              rw [← filesE]
              exact hL loaded rfl
            split at h
            · exact Option.noConfusion h
            · rename_i err wI hI
              obtain ⟨opsI, fI, pI, _⟩ := step_frame (New opts.OutputDir) .issues opts.Issues
                _ wL (fun r w' hr => syncIssues_frame _ _ _ _ _ _ _ r w' hr) _ _ hI
              simp only [Option.some.injEq, Prod.mk.injEq] at h
              obtain ⟨hr, hw⟩ := h
              subst hr hw
              refine ⟨_, fP.trans fI, ?_, ?_⟩
              · intro hr
                exact Except.noConfusion hr
              · intro err' k hr hk c hc
                cases hr
                simp only [SyncError.failedKind, Option.some.injEq] at hk
                subst hk
                rcases List.mem_append.mp hc with hc | hc
                · exact Or.inl (hpre c hc)
                · exact Or.inr ⟨.issues, le_refl _, pI c hc⟩
            · rename_i wI hI
              obtain ⟨opsI, fI, pI, okI⟩ := step_frame (New opts.OutputDir) .issues opts.Issues
                _ wL (fun r w' hr => syncIssues_frame _ _ _ _ _ _ _ r w' hr) _ _ hI
              split at h
              · exact Option.noConfusion h
              · rename_i err wP hP
                obtain ⟨opsP, fPR, pP, _⟩ := step_frame (New opts.OutputDir) .prs opts.PRs
                  _ wI (fun r w' hr => syncPRs_frame _ _ _ _ _ _ _ r w' hr) _ _ hP
                simp only [Option.some.injEq, Prod.mk.injEq] at h
                obtain ⟨hr, hw⟩ := h
                subst hr hw
                refine ⟨_, (fP.trans fI).trans fPR, ?_, ?_⟩
                · intro hr
                  exact Except.noConfusion hr
                · intro err' k hr hk c hc
                  cases hr
                  simp only [SyncError.failedKind, Option.some.injEq] at hk
                  subst hk
                  rcases List.mem_append.mp hc with hc | hc
                  · rcases List.mem_append.mp hc with hc | hc
                    · exact Or.inl (hpre c hc)
                    · exact Or.inr ⟨.issues, by decide, pI c hc⟩
                  · exact Or.inr ⟨.prs, le_refl _, pP c hc⟩
              · rename_i wP hP
                obtain ⟨opsP, fPR, pP, okP⟩ := step_frame (New opts.OutputDir) .prs opts.PRs
                  _ wI (fun r w' hr => syncPRs_frame _ _ _ _ _ _ _ r w' hr) _ _ hP
                split at h
                · exact Option.noConfusion h
                · rename_i err wD hD
                  obtain ⟨opsD, fD, pD, _⟩ := step_frame (New opts.OutputDir) .discussions
                    opts.Discussions _ wP
                    (fun r w' hr => syncDiscussions_frame _ _ _ _ _ _ _ r w' hr) _ _ hD
                  simp only [Option.some.injEq, Prod.mk.injEq] at h
                  obtain ⟨hr, hw⟩ := h
                  subst hr hw
                  refine ⟨_, ((fP.trans fI).trans fPR).trans fD, ?_, ?_⟩
                  · intro hr
                    exact Except.noConfusion hr
                  · intro err' k hr hk c hc
                    cases hr
                    simp only [SyncError.failedKind, Option.some.injEq] at hk
                    subst hk
                    rcases List.mem_append.mp hc with hc | hc
                    · rcases List.mem_append.mp hc with hc | hc
                      · rcases List.mem_append.mp hc with hc | hc
                        · exact Or.inl (hpre c hc)
                        · exact Or.inr ⟨.issues, by decide, pI c hc⟩
                      · exact Or.inr ⟨.prs, by decide, pP c hc⟩
                    · exact Or.inr ⟨.discussions, le_refl _, pD c hc⟩
                · rename_i wD hD
                  obtain ⟨opsD, fD, pD, okD⟩ := step_frame (New opts.OutputDir) .discussions
                    opts.Discussions _ wP
                    (fun r w' hr => syncDiscussions_frame _ _ _ _ _ _ _ r w' hr) _ _ hD
                  split at h
                  · rename_i err wS hS
                    obtain ⟨opsS, fS, _, _⟩ := SaveSyncState_frame env.json
                      (New opts.OutputDir) _ wD
                    rw [hS] at fS
                    simp only [Option.some.injEq, Prod.mk.injEq] at h
                    obtain ⟨hr, hw⟩ := h
                    subst hr hw
                    refine ⟨_, ((((fP.trans fI).trans fPR).trans fD).trans fS), ?_, ?_⟩
                    · intro hr
                      exact Except.noConfusion hr
                    · intro err' k hr hk
                      cases hr
                      simp [SyncError.failedKind] at hk
                  · rename_i wS hS
                    obtain ⟨opsS, fS, _, okS⟩ := SaveSyncState_frame env.json
                      (New opts.OutputDir) _ wD
                    rw [hS] at fS okS
                    obtain ⟨hallS, b, hb, hread⟩ := okS rfl
                    simp only [Option.some.injEq, Prod.mk.injEq] at h
                    obtain ⟨hr, hw⟩ := h
                    subst hr hw
                    refine ⟨_, ((((fP.trans fI).trans fPR).trans fD).trans fS), ?_, ?_⟩
                    · intro _
                      refine ⟨?_, wL, loaded, b, _, rfl, fP.1, hpre, hstored, ?_, hread⟩
                      · intro c hc
                        rcases List.mem_append.mp hc with hc | hc
                        · rcases List.mem_append.mp hc with hc | hc
                          · rcases List.mem_append.mp hc with hc | hc
                            · rcases List.mem_append.mp hc with hc | hc
                              · exact hokpre c hc
                              · exact Or.inl (okI rfl c hc)
                            · exact Or.inl (okP rfl c hc)
                          · exact Or.inl (okD rfl c hc)
                        · exact Or.inl (hallS c hc)
                      · rw [← hb]
                        congr 1
                        cases hI2 : opts.Issues <;> cases hP2 : opts.PRs <;>
                          cases hD2 : opts.Discussions <;> simp [advance, hI2, hP2, hD2]
                    · intro err' k hr
                      exact Except.noConfusion hr

theorem dirName_injective (k k' : Kind) (h : k.dirName = k'.dirName) : k = k' := by
  cases k <;> cases k' <;> first | rfl | (revert h; decide)

theorem eq_of_dropLast_three {α : Type} (p : List α) (a b c : α)
    (h : p.dropLast = [a, b, c]) : ∃ x, p = [a, b, c, x] := by
  match p, h with
  | [], h => simp at h
  | [_], h => simp at h
  | [_, _], h => simp at h
  | [_, _, _], h => simp at h
  | [a', b', c', x], h =>
    simp only [List.dropLast, List.cons.injEq, and_true] at h
    obtain ⟨rfl, rfl, rfl⟩ := h
    exact ⟨x, rfl⟩
  | _ :: _ :: _ :: _ :: _ :: _, h => simp [List.dropLast] at h

theorem underKind_of_dropLast (s : Storage) (k k' : Kind) (number : Int) (p : Path)
    (h : p.dropLast = (recordPath s k number).dropLast) (hk : k' ≠ k) :
    underKind s k' p = false := by
  obtain ⟨x, rfl⟩ := eq_of_dropLast_three p _ _ _ (by simpa [recordPath] using h)
  have hne : ¬ k.dirName = k'.dirName := fun h => hk (dirName_injective k k' h).symm
  simp [underKind, hne]

theorem ne_statePath_of_dropLast (s : Storage) (k : Kind) (number : Int) (p : Path)
    (h : p.dropLast = (recordPath s k number).dropLast) : p ≠ statePath s := by
  obtain ⟨x, rfl⟩ := eq_of_dropLast_three p _ _ _ (by simpa [recordPath] using h)
  simp [statePath]

theorem WriteOp_record_modifies (s : Storage) (k : Kind) (number : Int) (op : Op)
    (h : WriteOp (recordPath s k number) op) : op.modifies (statePath s) = false := by
  cases op with
  | query kind cursor => rfl
  | mkdirAll dir => rfl
  | readFile path => rfl
  | createTemp dir name =>
    simpa [Op.modifies] using ne_statePath_of_dropLast s k number name h.2.1
  | write path => simpa [Op.modifies] using ne_statePath_of_dropLast s k number path h.1
  | close path => rfl
  | remove path => simpa [Op.modifies] using ne_statePath_of_dropLast s k number path h.1
  | rename src dst =>
    have h1 := ne_statePath_of_dropLast s k number src h.2.1
    have h2 : dst ≠ statePath s := by
      rw [h.1]
      simp [recordPath, statePath]
    simp [Op.modifies, h1, h2]

theorem WriteOp_record_worksFor (s : Storage) (k k' : Kind) (number : Int) (op : Op)
    (h : WriteOp (recordPath s k number) op) (hk : k' ≠ k) : op.worksFor s k' = false := by
  have hrec : underKind s k' (recordPath s k number) = false :=
    underKind_of_dropLast s k k' number _ rfl hk
  cases op with
  | query kind cursor => exact absurd h (by simp [WriteOp])
  | readFile path => exact absurd h (by simp [WriteOp])
  | mkdirAll dir =>
    have hd : dir = [s.baseDir, k.dirName, numberPrefix number] := by
      simpa [WriteOp, recordPath] using h
    have hne : ¬ k.dirName = k'.dirName := fun h => hk (dirName_injective k k' h).symm
    simp [Op.worksFor, underKind, hd, hne]
  | createTemp dir name =>
    have hd : dir = [s.baseDir, k.dirName, numberPrefix number] := by
      simpa [recordPath] using h.1
    have hne : ¬ k.dirName = k'.dirName := fun h => hk (dirName_injective k k' h).symm
    have h1 := underKind_of_dropLast s k k' number name h.2.1 hk
    simp [Op.worksFor, h1]
    simp [underKind, hd, hne]
  | write path => simpa [Op.worksFor] using underKind_of_dropLast s k k' number path h.1 hk
  | close path => simpa [Op.worksFor] using underKind_of_dropLast s k k' number path h.1 hk
  | remove path => simpa [Op.worksFor] using underKind_of_dropLast s k k' number path h.1 hk
  | rename src dst =>
    have h1 := underKind_of_dropLast s k k' number src h.2.1 hk
    have h2 : underKind s k' dst = false := by
      rw [h.1]
      exact hrec
    simp [Op.worksFor, h1, h2]

theorem KindOp_modifies (s : Storage) (k : Kind) (op : Op) (h : KindOp s k op) :
    op.modifies (statePath s) = false := by
  rcases h with ⟨cursor, rfl⟩ | ⟨number, h⟩
  · rfl
  · exact WriteOp_record_modifies s k number op h

theorem KindOp_worksFor (s : Storage) (k k' : Kind) (op : Op) (h : KindOp s k op)
    (hk : k' ≠ k) : op.worksFor s k' = false := by
  rcases h with ⟨cursor, rfl⟩ | ⟨number, h⟩
  · have : ¬ k = k' := fun h => hk h.symm
    simp [Op.worksFor, this]
  · exact WriteOp_record_worksFor s k k' number op h hk

theorem KindOp_rename (s : Storage) (k : Kind) (src dst : Path)
    (h : KindOp s k (.rename src dst)) : isTmpPath dst = false := by
  rcases h with ⟨cursor, h⟩ | ⟨number, h⟩
  · exact Op.noConfusion h
  · rw [h.1]
    exact isTmpPath_recordPath s k number

theorem PrologueOp_modifies (s : Storage) (op : Op) (h : PrologueOp s op) :
    op.modifies (statePath s) = false := by
  rcases h with ⟨k, rfl⟩ | rfl <;> rfl

theorem PrologueOp_worksFor (s : Storage) (k : Kind) (op : Op) (h : PrologueOp s op) :
    op.worksFor s k = false := by
  rcases h with ⟨k', rfl⟩ | rfl
  · simp [Op.worksFor, underKind]
  · simp [Op.worksFor, underKind, statePath]

theorem saveRecords_ok {R : Type} (save : R → World → Except Error Unit × World)
    (number : R → Int) (Q : R → Prop) (hsave : ∀ r w, (save r w).1 = .ok () → Q r) :
    ∀ (rs : List R) (w : World),
      succeeded (saveRecords save number rs w).1 = true → ∀ r ∈ rs, Q r := by
  intro rs
  induction rs with
  | nil =>
    intro w _ r hr
    simp at hr
  | cons a rest ih =>
    intro w h r hr
    unfold saveRecords at h
    cases hs : save a w with
    | mk res w₁ =>
      rw [hs] at h
      cases res with
      | error err => simp [succeeded] at h
      | ok u =>
        cases u
        rcases List.mem_cons.mp hr with rfl | hr
        · exact hsave r w (by rw [hs])
        · exact ih w₁ h r hr

theorem atomicWrite_ok (path : Path) (data : Except Error Bytes) (w : World)
    (h : (atomicWrite path data w).1 = .ok ()) : ∃ b, data = .ok b := by
  cases data with
  | error err => simp [atomicWrite] at h
  | ok b => exact ⟨b, rfl⟩

/-- A sync of the issues that succeeds fetched without error and could marshal every
record. -/
theorem syncIssues_ok (env : Env) (fuel : Nat) (s : Storage) (owner repo : String)
    (since : Option Time) (w w' : World)
    (h : syncIssues env fuel s owner repo since w = some (.ok (), w')) :
    ∃ issues, (FetchIssues env.issueRemote fuel owner repo since).outcome = some (.ok issues) ∧
      ∀ issue ∈ issues, ∃ b, env.json.marshalIssue issue = .ok b := by
  unfold syncIssues at h
  simp only at h
  generalize FetchIssues env.issueRemote fuel owner repo since = run at h ⊢
  cases ho : run.outcome with
  | none => simp [ho] at h
  | some res =>
    cases res with
    | error err => simp [ho] at h
    | ok issues =>
      simp only [ho, Option.some.injEq] at h
      refine ⟨issues, rfl, ?_⟩
      refine saveRecords_ok _ Issue.Number _ ?_ issues _ (by rw [h]; rfl)
      intro r w hr
      exact atomicWrite_ok _ _ _ (by rw [← SaveIssue_eq]; exact hr)

theorem syncPRs_ok (env : Env) (fuel : Nat) (s : Storage) (owner repo : String)
    (since : Option Time) (w w' : World)
    (h : syncPRs env fuel s owner repo since w = some (.ok (), w')) :
    ∃ prs, (FetchPullRequests env.prRemote fuel owner repo since).outcome = some (.ok prs) ∧
      ∀ pr ∈ prs, ∃ b, env.json.marshalPR pr = .ok b := by
  unfold syncPRs at h
  simp only at h
  generalize FetchPullRequests env.prRemote fuel owner repo since = run at h ⊢
  cases ho : run.outcome with
  | none => simp [ho] at h
  | some res =>
    cases res with
    | error err => simp [ho] at h
    | ok prs =>
      simp only [ho, Option.some.injEq] at h
      refine ⟨prs, rfl, ?_⟩
      refine saveRecords_ok _ PullRequest.Number _ ?_ prs _ (by rw [h]; rfl)
      intro r w hr
      exact atomicWrite_ok _ _ _ (by rw [← SavePR_eq]; exact hr)

theorem syncDiscussions_ok (env : Env) (fuel : Nat) (s : Storage) (owner repo : String)
    (since : Option Time) (w w' : World)
    (h : syncDiscussions env fuel s owner repo since w = some (.ok (), w')) :
    ∃ discussions,
      (FetchDiscussions env.discussionRemote fuel owner repo since).outcome =
          some (.ok discussions) ∧
        ∀ disc ∈ discussions, ∃ b, env.json.marshalDiscussion disc = .ok b := by
  unfold syncDiscussions at h
  simp only at h
  generalize FetchDiscussions env.discussionRemote fuel owner repo since = run at h ⊢
  cases ho : run.outcome with
  | none => simp [ho] at h
  | some res =>
    cases res with
    | error err => simp [ho] at h
    | ok discussions =>
      simp only [ho, Option.some.injEq] at h
      refine ⟨discussions, rfl, ?_⟩
      refine saveRecords_ok _ Discussion.Number _ ?_ discussions _ (by rw [h]; rfl)
      intro r w hr
      exact atomicWrite_ok _ _ _ (by rw [← SaveDiscussion_eq]; exact hr)

/-- In a run of `Sync` that succeeds, the fetch of every requested kind, called with
the effective `since` of that kind, returned records, and every one of them could be
marshalled. -/
theorem Sync_ok (env : Env) (fuel : Nat) (opts : SyncOptions) (w w' : World)
    (h : Sync env fuel opts w = some (.ok (), w')) (loaded : SyncState)
    (hstored : storedState env.json (New opts.OutputDir) w.files = .ok loaded) :
    (opts.Issues = true →
        ∃ issues,
          (FetchIssues env.issueRemote fuel opts.Owner opts.Repo
              (getSince opts loaded.Issues)).outcome = some (.ok issues) ∧
            ∀ issue ∈ issues, ∃ b, env.json.marshalIssue issue = .ok b) ∧
      (opts.PRs = true →
        ∃ prs,
          (FetchPullRequests env.prRemote fuel opts.Owner opts.Repo
              (getSince opts loaded.PRs)).outcome = some (.ok prs) ∧
            ∀ pr ∈ prs, ∃ b, env.json.marshalPR pr = .ok b) ∧
      (opts.Discussions = true →
        ∃ discussions,
          (FetchDiscussions env.discussionRemote fuel opts.Owner opts.Repo
              (getSince opts loaded.Discussions)).outcome = some (.ok discussions) ∧
            ∀ disc ∈ discussions, ∃ b, env.json.marshalDiscussion disc = .ok b) := by
  unfold Sync at h
  cases hN : NewClient env with
  | error e => simp [hN] at h
  | ok u =>
    cases u
    simp only [hN] at h
    obtain ⟨opsE, _, _, _, filesE⟩ := EnsureDirs_frame (New opts.OutputDir) w
    cases hE : EnsureDirs (New opts.OutputDir) w with
    | mk rE wE =>
      rw [hE] at filesE
      simp only [hE] at h
      cases rE with
      | error e => simp at h
      | ok u =>
        cases u
        simp only at h
        obtain ⟨okL, _, _, hL⟩ := LoadSyncState_frame env.json (New opts.OutputDir) wE
        cases hLoad : LoadSyncState env.json (New opts.OutputDir) wE with
        | mk rL wL =>
          rw [hLoad] at hL
          simp only [hLoad] at h
          cases rL with
          | error e => simp at h
          | ok loaded' =>
            simp only at h
            have hsame : loaded' = loaded := by
              have := hL loaded' rfl
              rw [filesE, hstored] at this
              exact (Except.ok.inj this).symm
            subst hsame
            split at h
            · exact Option.noConfusion h
            · simp at h
            · rename_i wI hI
              split at h
              · exact Option.noConfusion h
              · simp at h
              · rename_i wP hP
                split at h
                · exact Option.noConfusion h
                · simp at h
                · rename_i wD hD
                  refine ⟨?_, ?_, ?_⟩
                  · intro hreq
                    simp only [hreq, if_true] at hI
                    exact syncIssues_ok _ _ _ _ _ _ _ _ hI
                  · intro hreq
                    simp only [hreq, if_true] at hP
                    have := syncPRs_ok _ _ _ _ _ _ _ _ hP
                    cases hi : opts.Issues <;> simpa [hi] using this
                  · intro hreq
                    simp only [hreq, if_true] at hD
                    have := syncDiscussions_ok _ _ _ _ _ _ _ _ hD
                    cases hi : opts.Issues <;> cases hp : opts.PRs <;>
                      simpa [hi, hp] using this

/-! ## Theorems on the orchestrator -/

/-- C9. Watermark advancement on success. When `Sync` succeeds, the state file holds
the marshalled form of the state that `LoadSyncState` loaded at the start (the state
stored in the files before the run, empty without a state file) with the watermark of
every requested kind replaced by one and the same timestamp, and the watermark of every
kind that was not requested left as loaded. The timestamp is the reading of the clock
right after the load, when no call has fetched or saved for any kind yet. This holds
for every `Since` option, every remote and every stored state. -/
theorem Sync_success_advances_watermarks (env : Env) (fuel : Nat) (opts : SyncOptions)
    (w w' : World) (h : Sync env fuel opts w = some (.ok (), w')) :
    ∃ (w₁ : World) (loaded : SyncState) (bytes : Bytes) (pre : List Call),
      LoadSyncState env.json (New opts.OutputDir) (EnsureDirs (New opts.OutputDir) w).2 =
          (.ok loaded, w₁) ∧
        storedState env.json (New opts.OutputDir) w.files = .ok loaded ∧
        w₁.trace = w.trace ++ pre ∧
        (∀ c ∈ pre, ∀ k, c.op.worksFor (New opts.OutputDir) k = false) ∧
        env.json.marshalState
            { Issues := if opts.Issues then some (env.now w₁.trace) else loaded.Issues,
              PRs := if opts.PRs then some (env.now w₁.trace) else loaded.PRs,
              Discussions :=
                if opts.Discussions then some (env.now w₁.trace) else loaded.Discussions } =
          .ok bytes ∧
        readAt w'.files (statePath (New opts.OutputDir)) = some bytes := by
  obtain ⟨ops, _, hok, _⟩ := Sync_run env fuel opts w (.ok ()) w' h
  obtain ⟨_, w₁, loaded, bytes, pre, hload, htrace, hpre, hstored, hbytes, hread⟩ := hok rfl
  exact ⟨w₁, loaded, bytes, pre, hload, hstored, htrace,
    fun c hc k => PrologueOp_worksFor _ k c.op (hpre c hc), hbytes, hread⟩

/-- C9, on the example: issues and discussions are requested, the stored state has the
pull-request watermark 5, and the run succeeds. -/
theorem Sync_success_advances_watermarks_witness :
    ∃ (w₁ : World) (loaded : SyncState) (bytes : Bytes) (pre : List Call),
      LoadSyncState exEnv.json (New exOptions.OutputDir)
          (EnsureDirs (New exOptions.OutputDir) exWorld).2 = (.ok loaded, w₁) ∧
        storedState exEnv.json (New exOptions.OutputDir) exWorld.files = .ok loaded ∧
        w₁.trace = exWorld.trace ++ pre ∧
        (∀ c ∈ pre, ∀ k, c.op.worksFor (New exOptions.OutputDir) k = false) ∧
        exEnv.json.marshalState
            { Issues := if exOptions.Issues then some (exEnv.now w₁.trace) else loaded.Issues,
              PRs := if exOptions.PRs then some (exEnv.now w₁.trace) else loaded.PRs,
              Discussions :=
                if exOptions.Discussions then some (exEnv.now w₁.trace)
                else loaded.Discussions } =
          .ok bytes ∧
        readAt (worldAfter (Sync exEnv 3 exOptions exWorld) exWorld).files
          (statePath (New exOptions.OutputDir)) = some bytes :=
  Sync_success_advances_watermarks exEnv 3 exOptions exWorld
    (worldAfter (Sync exEnv 3 exOptions exWorld) exWorld) rfl

/-! ## Lemmas on what a fetch returns -/

/-- What a page loop returns beyond its start list was emitted for a page the remote
gave in answer to one of the requests of the loop. -/
theorem pageLoop_mem {P R : Type} (ask : Option String → Except Error P)
    (info : P → PageInfo) (body : P → List R → List R) (stops : P → Bool)
    (emit : P → List R) (hbody : ∀ p acc, body p acc = acc ++ emit p) :
    ∀ (fuel : Nat) (cursor : Option String) (acc res : List R),
      (pageLoop ask info body stops fuel cursor acc).outcome = some (.ok res) →
      ∀ r ∈ res, r ∈ acc ∨
        ∃ c p, c ∈ (pageLoop ask info body stops fuel cursor acc).requests ∧
          ask c = .ok p ∧ r ∈ emit p := by
  intro fuel
  induction fuel with
  | zero => intro cursor acc res h; simp [pageLoop] at h
  | succ fuel ih =>
    intro cursor acc res h r hr
    simp only [pageLoop] at h ⊢
    cases hq : ask cursor with
    | error err => simp [hq] at h
    | ok p =>
      simp only [hq] at h ⊢
      by_cases hs : stops p = true
      · simp only [hs, if_true, Option.some.injEq, Except.ok.injEq] at h ⊢
        subst h
        rw [hbody, List.mem_append] at hr
        rcases hr with hr | hr
        · exact Or.inl hr
        · exact Or.inr ⟨cursor, p, List.mem_singleton.mpr rfl, hq, hr⟩
      · simp only [hs, if_false] at h ⊢
        rcases ih _ _ _ h r hr with hr | ⟨c, p', hc, hq', hr⟩
        · rw [hbody, List.mem_append] at hr
          rcases hr with hr | hr
          · exact Or.inl hr
          · exact Or.inr ⟨cursor, p, List.mem_cons_self _ _, hq, hr⟩
        · exact Or.inr ⟨c, p', List.mem_cons_of_mem _ hc, hq', hr⟩

theorem FetchIssues_mem (query : issueVars → Except Error issueQuery) (fuel : Nat)
    (owner repo : String) (since : Option Time) (issues : List Issue)
    (h : (FetchIssues query fuel owner repo since).outcome = some (.ok issues)) :
    ∀ issue ∈ issues, ∃ vars page node,
      vars ∈ (FetchIssues query fuel owner repo since).requests ∧
        query vars = .ok page ∧ node ∈ page.Nodes ∧ issue = convertIssue node := by
  intro issue hi
  rw [FetchIssues_eq, issuesLoop_eq] at h ⊢
  rcases pageLoop_mem _ _ _ _ issuesEmit issuesBody_eq _ _ _ _ h issue hi with hacc | hp
  · simp at hacc
  · obtain ⟨c, p, hc, hq, hmem⟩ := hp
    simp only [issuesEmit, List.mem_map] at hmem
    obtain ⟨node, hn, rfl⟩ := hmem
    exact ⟨⟨owner, repo, since, c⟩, p, node, List.mem_map.mpr ⟨c, hc, rfl⟩, hq, hn, rfl⟩

theorem FetchPullRequests_mem (query : pageVars → Except Error prQuery) (fuel : Nat)
    (owner repo : String) (since : Option Time) (prs : List PullRequest)
    (h : (FetchPullRequests query fuel owner repo since).outcome = some (.ok prs)) :
    ∀ pr ∈ prs, ∃ vars page node,
      vars ∈ (FetchPullRequests query fuel owner repo since).requests ∧
        query vars = .ok page ∧ node ∈ page.Nodes ∧ pr = convertPullRequest node := by
  intro pr hi
  unfold FetchPullRequests at h ⊢
  rw [prsLoop_eq] at h ⊢
  rcases pageLoop_mem _ _ _ _ (prsEmit since) (prsBody_eq since) _ _ _ _ h pr hi with hacc | hp
  · simp at hacc
  · obtain ⟨c, p, hc, hq, hmem⟩ := hp
    simp only [prsEmit, List.mem_map, List.mem_filter] at hmem
    obtain ⟨node, ⟨hn, _⟩, rfl⟩ := hmem
    exact ⟨⟨owner, repo, c⟩, p, node, List.mem_map.mpr ⟨c, hc, rfl⟩, hq, hn, rfl⟩

theorem FetchDiscussions_mem (query : pageVars → Except Error discussionQuery) (fuel : Nat)
    (owner repo : String) (since : Option Time) (discussions : List Discussion)
    (h : (FetchDiscussions query fuel owner repo since).outcome = some (.ok discussions)) :
    ∀ disc ∈ discussions, ∃ vars page node,
      vars ∈ (FetchDiscussions query fuel owner repo since).requests ∧
        query vars = .ok page ∧ node ∈ page.Nodes ∧ disc = convertDiscussion node := by
  intro disc hi
  unfold FetchDiscussions at h ⊢
  rw [discussionsLoop_eq] at h ⊢
  rcases pageLoop_mem _ _ _ _ (discussionsEmit since) (discussionsBody_eq since) _ _ _ _ h
    disc hi with hacc | hp
  · simp at hacc
  · obtain ⟨c, p, hc, hq, hmem⟩ := hp
    simp only [discussionsEmit, List.mem_map] at hmem
    obtain ⟨node, hn, rfl⟩ := hmem
    exact ⟨⟨owner, repo, c⟩, p, node, List.mem_map.mpr ⟨c, hc, rfl⟩, hq,
      (List.takeWhile_prefix _).subset hn, rfl⟩

theorem pagedRemote_mem {P : Type} (info : P → PageInfo) (pages : List P)
    (cursor : Option String) (p : P) (h : pagedRemote info pages cursor = .ok p) :
    p ∈ pages := by
  unfold pagedRemote at h
  cases cursor with
  | none =>
    cases hp : pages.head? with
    | none => simp [hp] at h
    | some q =>
      simp only [hp, Except.ok.injEq] at h
      subst h
      exact List.mem_of_mem_head? hp
  | some c =>
    cases hp : (pages.dropWhile (fun p => (info p).EndCursor != c)).tail.head? with
    | none => simp [hp] at h
    | some q =>
      simp only [hp, Except.ok.injEq] at h
      subst h
      exact (List.dropWhile_sublist _).subset
        (List.mem_of_mem_tail (List.mem_of_mem_head? hp))

/-- The example remotes serve no node updated after the clock reading 104. -/
theorem exEnv_times :
    (∀ vars page, exEnv.issueRemote vars = .ok page →
        ∀ node ∈ page.Nodes, node.UpdatedAt ≤ 104) ∧
      (∀ vars page, exEnv.prRemote vars = .ok page →
        ∀ node ∈ page.Nodes, node.UpdatedAt ≤ 104) ∧
      (∀ vars page, exEnv.discussionRemote vars = .ok page →
        ∀ node ∈ page.Nodes, node.UpdatedAt ≤ 104) := by
  refine ⟨?_, ?_, ?_⟩
  · intro vars page h node hn
    have hp := pagedRemote_mem issueQuery.PageInfo exIssuePages vars.cursor page h
    simp only [exIssuePages, List.mem_cons, List.mem_singleton, List.not_mem_nil,
      or_false] at hp
    rcases hp with rfl | rfl | rfl <;>
      simp only [List.mem_cons, List.mem_singleton, List.not_mem_nil, or_false] at hn <;>
      rcases hn with rfl | rfl <;> decide
  · intro vars page h node hn
    have hp := pagedRemote_mem prQuery.PageInfo exPRPages vars.cursor page h
    simp only [exPRPages, List.mem_cons, List.mem_singleton, List.not_mem_nil,
      or_false] at hp
    rcases hp with rfl | rfl | rfl <;>
      simp only [List.mem_cons, List.mem_singleton, List.not_mem_nil, or_false] at hn <;>
      rcases hn with rfl | rfl <;> decide
  · intro vars page h node hn
    have hp := pagedRemote_mem discussionQuery.PageInfo exDiscussionPages vars.cursor page h
    simp only [exDiscussionPages, List.mem_cons, List.mem_singleton, List.not_mem_nil,
      or_false] at hp
    rcases hp with rfl | rfl | rfl <;>
      simp only [List.mem_cons, List.mem_singleton, List.not_mem_nil, or_false] at hn <;>
      rcases hn with rfl | rfl <;> decide

theorem pageLoop_acc_subset {P R : Type} (ask : Option String → Except Error P)
    (info : P → PageInfo) (body : P → List R → List R) (stops : P → Bool)
    (emit : P → List R) (hbody : ∀ p acc, body p acc = acc ++ emit p) :
    ∀ (fuel : Nat) (cursor : Option String) (acc res : List R),
      (pageLoop ask info body stops fuel cursor acc).outcome = some (.ok res) →
      ∀ r ∈ acc, r ∈ res := by
  intro fuel
  induction fuel with
  | zero => intro cursor acc res h; simp [pageLoop] at h
  | succ fuel ih =>
    intro cursor acc res h r hr
    simp only [pageLoop] at h
    cases hq : ask cursor with
    | error err => simp [hq] at h
    | ok p =>
      simp only [hq] at h
      by_cases hs : stops p = true
      · simp only [hs, if_true, Option.some.injEq, Except.ok.injEq] at h
        subst h
        rw [hbody]
        exact List.mem_append_left _ hr
      · simp only [hs, if_false] at h
        exact ih _ _ _ h r (by rw [hbody]; exact List.mem_append_left _ hr)

/-- Two loops over the same remote, the second stopping wherever the first stops and
adding on each page only what the first adds: what the second returns, the first
returns. -/
theorem pageLoop_sub {P R : Type} (ask : Option String → Except Error P)
    (info : P → PageInfo) (body₁ body₂ : P → List R → List R) (stops₁ stops₂ : P → Bool)
    (emit₁ emit₂ : P → List R) (hbody₁ : ∀ p acc, body₁ p acc = acc ++ emit₁ p)
    (hbody₂ : ∀ p acc, body₂ p acc = acc ++ emit₂ p)
    (hemit : ∀ p, ∀ r ∈ emit₂ p, r ∈ emit₁ p)
    (hstops : ∀ p, stops₁ p = true → stops₂ p = true) :
    ∀ (fuel₂ fuel₁ : Nat) (cursor : Option String) (acc₁ acc₂ res₁ res₂ : List R),
      (pageLoop ask info body₁ stops₁ fuel₁ cursor acc₁).outcome = some (.ok res₁) →
      (pageLoop ask info body₂ stops₂ fuel₂ cursor acc₂).outcome = some (.ok res₂) →
      (∀ r ∈ acc₂, r ∈ acc₁) → ∀ r ∈ res₂, r ∈ res₁ := by
  intro fuel₂
  induction fuel₂ with
  | zero => intro fuel₁ cursor acc₁ acc₂ res₁ res₂ _ h; simp [pageLoop] at h
  | succ fuel₂ ih =>
    intro fuel₁ cursor acc₁ acc₂ res₁ res₂ h₁ h₂ hacc r hr
    cases fuel₁ with
    | zero => simp [pageLoop] at h₁
    | succ fuel₁ =>
      simp only [pageLoop] at h₁ h₂
      cases hq : ask cursor with
      | error err => simp [hq] at h₁
      | ok p =>
        simp only [hq] at h₁ h₂
        have hnext : ∀ x ∈ acc₂ ++ emit₂ p, x ∈ acc₁ ++ emit₁ p := by
          intro x hx
          rcases List.mem_append.mp hx with hx | hx
          · exact List.mem_append_left _ (hacc x hx)
          · exact List.mem_append_right _ (hemit p x hx)
        by_cases hs₂ : stops₂ p = true
        · simp only [hs₂, if_true, Option.some.injEq, Except.ok.injEq] at h₂
          subst h₂
          rw [hbody₂] at hr
          by_cases hs₁ : stops₁ p = true
          · simp only [hs₁, if_true, Option.some.injEq, Except.ok.injEq] at h₁
            subst h₁
            rw [hbody₁]
            exact hnext r hr
          · simp only [hs₁, if_false] at h₁
            refine pageLoop_acc_subset ask info body₁ stops₁ emit₁ hbody₁ _ _ _ _ h₁ r ?_
            rw [hbody₁]
            exact hnext r hr
        · have hs₁ : ¬ stops₁ p = true := fun h => hs₂ (hstops p h)
          simp only [hs₂, if_false] at h₂
          simp only [hs₁, if_false] at h₁
          refine ih fuel₁ _ _ _ res₁ res₂ h₁ h₂ ?_ r hr
          rw [hbody₁, hbody₂]
          exact hnext

theorem prsStops_mono (since₁ since₂ : Option Time)
    (hle : ∀ t, olderThan since₁ t = true → olderThan since₂ t = true) (q : prQuery)
    (h : prsStops since₁ q = true) : prsStops since₂ q = true := by
  unfold prsStops at h ⊢
  by_cases hn : q.PageInfo.HasNextPage = true
  · simp only [hn, Bool.not_true, Bool.false_or] at h ⊢
    cases hs₁ : since₁ with
    | none => simp [hs₁] at h
    | some a =>
      cases hl : q.Nodes.getLast? with
      | none => simp [hs₁, hl] at h
      | some node =>
        simp only [hs₁, hl, Option.isSome_some, Bool.true_and, Bool.and_eq_true,
          decide_eq_true_eq] at h
        have hold := hle node.UpdatedAt (by simp [olderThan, hs₁, h.2])
        cases hs₂ : since₂ with
        | none => simp [olderThan, hs₂] at hold
        | some b =>
          simp only [olderThan, hs₂, decide_eq_true_eq] at hold
          simp [h.1, hold]
  · simp [hn]

theorem FetchPullRequests_sub (query : pageVars → Except Error prQuery) (fuel₁ fuel₂ : Nat)
    (owner repo : String) (since₁ since₂ : Option Time)
    (hle : ∀ t, olderThan since₁ t = true → olderThan since₂ t = true)
    (prs₁ prs₂ : List PullRequest)
    (h₁ : (FetchPullRequests query fuel₁ owner repo since₁).outcome = some (.ok prs₁))
    (h₂ : (FetchPullRequests query fuel₂ owner repo since₂).outcome = some (.ok prs₂)) :
    ∀ pr ∈ prs₂, pr ∈ prs₁ := by
  unfold FetchPullRequests at h₁ h₂
  rw [prsLoop_eq] at h₁ h₂
  refine pageLoop_sub _ _ _ _ _ _ (prsEmit since₁) (prsEmit since₂) (prsBody_eq since₁)
    (prsBody_eq since₂) ?_ (prsStops_mono since₁ since₂ hle) _ _ _ _ _ _ _ h₁ h₂ (by simp)
  intro p r hr
  simp only [prsEmit, List.mem_map, List.mem_filter] at hr ⊢
  obtain ⟨node, ⟨hn, hnew⟩, rfl⟩ := hr
  refine ⟨node, ⟨hn, ?_⟩, rfl⟩
  cases hold : olderThan since₁ node.UpdatedAt with
  | false => rfl
  | true => rw [hle _ hold] at hnew; exact absurd hnew (by decide)

theorem discussionsStops_mono (since₁ since₂ : Option Time)
    (hle : ∀ t, olderThan since₁ t = true → olderThan since₂ t = true) (q : discussionQuery)
    (h : discussionsStops since₁ q = true) : discussionsStops since₂ q = true := by
  unfold discussionsStops at h ⊢
  simp only [Bool.or_eq_true, List.any_eq_true] at h ⊢
  rcases h with ⟨node, hn, hold⟩ | h
  · exact Or.inl ⟨node, hn, hle _ hold⟩
  · exact Or.inr h

theorem takeWhile_subset_of_imp {α : Type} (p q : α → Bool) (hpq : ∀ a, p a = true → q a = true) :
    ∀ l : List α, ∀ x ∈ l.takeWhile p, x ∈ l.takeWhile q := by
  intro l
  induction l with
  | nil => intro x hx; simp at hx
  | cons a rest ih =>
    intro x hx
    by_cases hp : p a = true
    · rw [List.takeWhile_cons_of_pos hp] at hx
      rw [List.takeWhile_cons_of_pos (hpq a hp)]
      rcases List.mem_cons.mp hx with rfl | hx
      · exact List.mem_cons_self _ _
      · exact List.mem_cons_of_mem _ (ih x hx)
    · rw [List.takeWhile_cons_of_neg hp] at hx
      simp at hx

theorem FetchDiscussions_sub (query : pageVars → Except Error discussionQuery)
    (fuel₁ fuel₂ : Nat) (owner repo : String) (since₁ since₂ : Option Time)
    (hle : ∀ t, olderThan since₁ t = true → olderThan since₂ t = true)
    (ds₁ ds₂ : List Discussion)
    (h₁ : (FetchDiscussions query fuel₁ owner repo since₁).outcome = some (.ok ds₁))
    (h₂ : (FetchDiscussions query fuel₂ owner repo since₂).outcome = some (.ok ds₂)) :
    ∀ d ∈ ds₂, d ∈ ds₁ := by
  unfold FetchDiscussions at h₁ h₂
  rw [discussionsLoop_eq] at h₁ h₂
  refine pageLoop_sub _ _ _ _ _ _ (discussionsEmit since₁) (discussionsEmit since₂)
    (discussionsBody_eq since₁) (discussionsBody_eq since₂) ?_
    (discussionsStops_mono since₁ since₂ hle) _ _ _ _ _ _ _ h₁ h₂ (by simp)
  intro p r hr
  simp only [discussionsEmit, List.mem_map] at hr ⊢
  obtain ⟨node, hn, rfl⟩ := hr
  refine ⟨node, takeWhile_subset_of_imp _ _ ?_ p.Nodes node hn, rfl⟩
  intro a ha
  cases hold : olderThan since₁ a.UpdatedAt with
  | false => rfl
  | true => rw [hle _ hold] at ha; exact absurd ha (by decide)

/-! ## Theorems on the watermarks of a run -/

/-- C11 fails as stated: the clock shows 14 when the run starts, the run succeeds and
stores the watermark 14 for issues, and the fetch of that run returned issue 5, updated
at 40. -/
theorem Sync_watermark_below_fetched_record :
    Sync exLateEnv 3 exOptions exWorld =
        some (.ok (), worldAfter (Sync exLateEnv 3 exOptions exWorld) exWorld) ∧
      readAt (worldAfter (Sync exLateEnv 3 exOptions exWorld) exWorld).files
          (statePath (New exOptions.OutputDir)) = some "[14,5,14]" ∧
      exLateEnv.json.marshalState { Issues := some 14, PRs := some 5, Discussions := some 14 } =
        .ok "[14,5,14]" ∧
      (∃ issues,
        (FetchIssues exLateEnv.issueRemote 3 exOptions.Owner exOptions.Repo
            (getSince exOptions none)).outcome = some (.ok issues) ∧
          convertIssue (exIssueNode 5 40) ∈ issues) ∧
      ¬ (convertIssue (exIssueNode 5 40)).UpdatedAt ≤ 14 := by
  refine ⟨rfl, rfl, rfl, ⟨_, rfl, ?_⟩, by decide⟩
  simp [issuesPage]

/-- C11 as amended. Watermark of a successful run. When `Sync` succeeds, the state file
holds the marshalled form of the loaded state with the watermark of every requested
kind replaced by the reading `t` the clock gave at the start of the run (right after
the state was loaded, before any fetch). Every record the fetch of a requested kind
returned in the run carries the number and the update time of a node on a page the
remote gave in answer to a request of that fetch; so if none of the pages the remote
gave that fetch holds a node updated after `t`, the watermark of the kind is greater
than or equal to the update time of every record the fetch returned. -/
theorem Sync_watermark_covers_records (env : Env) (fuel : Nat) (opts : SyncOptions)
    (w w' : World) (t : Time) (h : Sync env fuel opts w = some (.ok (), w'))
    (ht : t = env.now
      (LoadSyncState env.json (New opts.OutputDir)
        (EnsureDirs (New opts.OutputDir) w).2).2.trace) :
    ∃ (loaded : SyncState) (bytes : Bytes),
      storedState env.json (New opts.OutputDir) w.files = .ok loaded ∧
        env.json.marshalState (advance opts t loaded) = .ok bytes ∧
        readAt w'.files (statePath (New opts.OutputDir)) = some bytes ∧
        (opts.Issues = true → (advance opts t loaded).Issues = some t ∧
          ∃ issues,
            (FetchIssues env.issueRemote fuel opts.Owner opts.Repo
                (getSince opts loaded.Issues)).outcome = some (.ok issues) ∧
              (∀ issue ∈ issues, ∃ vars page node,
                vars ∈ (FetchIssues env.issueRemote fuel opts.Owner opts.Repo
                  (getSince opts loaded.Issues)).requests ∧
                env.issueRemote vars = .ok page ∧ node ∈ page.Nodes ∧
                issue.Number = node.Number ∧ issue.UpdatedAt = node.UpdatedAt) ∧
              ((∀ vars ∈ (FetchIssues env.issueRemote fuel opts.Owner opts.Repo
                    (getSince opts loaded.Issues)).requests,
                  ∀ page, env.issueRemote vars = .ok page →
                    ∀ node ∈ page.Nodes, node.UpdatedAt ≤ t) →
                ∀ issue ∈ issues, issue.UpdatedAt ≤ t)) ∧
        (opts.PRs = true → (advance opts t loaded).PRs = some t ∧
          ∃ prs,
            (FetchPullRequests env.prRemote fuel opts.Owner opts.Repo
                (getSince opts loaded.PRs)).outcome = some (.ok prs) ∧
              (∀ pr ∈ prs, ∃ vars page node,
                vars ∈ (FetchPullRequests env.prRemote fuel opts.Owner opts.Repo
                  (getSince opts loaded.PRs)).requests ∧
                env.prRemote vars = .ok page ∧ node ∈ page.Nodes ∧
                pr.Number = node.Number ∧ pr.UpdatedAt = node.UpdatedAt) ∧
              ((∀ vars ∈ (FetchPullRequests env.prRemote fuel opts.Owner opts.Repo
                    (getSince opts loaded.PRs)).requests,
                  ∀ page, env.prRemote vars = .ok page →
                    ∀ node ∈ page.Nodes, node.UpdatedAt ≤ t) →
                ∀ pr ∈ prs, pr.UpdatedAt ≤ t)) ∧
        (opts.Discussions = true → (advance opts t loaded).Discussions = some t ∧
          ∃ discussions,
            (FetchDiscussions env.discussionRemote fuel opts.Owner opts.Repo
                (getSince opts loaded.Discussions)).outcome = some (.ok discussions) ∧
              (∀ disc ∈ discussions, ∃ vars page node,
                vars ∈ (FetchDiscussions env.discussionRemote fuel opts.Owner opts.Repo
                  (getSince opts loaded.Discussions)).requests ∧
                env.discussionRemote vars = .ok page ∧ node ∈ page.Nodes ∧
                disc.Number = node.Number ∧ disc.UpdatedAt = node.UpdatedAt) ∧
              ((∀ vars ∈ (FetchDiscussions env.discussionRemote fuel opts.Owner opts.Repo
                    (getSince opts loaded.Discussions)).requests,
                  ∀ page, env.discussionRemote vars = .ok page →
                    ∀ node ∈ page.Nodes, node.UpdatedAt ≤ t) →
                ∀ disc ∈ discussions, disc.UpdatedAt ≤ t)) := by
  obtain ⟨ops, _, hok, _⟩ := Sync_run env fuel opts w (.ok ()) w' h
  obtain ⟨_, w₁, loaded, bytes, pre, hload, _, _, hstored, hbytes, hread⟩ := hok rfl
  rw [hload] at ht
  simp only at ht
  subst ht
  obtain ⟨hi, hp, hd⟩ := Sync_ok env fuel opts w w' h loaded hstored
  refine ⟨loaded, bytes, hstored, hbytes, hread, ?_, ?_, ?_⟩
  · intro hreq
    obtain ⟨issues, hfetch, _⟩ := hi hreq
    have hmem := FetchIssues_mem _ _ _ _ _ _ hfetch
    refine ⟨by simp [advance, hreq], issues, hfetch, ?_, ?_⟩
    · intro issue hin
      obtain ⟨vars, page, node, hv, hq, hn, rfl⟩ := hmem issue hin
      exact ⟨vars, page, node, hv, hq, hn, rfl, rfl⟩
    · intro hserved issue hin
      obtain ⟨vars, page, node, hv, hq, hn, rfl⟩ := hmem issue hin
      exact hserved vars hv page hq node hn
  · intro hreq
    obtain ⟨prs, hfetch, _⟩ := hp hreq
    have hmem := FetchPullRequests_mem _ _ _ _ _ _ hfetch
    refine ⟨by simp [advance, hreq], prs, hfetch, ?_, ?_⟩
    · intro pr hin
      obtain ⟨vars, page, node, hv, hq, hn, rfl⟩ := hmem pr hin
      exact ⟨vars, page, node, hv, hq, hn, rfl, rfl⟩
    · intro hserved pr hin
      obtain ⟨vars, page, node, hv, hq, hn, rfl⟩ := hmem pr hin
      exact hserved vars hv page hq node hn
  · intro hreq
    obtain ⟨discussions, hfetch, _⟩ := hd hreq
    have hmem := FetchDiscussions_mem _ _ _ _ _ _ hfetch
    refine ⟨by simp [advance, hreq], discussions, hfetch, ?_, ?_⟩
    · intro disc hin
      obtain ⟨vars, page, node, hv, hq, hn, rfl⟩ := hmem disc hin
      exact ⟨vars, page, node, hv, hq, hn, rfl, rfl⟩
    · intro hserved disc hin
      obtain ⟨vars, page, node, hv, hq, hn, rfl⟩ := hmem disc hin
      exact hserved vars hv page hq node hn

/-- C11 as amended, on the example: the clock shows 104 at the start of the run, the
state file holds the watermark 104 for issues and discussions, and the five issues
fetched, none updated after 104, are covered by it. -/
theorem Sync_watermark_covers_records_witness :
    readAt (worldAfter (Sync exEnv 3 exOptions exWorld) exWorld).files
        (statePath (New exOptions.OutputDir)) = some "[104,5,104]" ∧
      ∃ issues,
        (FetchIssues exEnv.issueRemote 3 exOptions.Owner exOptions.Repo
            (getSince exOptions none)).outcome = some (.ok issues) ∧
          issues.map Issue.UpdatedAt = [40, 30, 20, 10, 5] ∧
          ∀ issue ∈ issues, issue.UpdatedAt ≤ 104 := by
  obtain ⟨loaded, bytes, hstored, hbytes, hread, hI, _, _⟩ :=
    Sync_watermark_covers_records exEnv 3 exOptions exWorld
      (worldAfter (Sync exEnv 3 exOptions exWorld) exWorld) 104 rfl rfl
  have hl : loaded = { Issues := none, PRs := some 5, Discussions := none } :=
    (Except.ok.inj hstored).symm
  subst hl
  obtain ⟨_, issues, hfetch, _, hcover⟩ := hI rfl
  refine ⟨rfl, issues, hfetch, ?_, hcover ?_⟩
  · have h5 : (FetchIssues exEnv.issueRemote 3 exOptions.Owner exOptions.Repo
        (getSince exOptions none)).outcome =
        some (.ok ((allNodes issueQuery.Nodes exIssuePages).map convertIssue)) := rfl
    rw [h5] at hfetch
    simp only [Option.some.injEq, Except.ok.injEq] at hfetch
    subst hfetch
    rfl
  · intro vars _ page hq
    exact exEnv_times.1 vars page hq

theorem Sync_eq_kinds (env : Env) (fuel : Nat) (opts : SyncOptions) (w wE wL : World)
    (loaded : SyncState) (hN : NewClient env = .ok ())
    (hE : EnsureDirs (New opts.OutputDir) w = (.ok (), wE))
    (hL : LoadSyncState env.json (New opts.OutputDir) wE = (.ok loaded, wL)) :
    Sync env fuel opts w =
      syncKindsWith env fuel opts (New opts.OutputDir)
        (fun k => getSince opts (loaded.watermark k)) (env.now wL.trace) loaded wL := by
  unfold Sync
  simp only [hN, hE, hL]
  obtain ⟨owner, repo, out, i, p, d, since⟩ := opts
  cases i <;> cases p <;> cases d <;> rfl

theorem loaded_eq_stored (env : Env) (s : Storage) (w wE wL : World) (loaded : SyncState)
    (hE : EnsureDirs s w = (.ok (), wE))
    (hL : LoadSyncState env.json s wE = (.ok loaded, wL)) :
    storedState env.json s w.files = .ok loaded ∧ wL.files = w.files := by
  obtain ⟨_, _, _, _, filesE⟩ := EnsureDirs_frame s w
  obtain ⟨_, _, hfiles, hstored⟩ := LoadSyncState_frame env.json s wE
  rw [hE] at filesE
  rw [hL] at hstored hfiles
  have := hstored loaded rfl
  simp only at filesE
  rw [filesE] at this
  exact ⟨this, by simpa [filesE] using hfiles⟩

/-! ## Theorems on the atomic write and the record paths -/

theorem WriteOp_modifies (path : Path) (hq : isTmpPath path = false) (op : Op)
    (h : WriteOp path op) (hm : op.modifies path = true) : ∃ src, op = .rename src path := by
  cases op with
  | query k c => simp [Op.modifies] at hm
  | mkdirAll d => simp [Op.modifies] at hm
  | readFile p => simp [Op.modifies] at hm
  | createTemp d name =>
    simp only [Op.modifies, decide_eq_true_eq] at hm
    subst hm
    simp [WriteOp, hq] at h
  | write p =>
    simp only [Op.modifies, decide_eq_true_eq] at hm
    subst hm
    simp [WriteOp, hq] at h
  | close p => simp [Op.modifies] at hm
  | remove p =>
    simp only [Op.modifies, decide_eq_true_eq] at hm
    subst hm
    simp [WriteOp, hq] at h
  | rename src dst =>
    simp only [WriteOp] at h
    exact ⟨src, by rw [h.1]⟩

theorem WriteStep.of_frame {path : Path} {data : Except Error Bytes} {a b : World} {c : Call}
    (hq : isTmpPath path = false) (hf : Frame a b [c]) (hop : WriteOp path c.op)
    (hrename : ∀ src, c = ⟨.rename src path, true⟩ →
      ∃ bytes, data = .ok bytes ∧ readAt a.files src = some bytes ∧
        readAt b.files path = some bytes) :
    WriteStep path data a b := by
  refine ⟨c, hf.1, hop, WriteOp_modifies path hq c.op hop, ?_⟩
  by_cases h : ∃ src, c = ⟨.rename src path, true⟩
  · obtain ⟨src, hc⟩ := h
    obtain ⟨bytes, hd, ha, hb⟩ := hrename src hc
    exact Or.inr ⟨src, bytes, hc, hd, ha, hb⟩
  · refine Or.inl (hf.2.1 path hq ?_)
    intro src hmem
    exact h ⟨src, (List.mem_singleton.mp hmem).symm⟩

/-- Along the steps of an atomic write the target keeps its content or holds the
complete bytes. -/
theorem WriteStep.chain_content (path : Path) (data : Except Error Bytes) (w : World) :
    ∀ (states : List World) (a : World), List.Chain (WriteStep path data) a states →
      (readAt a.files path = readAt w.files path ∨
        ∃ b, data = .ok b ∧ readAt a.files path = some b) →
      ∀ st ∈ states, readAt st.files path = readAt w.files path ∨
        ∃ b, data = .ok b ∧ readAt st.files path = some b := by
  intro states
  induction states with
  | nil => intro a _ _ st hst; simp at hst
  | cons x rest ih =>
    intro a hchain ha st hst
    rw [List.chain_cons] at hchain
    obtain ⟨hstep, hrest⟩ := hchain
    have hx : readAt x.files path = readAt w.files path ∨
        ∃ b, data = .ok b ∧ readAt x.files path = some b := by
      obtain ⟨c, _, _, _, hc⟩ := hstep
      rcases hc with hc | ⟨src, bytes, _, hd, _, hb⟩
      · rw [hc]; exact ha
      · exact Or.inr ⟨bytes, hd, hb⟩
    rcases List.mem_cons.mp hst with rfl | hmem
    · exact hx
    · exact ih x hrest hx st hmem

/-- The steps of an atomic write to a path that is no temporary file. -/
theorem atomicWrite_steps (path : Path) (hq : isTmpPath path = false)
    (data : Except Error Bytes) (w : World) :
    ∃ ops : List Call,
      (atomicWrite path data w).2.trace = w.trace ++ ops ∧
        (∀ c ∈ ops.dropLast, ∀ src dst, c.op ≠ .rename src dst) ∧
        ((atomicWrite path data w).1 = .ok () →
          ∃ b tmp, data = .ok b ∧ tmp.dropLast = path.dropLast ∧ isTmpPath tmp = true ∧
            ops = [⟨.mkdirAll path.dropLast, true⟩, ⟨.createTemp path.dropLast tmp, true⟩,
              ⟨.write tmp, true⟩, ⟨.close tmp, true⟩, ⟨.rename tmp path, true⟩]) ∧
        (atomicWriteStates path data w).head? = some w ∧
        (atomicWriteStates path data w).getLast? = some (atomicWrite path data w).2 ∧
        (atomicWriteStates path data w).length = ops.length + 1 ∧
        List.Chain' (WriteStep path data) (atomicWriteStates path data w) := by
  cases data with
  | error err =>
    exact ⟨[], by simp [atomicWrite], by simp, by simp [atomicWrite],
      by simp [atomicWriteStates], by simp [atomicWriteStates, atomicWrite],
      by simp [atomicWriteStates], by simp [atomicWriteStates]⟩
  | ok b =>
    unfold atomicWrite atomicWriteStates
    simp only
    obtain ⟨fm, _⟩ := osMkdirAll_frame path.dropLast w
    have sm : WriteStep path (.ok b) w (osMkdirAll path.dropLast w).2 :=
      WriteStep.of_frame hq fm (by simp [WriteOp]) (by intro src h; simp at h)
    cases h1 : osMkdirAll path.dropLast w with
    | mk r1 w1 =>
      rw [h1] at fm sm
      cases r1 with
      | error e1 =>
        refine ⟨_, fm.1, by simp, by simp, by simp, by simp, by simp, ?_⟩
        simp only [List.chain'_cons, List.chain'_singleton, and_true]
        exact sm
      | ok u1 =>
        cases u1
        dsimp only
        obtain ⟨name, hdir, htmp, fc, hname⟩ := osCreateTemp_frame path.dropLast w1
        have sc : WriteStep path (.ok b) w1 (osCreateTemp path.dropLast w1).2 :=
          WriteStep.of_frame hq fc (by simp [WriteOp, hdir, htmp]) (by intro src h; simp at h)
        cases h2 : osCreateTemp path.dropLast w1 with
        | mk r2 w2 =>
          rw [h2] at fc hname sc
          cases r2 with
          | error e2 =>
            dsimp only
            refine ⟨_, (fm.trans fc).1, by simp, by simp, by simp, by simp, by simp, ?_⟩
            simp only [List.chain'_cons, List.chain'_singleton, and_true]
            exact ⟨sm, sc⟩
          | ok tmp =>
            dsimp only
            have htn : tmp = name := hname tmp rfl
            subst htn
            obtain ⟨fw, hwr⟩ := osWrite_frame tmp b w2 htmp
            have sw : WriteStep path (.ok b) w2 (osWrite tmp b w2).2 :=
              WriteStep.of_frame hq fw (by simp [WriteOp, hdir, htmp])
                (by intro src h; simp at h)
            cases h3 : osWrite tmp b w2 with
            | mk r3 w3 =>
              rw [h3] at fw hwr sw
              cases r3 with
              | error e3 =>
                dsimp only
                have fcl := (osClose_frame tmp w3).1
                have frm := osRemove_frame tmp (osClose tmp w3).2 htmp
                have scl : WriteStep path (.ok b) w3 (osClose tmp w3).2 :=
                  WriteStep.of_frame hq fcl (by simp [WriteOp, hdir, htmp])
                    (by intro src h; simp at h)
                have srm : WriteStep path (.ok b) (osClose tmp w3).2
                    (osRemove tmp (osClose tmp w3).2).2 :=
                  WriteStep.of_frame hq frm (by simp [WriteOp, hdir, htmp])
                    (by intro src h; simp at h)
                refine ⟨_, (((fm.trans fc).trans fw).trans (fcl.trans frm)).1, by simp,
                  by simp, by simp, by simp, by simp, ?_⟩
                simp only [List.chain'_cons, List.chain'_singleton, and_true]
                exact ⟨sm, sc, sw, scl, srm⟩
              | ok u3 =>
                cases u3
                dsimp only
                obtain ⟨fcl, hclf⟩ := osClose_frame tmp w3
                have scl : WriteStep path (.ok b) w3 (osClose tmp w3).2 :=
                  WriteStep.of_frame hq fcl (by simp [WriteOp, hdir, htmp])
                    (by intro src h; simp at h)
                cases h4 : osClose tmp w3 with
                | mk r4 w4 =>
                  rw [h4] at fcl hclf scl
                  cases r4 with
                  | error e4 =>
                    dsimp only
                    have frm := osRemove_frame tmp w4 htmp
                    have srm : WriteStep path (.ok b) w4 (osRemove tmp w4).2 :=
                      WriteStep.of_frame hq frm (by simp [WriteOp, hdir, htmp])
                        (by intro src h; simp at h)
                    refine ⟨_, ((((fm.trans fc).trans fw).trans fcl).trans frm).1, by simp,
                      by simp, by simp, by simp, by simp, ?_⟩
                    simp only [List.chain'_cons, List.chain'_singleton, and_true]
                    exact ⟨sm, sc, sw, scl, srm⟩
                  | ok u4 =>
                    cases u4
                    dsimp only
                    obtain ⟨frn, hrn⟩ := osRename_frame tmp path w4 htmp
                    have hcontent : readAt w4.files tmp = some b := by
                      rw [hclf]; exact hwr rfl
                    have srn : WriteStep path (.ok b) w4 (osRename tmp path w4).2 := by
                      refine WriteStep.of_frame hq frn (by simp [WriteOp, hdir, htmp]) ?_
                      intro src h
                      simp only [Call.mk.injEq, Op.rename.injEq, and_true] at h
                      obtain ⟨hsrc, hok⟩ := h
                      subst hsrc
                      have hres : (osRename tmp path w4).1 = .ok () := by
                        cases hres : (osRename tmp path w4).1 with
                        | error e => rw [hres] at hok; simp [succeeded] at hok
                        | ok u => rfl
                      exact ⟨b, rfl, hcontent, by rw [hrn hres, hcontent]⟩
                    refine ⟨_, ((((fm.trans fc).trans fw).trans fcl).trans frn).1, by simp,
                      ?_, by simp, by simp, by simp, ?_⟩
                    · intro h
                      exact ⟨b, tmp, rfl, hdir, htmp, by simp [succeeded, h]⟩
                    · simp only [List.chain'_cons, List.chain'_singleton, and_true]
                      exact ⟨sm, sc, sw, scl, srn⟩

theorem isTmpPath_documentPath (s : Storage) (target : Option (Kind × Int)) :
    isTmpPath (documentPath s target) = false := by
  cases target with
  | none => exact isTmpPath_statePath s
  | some kn => exact isTmpPath_recordPath s kn.1 kn.2

/-- C14. Atomic write discipline. Every persisted document, the sync state and the
record of any kind and number, is written by `atomicWrite` to its path. When the
document cannot be serialized no call is made. Otherwise the calls are made one after
the other, each a call on the directory of the target, on a temporary file of that
directory, or the rename of such a file onto the target; no call but a rename onto the
target touches the target, and no call before the last one is a rename. A write that
succeeds made exactly the calls `MkdirAll`, `CreateTemp` in the directory of the
target, `Write` and `Close` on the temporary file and the rename of it onto the target,
in this order, and the renamed file held the complete bytes. In the world the write
starts in and in the world after each call the target holds what it held at the start
(nothing, if it did not exist) or the complete serialization; after a write that
failed it holds what it held at the start. -/
theorem atomicWrite_discipline (s : Storage) (target : Option (Kind × Int))
    (data : Except Error Bytes) (w : World) :
    (∀ n, target = some (.issues, n) →
        SaveIssue s n data w = atomicWrite (documentPath s target) data w) ∧
      (∀ n, target = some (.prs, n) →
        SavePR s n data w = atomicWrite (documentPath s target) data w) ∧
      (∀ n, target = some (.discussions, n) →
        SaveDiscussion s n data w = atomicWrite (documentPath s target) data w) ∧
      (∀ json state, target = none → data = json.marshalState state →
        SaveSyncState json s state w = atomicWrite (documentPath s target) data w) ∧
      ∃ ops : List Call,
        (atomicWrite (documentPath s target) data w).2.trace = w.trace ++ ops ∧
          (∀ err, data = .error err → ops = []) ∧
          (∀ c ∈ ops, WriteOp (documentPath s target) c.op) ∧
          (∀ c ∈ ops, c.op.modifies (documentPath s target) = true →
            ∃ src, c.op = .rename src (documentPath s target)) ∧
          (∀ c ∈ ops.dropLast, ∀ src dst, c.op ≠ .rename src dst) ∧
          ((atomicWrite (documentPath s target) data w).1 = .ok () →
            ∃ b tmp, data = .ok b ∧ tmp.dropLast = (documentPath s target).dropLast ∧
              isTmpPath tmp = true ∧
              ops = [⟨.mkdirAll (documentPath s target).dropLast, true⟩,
                ⟨.createTemp (documentPath s target).dropLast tmp, true⟩,
                ⟨.write tmp, true⟩, ⟨.close tmp, true⟩,
                ⟨.rename tmp (documentPath s target), true⟩] ∧
              readAt (atomicWrite (documentPath s target) data w).2.files
                (documentPath s target) = some b) ∧
          ((atomicWrite (documentPath s target) data w).1 ≠ .ok () →
            readAt (atomicWrite (documentPath s target) data w).2.files
                (documentPath s target) =
              readAt w.files (documentPath s target)) ∧
          (atomicWriteStates (documentPath s target) data w).head? = some w ∧
          (atomicWriteStates (documentPath s target) data w).getLast? =
            some (atomicWrite (documentPath s target) data w).2 ∧
          (atomicWriteStates (documentPath s target) data w).length = ops.length + 1 ∧
          List.Chain' (WriteStep (documentPath s target) data)
            (atomicWriteStates (documentPath s target) data w) ∧
          ∀ st ∈ atomicWriteStates (documentPath s target) data w,
            readAt st.files (documentPath s target) =
                readAt w.files (documentPath s target) ∨
              ∃ b, data = .ok b ∧ readAt st.files (documentPath s target) = some b := by
  have hq := isTmpPath_documentPath s target
  refine ⟨?_, ?_, ?_, ?_, ?_⟩
  · intro n ht; subst ht; rfl
  · intro n ht; subst ht; rfl
  · intro n ht; subst ht; rfl
  · intro json state ht hd; subst ht hd; rfl
  generalize documentPath s target = path at hq ⊢
  obtain ⟨ops, htrace, hlast, hsucc, hhead, hend, hlen, hchain⟩ :=
    atomicWrite_steps path hq data w
  obtain ⟨ops', hF, hops, hok, hfail⟩ := atomicWrite_frame path data w
  have hsame : ops' = ops := List.append_cancel_left (hF.1.symm.trans htrace)
  subst hsame
  refine ⟨ops', htrace, ?_, hops, fun c hc => WriteOp_modifies path hq c.op (hops c hc),
    hlast, ?_, ?_, hhead, hend, hlen, hchain, ?_⟩
  · intro err hd
    subst hd
    simpa [atomicWrite] using htrace
  · intro hres
    obtain ⟨b, tmp, hb, hdir, htmp, hcalls⟩ := hsucc hres
    obtain ⟨_, b', hb', hread⟩ := hok hres
    rw [hb] at hb'
    rw [← Except.ok.inj hb'] at hread
    exact ⟨b, tmp, hb, hdir, htmp, hcalls, hread⟩
  · intro hres
    refine hF.2.1 path hq ?_
    intro src hmem
    exact Bool.noConfusion (hfail hres _ hmem src path rfl)
  · cases hst : atomicWriteStates path data w with
    | nil => intro st h; simp at h
    | cons a rest =>
      rw [hst] at hhead hchain
      simp only [List.head?_cons, Option.some.injEq] at hhead
      subst hhead
      intro st hmem
      rcases List.mem_cons.mp hmem with rfl | hmem
      · exact Or.inl rfl
      · exact WriteStep.chain_content path data a rest a hchain (Or.inl rfl) st hmem

/-- C14, on an example: the record of issue 5 is written into the example world. -/
theorem atomicWrite_discipline_witness :
    ∃ ops : List Call,
      (atomicWrite (recordPath (New "out") .issues 5) (.ok "issue 5") exWorld).2.trace =
          exWorld.trace ++ ops ∧
        ops.length = 5 ∧
        readAt (atomicWrite (recordPath (New "out") .issues 5) (.ok "issue 5") exWorld).2.files
          (recordPath (New "out") .issues 5) = some "issue 5" ∧
        (atomicWriteStates (recordPath (New "out") .issues 5) (.ok "issue 5") exWorld).length =
          6 ∧
        ∀ st ∈ atomicWriteStates (recordPath (New "out") .issues 5) (.ok "issue 5") exWorld,
          readAt st.files (recordPath (New "out") .issues 5) =
              readAt exWorld.files (recordPath (New "out") .issues 5) ∨
            ∃ b, (.ok "issue 5" : Except Error Bytes) = .ok b ∧
              readAt st.files (recordPath (New "out") .issues 5) = some b := by
  obtain ⟨_, _, _, _, ops, htrace, _, _, _, _, hok, _, _, _, hlen, _, hall⟩ :=
    atomicWrite_discipline (New "out") (some (.issues, 5)) (.ok "issue 5") exWorld
  obtain ⟨b, tmp, hb, _, _, hcalls, hread⟩ := hok rfl
  have hb5 : b = "issue 5" := (Except.ok.inj hb).symm
  subst hb5
  exact ⟨ops, htrace, by rw [hcalls]; rfl, hread, hlen.trans (by rw [hcalls]; rfl), hall⟩

theorem digitChar_injective (d e : Nat) (hd : d < 10) (he : e < 10)
    (h : Nat.digitChar d = Nat.digitChar e) : d = e := by
  interval_cases d <;> interval_cases e <;> first | rfl | exact absurd h (by decide)

theorem decimalDigits_injective : ∀ n m : Nat, decimalDigits n = decimalDigits m → n = m := by
  intro n
  induction n using Nat.strong_induction_on with
  | _ n ih =>
    intro m h
    by_cases hn : n < 10
    · by_cases hm : m < 10
      · rw [decimalDigits.eq_1 n, decimalDigits.eq_1 m] at h
        simp only [hn, hm, if_true, List.cons.injEq, and_true] at h
        exact digitChar_injective n m hn hm h
      · have h1 := decimalDigits_length_one n hn
        have h2 := decimalDigits_length_two m (by omega)
        rw [h] at h1
        omega
    · by_cases hm : m < 10
      · have h1 := decimalDigits_length_one m hm
        have h2 := decimalDigits_length_two n (by omega)
        rw [h] at h2
        omega
      · rw [decimalDigits.eq_1 n, decimalDigits.eq_1 m] at h
        simp only [hn, hm, if_false] at h
        have hlen : [Nat.digitChar (n % 10)].length = [Nat.digitChar (m % 10)].length := rfl
        obtain ⟨h1, h2⟩ := List.append_inj' h hlen
        have hdiv := ih (n / 10) (by omega) (m / 10) h1
        have hmod := digitChar_injective (n % 10) (m % 10) (Nat.mod_lt _ (by omega))
          (Nat.mod_lt _ (by omega)) (List.cons.inj h2).1
        omega

theorem repr_injective (n m : Nat) (h : Nat.repr n = Nat.repr m) : n = m := by
  rw [repr_eq_decimalDigits, repr_eq_decimalDigits] at h
  exact decimalDigits_injective n m (congrArg String.data h)

theorem digitChar_ne_minus (d : Nat) (h : d < 10) : Nat.digitChar d ≠ '-' := by
  interval_cases d <;> decide

theorem formatNumber_neg_data (m : Nat) :
    (formatNumber (Int.negSucc m)).data = '-' :: (Nat.repr (m + 1)).data := by
  have hf : formatNumber (Int.negSucc m) = "-" ++ Nat.repr (m + 1) := rfl
  rw [hf, String.data_append]
  rfl

theorem formatNumber_injective (n m : Int) (h : formatNumber n = formatNumber m) : n = m := by
  have hd := congrArg String.data h
  cases n with
  | ofNat a =>
    cases m with
    | ofNat b =>
      have : a = b := repr_injective a b h
      rw [this]
    | negSucc b =>
      obtain ⟨d, rest, hlt, hrest⟩ := decimalDigits_head a
      have hf : formatNumber (Int.ofNat a) = Nat.repr a := rfl
      rw [formatNumber_neg_data, hf, repr_eq_decimalDigits a, hrest] at hd
      exact absurd (List.cons.inj hd).1 (digitChar_ne_minus d hlt)
  | negSucc a =>
    cases m with
    | ofNat b =>
      obtain ⟨d, rest, hlt, hrest⟩ := decimalDigits_head b
      have hf : formatNumber (Int.ofNat b) = Nat.repr b := rfl
      rw [formatNumber_neg_data, hf, repr_eq_decimalDigits b, hrest] at hd
      exact absurd (List.cons.inj hd).1.symm (digitChar_ne_minus d hlt)
    | negSucc b =>
      rw [formatNumber_neg_data, formatNumber_neg_data] at hd
      have : a + 1 = b + 1 := repr_injective _ _ (String.ext (List.cons.inj hd).2)
      have : a = b := by omega
      rw [this]

theorem recordPath_injective (s : Storage) (k k' : Kind) (n n' : Int)
    (h : recordPath s k n = recordPath s k' n') : k = k' ∧ n = n' := by
  simp only [recordPath, List.cons.injEq, true_and, and_true] at h
  obtain ⟨hk, _, hn⟩ := h
  refine ⟨dirName_injective k k' hk, formatNumber_injective n n' ?_⟩
  have hd := congrArg String.data hn
  rw [String.data_append, String.data_append] at hd
  exact String.ext (List.append_cancel_right hd)

theorem recordPath_ne_statePath (s : Storage) (k : Kind) (n : Int) :
    recordPath s k n ≠ statePath s := by
  simp [recordPath, statePath]

theorem render_two (a b : String) : (Path.render [a, b]).data = a.data ++ '/' :: b.data := by
  simp [Path.render, String.intercalate, String.intercalate.go, String.data_append]

theorem render_four (a b c d : String) :
    (Path.render [a, b, c, d]).data =
      a.data ++ '/' :: (b.data ++ '/' :: (c.data ++ '/' :: d.data)) := by
  simp [Path.render, String.intercalate, String.intercalate.go, String.data_append]

/-- Two lists cut at their first separator agree part by part. -/
theorem split_at_sep (sep : Char) :
    ∀ (x x' y y' : List Char), sep ∉ x → sep ∉ x' → x ++ sep :: y = x' ++ sep :: y' →
      x = x' ∧ y = y' := by
  intro x
  induction x with
  | nil =>
    intro x' y y' _ hx' h
    cases x' with
    | nil => exact ⟨rfl, by simpa using h⟩
    | cons c rest =>
      simp only [List.nil_append, List.cons_append, List.cons.injEq] at h
      exact absurd (by rw [h.1]; exact List.mem_cons_self _ _) hx'
  | cons c rest ih =>
    intro x' y y' hx hx' h
    cases x' with
    | nil =>
      simp only [List.nil_append, List.cons_append, List.cons.injEq] at h
      exact absurd (by rw [← h.1]; exact List.mem_cons_self _ _) hx
    | cons c' rest' =>
      simp only [List.cons_append, List.cons.injEq] at h
      obtain ⟨h1, h2⟩ := ih rest' y y' (fun hm => hx (List.mem_cons_of_mem _ hm))
        (fun hm => hx' (List.mem_cons_of_mem _ hm)) h.2
      exact ⟨by rw [h.1, h1], h2⟩

theorem dirName_no_sep (k : Kind) : '/' ∉ k.dirName.data := by
  cases k <;> decide

theorem digitChar_ne_sep (d : Nat) (h : d < 10) : Nat.digitChar d ≠ '/' := by
  interval_cases d <;> decide

theorem decimalDigits_no_sep (n : Nat) : '/' ∉ decimalDigits n := by
  induction n using Nat.strong_induction_on with
  | _ n ih =>
    rw [decimalDigits]
    by_cases hn : n < 10
    · simp only [hn, if_true, List.mem_singleton]
      exact fun h => digitChar_ne_sep n hn h.symm
    · simp only [hn, if_false, List.mem_append, List.mem_singleton, not_or]
      exact ⟨ih (n / 10) (by omega),
        fun h => digitChar_ne_sep (n % 10) (Nat.mod_lt _ (by omega)) h.symm⟩

theorem formatNumber_no_sep (n : Int) : '/' ∉ (formatNumber n).data := by
  cases n with
  | ofNat m =>
    have hf : formatNumber (Int.ofNat m) = Nat.repr m := rfl
    rw [hf, repr_eq_decimalDigits]
    exact decimalDigits_no_sep m
  | negSucc m =>
    rw [formatNumber_neg_data, repr_eq_decimalDigits]
    simp only [List.mem_cons, not_or]
    exact ⟨by decide, decimalDigits_no_sep (m + 1)⟩

theorem numberPrefix_no_sep (n : Int) : '/' ∉ (numberPrefix n).data := by
  unfold numberPrefix
  simp only
  split
  · exact formatNumber_no_sep n
  · exact fun h => formatNumber_no_sep n (List.mem_of_mem_take h)

theorem render_recordPath_injective (s : Storage) (k k' : Kind) (n n' : Int)
    (h : (recordPath s k n).render = (recordPath s k' n').render) : k = k' ∧ n = n' := by
  have hd := congrArg String.data h
  simp only [recordPath, render_four] at hd
  have h1 := List.append_cancel_left hd
  simp only [List.cons.injEq, true_and] at h1
  obtain ⟨hk, h2⟩ := split_at_sep '/' _ _ _ _ (dirName_no_sep k) (dirName_no_sep k') h1
  obtain ⟨_, h3⟩ := split_at_sep '/' _ _ _ _ (numberPrefix_no_sep n) (numberPrefix_no_sep n') h2
  refine ⟨dirName_injective k k' (String.ext hk), formatNumber_injective n n' ?_⟩
  rw [String.data_append, String.data_append] at h3
  exact String.ext (List.append_cancel_right h3)

theorem render_recordPath_ne_statePath (s : Storage) (k : Kind) (n : Int) :
    (recordPath s k n).render ≠ (statePath s).render := by
  intro h
  have hd := congrArg String.data h
  simp only [recordPath, statePath, render_four, render_two] at hd
  have h1 := List.append_cancel_left hd
  simp only [List.cons.injEq, true_and] at h1
  cases k <;> simp [Kind.dirName] at h1

/-- An atomic write leaves every other file alone that is not a temporary file. -/
theorem atomicWrite_other (path : Path) (data : Except Error Bytes) (w : World) (q : Path)
    (hq : isTmpPath q = false) (hne : q ≠ path) :
    readAt (atomicWrite path data w).2.files q = readAt w.files q := by
  obtain ⟨ops, hF, hops, _, _⟩ := atomicWrite_frame path data w
  refine hF.2.1 q hq ?_
  intro src hmem
  have := hops _ hmem
  simp only [WriteOp] at this
  exact hne this.1

theorem Kind.save_eq (k : Kind) (s : Storage) (n : Int) (data : Except Error Bytes)
    (w : World) : k.save s n data w = atomicWrite (recordPath s k n) data w := by
  cases k <;> rfl

/-- C15. Record paths never collide. For all kinds `k`, `k'` and all record numbers
`n`, `n'` of any sign: the path `SaveIssue`, `SavePR` or `SaveDiscussion` computes for
`(k, n)` equals the path for `(k', n')` only if `k = k'` and `n = n'`, as a list of
path elements and as the elements joined by `/`; no such path is the path of the sync
state; and the save of the record `(k, n)` is an atomic write to its path that leaves
the file of every other record and the state file as they were. -/
theorem recordPath_never_collides (s : Storage) (k k' : Kind) (n n' : Int) :
    (recordPath s k n = recordPath s k' n' → k = k' ∧ n = n') ∧
      ((recordPath s k n).render = (recordPath s k' n').render → k = k' ∧ n = n') ∧
      recordPath s k n ≠ statePath s ∧
      (recordPath s k n).render ≠ (statePath s).render ∧
      (∀ data w, k.save s n data w = atomicWrite (recordPath s k n) data w) ∧
      (∀ data w, (k ≠ k' ∨ n ≠ n') →
        readAt (k.save s n data w).2.files (recordPath s k' n') =
          readAt w.files (recordPath s k' n')) ∧
      ∀ data w,
        readAt (k.save s n data w).2.files (statePath s) = readAt w.files (statePath s) := by
  refine ⟨recordPath_injective s k k' n n', render_recordPath_injective s k k' n n',
    recordPath_ne_statePath s k n, render_recordPath_ne_statePath s k n,
    Kind.save_eq k s n, ?_, ?_⟩
  · intro data w hne
    rw [Kind.save_eq]
    refine atomicWrite_other _ data w _ (isTmpPath_recordPath s k' n') ?_
    intro h
    obtain ⟨hk, hn⟩ := recordPath_injective s k' k n' n h
    rcases hne with hne | hne
    · exact hne hk.symm
    · exact hne hn.symm
  · intro data w
    rw [Kind.save_eq]
    exact atomicWrite_other _ data w _ (isTmpPath_statePath s)
      (fun h => recordPath_ne_statePath s k n h.symm)

/-- C15, on an example: issue 12, pull request 12 and issue -12 have three different
paths, and saving issue 12 leaves the file of pull request 12 and the state file as
they were. -/
theorem recordPath_never_collides_witness :
    recordPath (New "out") .issues 12 ≠ recordPath (New "out") .prs 12 ∧
      recordPath (New "out") .issues 12 ≠ recordPath (New "out") .issues (-12) ∧
      readAt (SaveIssue (New "out") 12 (.ok "issue 12") exWorld).2.files
          (recordPath (New "out") .prs 12) =
        readAt exWorld.files (recordPath (New "out") .prs 12) ∧
      readAt (SaveIssue (New "out") 12 (.ok "issue 12") exWorld).2.files
          (statePath (New "out")) = some "[null,5,null]" :=
  ⟨fun h => absurd ((recordPath_never_collides (New "out") .issues .prs 12 12).1 h).1
      (by decide),
    fun h => absurd ((recordPath_never_collides (New "out") .issues .issues 12 (-12)).1 h).2
      (by decide),
    (recordPath_never_collides (New "out") .issues .prs 12 12).2.2.2.2.2.1 (.ok "issue 12")
      exWorld (Or.inl (by decide)),
    ((recordPath_never_collides (New "out") .issues .prs 12 12).2.2.2.2.2.2 (.ok "issue 12")
      exWorld).trans rfl⟩

/-! ## Lemmas on a repeated run -/

/-- An atomic write of the bytes the target holds already changes no file that is not a
temporary file, whether it succeeds or fails. -/
theorem atomicWrite_same (path : Path) (data : Except Error Bytes) (w : World)
    (hp : isTmpPath path = false)
    (hhave : ∀ b, data = .ok b → readAt w.files path = some b) :
    ∀ q, isTmpPath q = false → readAt (atomicWrite path data w).2.files q = readAt w.files q := by
  intro q hq
  by_cases hqp : q = path
  · subst hqp
    obtain ⟨ops, hF, _, hok, hfail⟩ := atomicWrite_frame q data w
    cases hres : (atomicWrite q data w).1 with
    | ok u =>
      cases u
      obtain ⟨_, b, hb, hread⟩ := hok hres
      rw [hread, hhave b hb]
    | error e =>
      refine hF.2.1 q hq ?_
      intro src hmem
      have := hfail (by rw [hres]; exact fun h => Except.noConfusion h) _ hmem src q rfl
      exact Bool.noConfusion this
  · exact atomicWrite_other path data w q hq hqp

theorem atomicWrite_keeps (path : Path) (data : Except Error Bytes) (w : World) (q : Path)
    (b : Bytes) (hq : isTmpPath q = false) (hcur : readAt w.files q = some b)
    (hsame : path = q → data = .ok b) :
    readAt (atomicWrite path data w).2.files q = some b := by
  by_cases hpq : path = q
  · subst hpq
    rw [atomicWrite_same path data w hq ?_ path hq, hcur]
    intro b' hb'
    rw [hsame rfl] at hb'
    rw [hcur, Except.ok.inj hb']
  · rw [atomicWrite_other path data w q hq (fun h => hpq h.symm), hcur]

theorem saveRecords_same {R : Type} (save : R → World → Except Error Unit × World)
    (number : R → Int) (path : R → Path) (data : R → Except Error Bytes)
    (hsave : ∀ r w, save r w = atomicWrite (path r) (data r) w)
    (hpath : ∀ r, isTmpPath (path r) = false) :
    ∀ (rs : List R) (w : World),
      (∀ r ∈ rs, ∀ b, data r = .ok b → readAt w.files (path r) = some b) →
      ∀ q, isTmpPath q = false →
        readAt (saveRecords save number rs w).2.files q = readAt w.files q := by
  intro rs
  induction rs with
  | nil => intro w _ q _; rfl
  | cons r rest ih =>
    intro w hhave q hq
    have hstep := atomicWrite_same (path r) (data r) w (hpath r)
      (hhave r (List.mem_cons_self _ _))
    rw [← hsave] at hstep
    unfold saveRecords
    cases hs : save r w with
    | mk res w₁ =>
      rw [hs] at hstep
      cases res with
      | error err => exact hstep q hq
      | ok u =>
        cases u
        simp only
        rw [ih w₁ ?_ q hq, hstep q hq]
        intro r' hr' b hb
        rw [hstep _ (hpath r')]
        exact hhave r' (List.mem_cons_of_mem _ hr') b hb

theorem saveRecords_keeps {R : Type} (save : R → World → Except Error Unit × World)
    (number : R → Int) (path : R → Path) (data : R → Except Error Bytes)
    (hsave : ∀ r w, save r w = atomicWrite (path r) (data r) w) (q : Path) (b : Bytes)
    (hq : isTmpPath q = false) :
    ∀ (rs : List R) (w : World), readAt w.files q = some b →
      (∀ r ∈ rs, path r = q → data r = .ok b) →
      readAt (saveRecords save number rs w).2.files q = some b := by
  intro rs
  induction rs with
  | nil => intro w hcur _; exact hcur
  | cons r rest ih =>
    intro w hcur hsame
    have hstep := atomicWrite_keeps (path r) (data r) w q b hq hcur
      (hsame r (List.mem_cons_self _ _))
    rw [← hsave] at hstep
    unfold saveRecords
    cases hs : save r w with
    | mk res w₁ =>
      rw [hs] at hstep
      cases res with
      | error err => exact hstep
      | ok u =>
        cases u
        exact ih w₁ hstep (fun r' hr' => hsame r' (List.mem_cons_of_mem _ hr'))

/-- After a save loop that succeeded every record is in its file, when records that
share a path share their bytes. -/
theorem saveRecords_written {R : Type} (save : R → World → Except Error Unit × World)
    (number : R → Int) (path : R → Path) (data : R → Except Error Bytes)
    (hsave : ∀ r w, save r w = atomicWrite (path r) (data r) w)
    (hpath : ∀ r, isTmpPath (path r) = false) :
    ∀ (rs : List R) (w : World), (saveRecords save number rs w).1 = .ok () →
      (∀ a ∈ rs, ∀ c ∈ rs, path a = path c → data a = data c) →
      ∀ r ∈ rs, ∃ b, data r = .ok b ∧
        readAt (saveRecords save number rs w).2.files (path r) = some b := by
  intro rs
  induction rs with
  | nil => intro w _ _ r hr; simp at hr
  | cons x rest ih =>
    intro w hres huniq r hr
    obtain ⟨_, _, _, hok, _⟩ := atomicWrite_frame (path x) (data x) w
    rw [← hsave] at hok
    unfold saveRecords at hres ⊢
    cases hs : save x w with
    | mk res w₁ =>
      rw [hs] at hok
      rw [hs] at hres
      cases res with
      | error err => simp at hres
      | ok u =>
        cases u
        simp only at hres ⊢
        obtain ⟨_, b, hb, hread⟩ := hok rfl
        rcases List.mem_cons.mp hr with rfl | hmem
        · refine ⟨b, hb, ?_⟩
          refine saveRecords_keeps save number path data hsave _ b (hpath r) rest w₁ hread ?_
          intro r' hr' hp
          rw [huniq r' (List.mem_cons_of_mem _ hr') r (List.mem_cons_self _ _) hp, hb]
        · exact ih w₁ hres
            (fun a ha c hc => huniq a (List.mem_cons_of_mem _ ha) c (List.mem_cons_of_mem _ hc))
            r hmem

/-- The sync of one kind leaves the record files of every other kind as they were. -/
theorem kind_frame_other (s : Storage) (k k' : Kind) (w w' : World) (ops : List Call)
    (hF : Frame w w' ops) (hops : ∀ c ∈ ops, KindOp s k c.op) (hne : k ≠ k') (n : Int) :
    readAt w'.files (recordPath s k' n) = readAt w.files (recordPath s k' n) := by
  refine hF.2.1 _ (isTmpPath_recordPath s k' n) ?_
  intro src hmem
  rcases hops _ hmem with ⟨cursor, h⟩ | ⟨number, h⟩
  · exact Op.noConfusion h
  · simp only [WriteOp] at h
    exact hne (recordPath_injective s k' k n number h.1).1.symm

/-- The calls of an atomic write to the state file leave every other file alone that is
not a temporary file. -/
theorem state_frame_other (s : Storage) (w w' : World) (ops : List Call)
    (hF : Frame w w' ops) (hops : ∀ c ∈ ops, WriteOp (statePath s) c.op) (q : Path)
    (hq : isTmpPath q = false) (hne : q ≠ statePath s) :
    readAt w'.files q = readAt w.files q := by
  refine hF.2.1 q hq ?_
  intro src hmem
  have := hops _ hmem
  simp only [WriteOp] at this
  exact hne this.1

theorem syncIssues_same (env : Env) (fuel : Nat) (s : Storage) (owner repo : String)
    (since : Option Time) (w : World) (r : Except KindError Unit) (w' : World)
    (h : syncIssues env fuel s owner repo since w = some (r, w'))
    (hhave : ∀ issues,
      (FetchIssues env.issueRemote fuel owner repo since).outcome = some (.ok issues) →
      ∀ issue ∈ issues, ∀ b, env.json.marshalIssue issue = .ok b →
        readAt w.files (recordPath s .issues issue.Number) = some b) :
    ∀ q, isTmpPath q = false → readAt w'.files q = readAt w.files q := by
  unfold syncIssues at h
  simp only at h
  generalize FetchIssues env.issueRemote fuel owner repo since = run at h hhave
  cases ho : run.outcome with
  | none => simp [ho] at h
  | some res =>
    cases res with
    | error err =>
      simp only [ho, Option.some.injEq, Prod.mk.injEq] at h
      obtain ⟨_, hw⟩ := h
      subst hw
      intro q _
      rfl
    | ok issues =>
      simp only [ho, Option.some.injEq] at h
      have := saveRecords_same
        (fun issue => SaveIssue s issue.Number (env.json.marshalIssue issue)) Issue.Number
        (fun issue => recordPath s .issues issue.Number)
        (fun issue => env.json.marshalIssue issue)
        (by intro r w; exact SaveIssue_eq s r.Number _ w)
        (fun r => isTmpPath_recordPath s .issues r.Number) issues
        ⟨w.files, w.dirs, w.faults, w.rand,
          w.trace ++ queryCalls .issues false (run.requests.map issueVars.cursor)⟩
        (hhave issues ho)
      rw [h] at this
      exact this

theorem syncPRs_same (env : Env) (fuel : Nat) (s : Storage) (owner repo : String)
    (since : Option Time) (w : World) (r : Except KindError Unit) (w' : World)
    (h : syncPRs env fuel s owner repo since w = some (r, w'))
    (hhave : ∀ prs,
      (FetchPullRequests env.prRemote fuel owner repo since).outcome = some (.ok prs) →
      ∀ pr ∈ prs, ∀ b, env.json.marshalPR pr = .ok b →
        readAt w.files (recordPath s .prs pr.Number) = some b) :
    ∀ q, isTmpPath q = false → readAt w'.files q = readAt w.files q := by
  unfold syncPRs at h
  simp only at h
  generalize FetchPullRequests env.prRemote fuel owner repo since = run at h hhave
  cases ho : run.outcome with
  | none => simp [ho] at h
  | some res =>
    cases res with
    | error err =>
      simp only [ho, Option.some.injEq, Prod.mk.injEq] at h
      obtain ⟨_, hw⟩ := h
      subst hw
      intro q _
      rfl
    | ok prs =>
      simp only [ho, Option.some.injEq] at h
      have := saveRecords_same
        (fun pr => SavePR s pr.Number (env.json.marshalPR pr)) PullRequest.Number
        (fun pr => recordPath s .prs pr.Number)
        (fun pr => env.json.marshalPR pr)
        (by intro r w; exact SavePR_eq s r.Number _ w)
        (fun r => isTmpPath_recordPath s .prs r.Number) prs
        ⟨w.files, w.dirs, w.faults, w.rand,
          w.trace ++ queryCalls .prs false (run.requests.map pageVars.cursor)⟩
        (hhave prs ho)
      rw [h] at this
      exact this

theorem syncDiscussions_same (env : Env) (fuel : Nat) (s : Storage) (owner repo : String)
    (since : Option Time) (w : World) (r : Except KindError Unit) (w' : World)
    (h : syncDiscussions env fuel s owner repo since w = some (r, w'))
    (hhave : ∀ discussions,
      (FetchDiscussions env.discussionRemote fuel owner repo since).outcome =
        some (.ok discussions) →
      ∀ disc ∈ discussions, ∀ b, env.json.marshalDiscussion disc = .ok b →
        readAt w.files (recordPath s .discussions disc.Number) = some b) :
    ∀ q, isTmpPath q = false → readAt w'.files q = readAt w.files q := by
  unfold syncDiscussions at h
  simp only at h
  generalize FetchDiscussions env.discussionRemote fuel owner repo since = run at h hhave
  cases ho : run.outcome with
  | none => simp [ho] at h
  | some res =>
    cases res with
    | error err =>
      simp only [ho, Option.some.injEq, Prod.mk.injEq] at h
      obtain ⟨_, hw⟩ := h
      subst hw
      intro q _
      rfl
    | ok discussions =>
      simp only [ho, Option.some.injEq] at h
      have := saveRecords_same
        (fun disc => SaveDiscussion s disc.Number (env.json.marshalDiscussion disc))
        Discussion.Number
        (fun disc => recordPath s .discussions disc.Number)
        (fun disc => env.json.marshalDiscussion disc)
        (by intro r w; exact SaveDiscussion_eq s r.Number _ w)
        (fun r => isTmpPath_recordPath s .discussions r.Number) discussions
        ⟨w.files, w.dirs, w.faults, w.rand,
          w.trace ++ queryCalls .discussions false (run.requests.map pageVars.cursor)⟩
        (hhave discussions ho)
      rw [h] at this
      exact this

theorem syncIssues_written (env : Env) (fuel : Nat) (s : Storage) (owner repo : String)
    (since : Option Time) (w w' : World)
    (h : syncIssues env fuel s owner repo since w = some (.ok (), w')) :
    ∃ issues,
      (FetchIssues env.issueRemote fuel owner repo since).outcome = some (.ok issues) ∧
        ((∀ a ∈ issues, ∀ c ∈ issues, a.Number = c.Number → a = c) →
          ∀ issue ∈ issues, ∃ b, env.json.marshalIssue issue = .ok b ∧
            readAt w'.files (recordPath s .issues issue.Number) = some b) := by
  unfold syncIssues at h
  simp only at h
  generalize FetchIssues env.issueRemote fuel owner repo since = run at h ⊢
  cases ho : run.outcome with
  | none => simp [ho] at h
  | some res =>
    cases res with
    | error err => simp [ho] at h
    | ok issues =>
      simp only [ho, Option.some.injEq] at h
      refine ⟨issues, rfl, ?_⟩
      intro huniq
      have := saveRecords_written
        (fun issue => SaveIssue s issue.Number (env.json.marshalIssue issue)) Issue.Number
        (fun issue => recordPath s .issues issue.Number)
        (fun issue => env.json.marshalIssue issue)
        (by intro r w; exact SaveIssue_eq s r.Number _ w)
        (fun r => isTmpPath_recordPath s .issues r.Number) issues
        ⟨w.files, w.dirs, w.faults, w.rand,
          w.trace ++ queryCalls .issues false (run.requests.map issueVars.cursor)⟩
        (by rw [h])
        (by
          intro a ha c hc hp
          rw [huniq a ha c hc (recordPath_injective s _ _ _ _ hp).2])
      rw [h] at this
      exact this

theorem syncPRs_written (env : Env) (fuel : Nat) (s : Storage) (owner repo : String)
    (since : Option Time) (w w' : World)
    (h : syncPRs env fuel s owner repo since w = some (.ok (), w')) :
    ∃ prs,
      (FetchPullRequests env.prRemote fuel owner repo since).outcome = some (.ok prs) ∧
        ((∀ a ∈ prs, ∀ c ∈ prs, a.Number = c.Number → a = c) →
          ∀ pr ∈ prs, ∃ b, env.json.marshalPR pr = .ok b ∧
            readAt w'.files (recordPath s .prs pr.Number) = some b) := by
  unfold syncPRs at h
  simp only at h
  generalize FetchPullRequests env.prRemote fuel owner repo since = run at h ⊢
  cases ho : run.outcome with
  | none => simp [ho] at h
  | some res =>
    cases res with
    | error err => simp [ho] at h
    | ok prs =>
      simp only [ho, Option.some.injEq] at h
      refine ⟨prs, rfl, ?_⟩
      intro huniq
      have := saveRecords_written
        (fun pr => SavePR s pr.Number (env.json.marshalPR pr)) PullRequest.Number
        (fun pr => recordPath s .prs pr.Number)
        (fun pr => env.json.marshalPR pr)
        (by intro r w; exact SavePR_eq s r.Number _ w)
        (fun r => isTmpPath_recordPath s .prs r.Number) prs
        ⟨w.files, w.dirs, w.faults, w.rand,
          w.trace ++ queryCalls .prs false (run.requests.map pageVars.cursor)⟩
        (by rw [h])
        (by
          intro a ha c hc hp
          rw [huniq a ha c hc (recordPath_injective s _ _ _ _ hp).2])
      rw [h] at this
      exact this

theorem syncDiscussions_written (env : Env) (fuel : Nat) (s : Storage) (owner repo : String)
    (since : Option Time) (w w' : World)
    (h : syncDiscussions env fuel s owner repo since w = some (.ok (), w')) :
    ∃ discussions,
      (FetchDiscussions env.discussionRemote fuel owner repo since).outcome =
          some (.ok discussions) ∧
        ((∀ a ∈ discussions, ∀ c ∈ discussions, a.Number = c.Number → a = c) →
          ∀ disc ∈ discussions, ∃ b, env.json.marshalDiscussion disc = .ok b ∧
            readAt w'.files (recordPath s .discussions disc.Number) = some b) := by
  unfold syncDiscussions at h
  simp only at h
  generalize FetchDiscussions env.discussionRemote fuel owner repo since = run at h ⊢
  cases ho : run.outcome with
  | none => simp [ho] at h
  | some res =>
    cases res with
    | error err => simp [ho] at h
    | ok discussions =>
      simp only [ho, Option.some.injEq] at h
      refine ⟨discussions, rfl, ?_⟩
      intro huniq
      have := saveRecords_written
        (fun disc => SaveDiscussion s disc.Number (env.json.marshalDiscussion disc))
        Discussion.Number
        (fun disc => recordPath s .discussions disc.Number)
        (fun disc => env.json.marshalDiscussion disc)
        (by intro r w; exact SaveDiscussion_eq s r.Number _ w)
        (fun r => isTmpPath_recordPath s .discussions r.Number) discussions
        ⟨w.files, w.dirs, w.faults, w.rand,
          w.trace ++ queryCalls .discussions false (run.requests.map pageVars.cursor)⟩
        (by rw [h])
        (by
          intro a ha c hc hp
          rw [huniq a ha c hc (recordPath_injective s _ _ _ _ hp).2])
      rw [h] at this
      exact this

theorem step_same (b : Bool) (run : Option (Except KindError Unit × World)) (w : World)
    (hrun : ∀ r w', b = true → run = some (r, w') →
      ∀ q, isTmpPath q = false → readAt w'.files q = readAt w.files q)
    (r : Except KindError Unit) (w' : World)
    (h : (if b = true then run else some (.ok (), w)) = some (r, w')) :
    ∀ q, isTmpPath q = false → readAt w'.files q = readAt w.files q := by
  cases b with
  | true => exact hrun r w' rfl (by simpa using h)
  | false =>
    simp only [Bool.false_eq_true, if_false, Option.some.injEq, Prod.mk.injEq] at h
    obtain ⟨_, hw⟩ := h
    subst hw
    intro q _
    rfl

/-- The kinds of a run change no file that is not a temporary file or the state file,
when every record the fetches return is in its file already. -/
theorem syncKindsWith_same (env : Env) (fuel : Nat) (opts : SyncOptions) (s : Storage)
    (since : Kind → Option Time) (t : Time) (loaded : SyncState) (w : World)
    (r : Except SyncError Unit) (w' : World)
    (h : syncKindsWith env fuel opts s since t loaded w = some (r, w'))
    (hI : opts.Issues = true → ∀ issues,
      (FetchIssues env.issueRemote fuel opts.Owner opts.Repo (since .issues)).outcome =
        some (.ok issues) →
      ∀ issue ∈ issues, ∀ b, env.json.marshalIssue issue = .ok b →
        readAt w.files (recordPath s .issues issue.Number) = some b)
    (hP : opts.PRs = true → ∀ prs,
      (FetchPullRequests env.prRemote fuel opts.Owner opts.Repo (since .prs)).outcome =
        some (.ok prs) →
      ∀ pr ∈ prs, ∀ b, env.json.marshalPR pr = .ok b →
        readAt w.files (recordPath s .prs pr.Number) = some b)
    (hD : opts.Discussions = true → ∀ discussions,
      (FetchDiscussions env.discussionRemote fuel opts.Owner opts.Repo
        (since .discussions)).outcome = some (.ok discussions) →
      ∀ disc ∈ discussions, ∀ b, env.json.marshalDiscussion disc = .ok b →
        readAt w.files (recordPath s .discussions disc.Number) = some b) :
    ∀ q, isTmpPath q = false → q ≠ statePath s → readAt w'.files q = readAt w.files q := by
  unfold syncKindsWith at h
  have stepI : ∀ r₁ w₁,
      (if opts.Issues = true then
          syncIssues env fuel s opts.Owner opts.Repo (since .issues) w
        else some (.ok (), w)) = some (r₁, w₁) →
      ∀ q, isTmpPath q = false → readAt w₁.files q = readAt w.files q := by
    intro r₁ w₁ h₁
    refine step_same opts.Issues _ w ?_ r₁ w₁ h₁
    intro r₂ w₂ hreq hrun
    exact syncIssues_same env fuel s _ _ _ w r₂ w₂ hrun (hI hreq)
  split at h
  · exact Option.noConfusion h
  · rename_i err wI hstep
    simp only [Option.some.injEq, Prod.mk.injEq] at h
    obtain ⟨_, hw⟩ := h
    subst hw
    exact fun q hq _ => stepI _ _ hstep q hq
  · rename_i wI hstep
    have sI := stepI _ _ hstep
    have stepP : ∀ r₁ w₁,
        (if opts.PRs = true then
            syncPRs env fuel s opts.Owner opts.Repo (since .prs) wI
          else some (.ok (), wI)) = some (r₁, w₁) →
        ∀ q, isTmpPath q = false → readAt w₁.files q = readAt wI.files q := by
      intro r₁ w₁ h₁
      refine step_same opts.PRs _ wI ?_ r₁ w₁ h₁
      intro r₂ w₂ hreq hrun
      refine syncPRs_same env fuel s _ _ _ wI r₂ w₂ hrun ?_
      intro prs hf pr hpr b hb
      rw [sI _ (isTmpPath_recordPath s .prs pr.Number)]
      exact hP hreq prs hf pr hpr b hb
    split at h
    · exact Option.noConfusion h
    · rename_i err wP hstepP
      simp only [Option.some.injEq, Prod.mk.injEq] at h
      obtain ⟨_, hw⟩ := h
      subst hw
      exact fun q hq _ => (stepP _ _ hstepP q hq).trans (sI q hq)
    · rename_i wP hstepP
      have sP : ∀ q, isTmpPath q = false → readAt wP.files q = readAt w.files q :=
        fun q hq => (stepP _ _ hstepP q hq).trans (sI q hq)
      have stepD : ∀ r₁ w₁,
          (if opts.Discussions = true then
              syncDiscussions env fuel s opts.Owner opts.Repo (since .discussions) wP
            else some (.ok (), wP)) = some (r₁, w₁) →
          ∀ q, isTmpPath q = false → readAt w₁.files q = readAt wP.files q := by
        intro r₁ w₁ h₁
        refine step_same opts.Discussions _ wP ?_ r₁ w₁ h₁
        intro r₂ w₂ hreq hrun
        refine syncDiscussions_same env fuel s _ _ _ wP r₂ w₂ hrun ?_
        intro ds hf d hd b hb
        rw [sP _ (isTmpPath_recordPath s .discussions d.Number)]
        exact hD hreq ds hf d hd b hb
      split at h
      · exact Option.noConfusion h
      · rename_i err wD hstepD
        simp only [Option.some.injEq, Prod.mk.injEq] at h
        obtain ⟨_, hw⟩ := h
        subst hw
        exact fun q hq _ => (stepD _ _ hstepD q hq).trans (sP q hq)
      · rename_i wD hstepD
        have sD : ∀ q, isTmpPath q = false → readAt wD.files q = readAt w.files q :=
          fun q hq => (stepD _ _ hstepD q hq).trans (sP q hq)
        obtain ⟨ops, hF, hops, _⟩ :=
          SaveSyncState_frame env.json s (advance opts t loaded) wD
        have hlast : ∀ q, isTmpPath q = false → q ≠ statePath s →
            readAt (SaveSyncState env.json s (advance opts t loaded) wD).2.files q =
              readAt w.files q :=
          fun q hq hne => (state_frame_other s _ _ ops hF hops q hq hne).trans (sD q hq)
        split at h
        · rename_i err wS hS
          simp only [Option.some.injEq, Prod.mk.injEq] at h
          obtain ⟨_, hw⟩ := h
          subst hw
          rw [hS] at hlast
          exact hlast
        · rename_i wS hS
          simp only [Option.some.injEq, Prod.mk.injEq] at h
          obtain ⟨_, hw⟩ := h
          subst hw
          rw [hS] at hlast
          exact hlast

theorem step_other (s : Storage) (k k' : Kind) (b : Bool)
    (run : Option (Except KindError Unit × World)) (w : World)
    (hrun : ∀ r w', run = some (r, w') → ∃ ops, Frame w w' ops ∧
      (∀ c ∈ ops, KindOp s k c.op) ∧ (succeeded r = true → ∀ c ∈ ops, c.ok = true))
    (r : Except KindError Unit) (w' : World)
    (h : (if b = true then run else some (.ok (), w)) = some (r, w')) (hne : k ≠ k')
    (n : Int) :
    readAt w'.files (recordPath s k' n) = readAt w.files (recordPath s k' n) := by
  obtain ⟨ops, hF, hops, _⟩ := step_frame s k b run w hrun r w' h
  exact kind_frame_other s k k' w w' ops hF hops hne n

/-- After the kinds of a run that succeeded, every record a fetch returned is in its
file, when the records of a fetch have different numbers; and the state file holds the
advanced state. -/
theorem syncKindsWith_written (env : Env) (fuel : Nat) (opts : SyncOptions) (s : Storage)
    (since : Kind → Option Time) (t : Time) (loaded : SyncState) (w w' : World)
    (h : syncKindsWith env fuel opts s since t loaded w = some (.ok (), w')) :
    (opts.Issues = true → ∃ issues,
        (FetchIssues env.issueRemote fuel opts.Owner opts.Repo (since .issues)).outcome =
            some (.ok issues) ∧
          ((∀ a ∈ issues, ∀ c ∈ issues, a.Number = c.Number → a = c) →
            ∀ issue ∈ issues, ∃ b, env.json.marshalIssue issue = .ok b ∧
              readAt w'.files (recordPath s .issues issue.Number) = some b)) ∧
      (opts.PRs = true → ∃ prs,
        (FetchPullRequests env.prRemote fuel opts.Owner opts.Repo (since .prs)).outcome =
            some (.ok prs) ∧
          ((∀ a ∈ prs, ∀ c ∈ prs, a.Number = c.Number → a = c) →
            ∀ pr ∈ prs, ∃ b, env.json.marshalPR pr = .ok b ∧
              readAt w'.files (recordPath s .prs pr.Number) = some b)) ∧
      (opts.Discussions = true → ∃ discussions,
        (FetchDiscussions env.discussionRemote fuel opts.Owner opts.Repo
            (since .discussions)).outcome = some (.ok discussions) ∧
          ((∀ a ∈ discussions, ∀ c ∈ discussions, a.Number = c.Number → a = c) →
            ∀ disc ∈ discussions, ∃ b, env.json.marshalDiscussion disc = .ok b ∧
              readAt w'.files (recordPath s .discussions disc.Number) = some b)) ∧
      ∃ bytes, env.json.marshalState (advance opts t loaded) = .ok bytes ∧
        readAt w'.files (statePath s) = some bytes := by
  unfold syncKindsWith at h
  split at h
  · exact Option.noConfusion h
  · simp at h
  · rename_i wI hI
    split at h
    · exact Option.noConfusion h
    · simp at h
    · rename_i wP hP
      split at h
      · exact Option.noConfusion h
      · simp at h
      · rename_i wD hD
        obtain ⟨ops, hF, hops, hok⟩ :=
          SaveSyncState_frame env.json s (advance opts t loaded) wD
        split at h
        · simp at h
        · rename_i wS hS
          simp only [Option.some.injEq, Prod.mk.injEq, true_and] at h
          subst h
          rw [hS] at hF hok
          have keepS : ∀ k n, readAt wS.files (recordPath s k n) =
              readAt wD.files (recordPath s k n) :=
            fun k n => state_frame_other s wD wS ops hF hops _ (isTmpPath_recordPath s k n)
              (recordPath_ne_statePath s k n)
          have keepD : ∀ k n, k ≠ .discussions → readAt wD.files (recordPath s k n) =
              readAt wP.files (recordPath s k n) :=
            fun k n hne => step_other s .discussions k opts.Discussions _ wP
              (fun r w' hr => syncDiscussions_frame env fuel s _ _ _ wP r w' hr) _ _ hD
              (fun e => hne e.symm) n
          have keepP : ∀ k n, k ≠ .prs → readAt wP.files (recordPath s k n) =
              readAt wI.files (recordPath s k n) :=
            fun k n hne => step_other s .prs k opts.PRs _ wI
              (fun r w' hr => syncPRs_frame env fuel s _ _ _ wI r w' hr) _ _ hP
              (fun e => hne e.symm) n
          refine ⟨?_, ?_, ?_, ?_⟩
          · intro hreq
            simp only [hreq, if_true] at hI
            obtain ⟨issues, hf, hw⟩ := syncIssues_written env fuel s _ _ _ w wI hI
            refine ⟨issues, hf, fun huniq issue hmem => ?_⟩
            obtain ⟨b, hb, hread⟩ := hw huniq issue hmem
            refine ⟨b, hb, ?_⟩
            rw [keepS, keepD _ _ (by decide), keepP _ _ (by decide), hread]
          · intro hreq
            simp only [hreq, if_true] at hP
            obtain ⟨prs, hf, hw⟩ := syncPRs_written env fuel s _ _ _ wI wP hP
            refine ⟨prs, hf, fun huniq pr hmem => ?_⟩
            obtain ⟨b, hb, hread⟩ := hw huniq pr hmem
            refine ⟨b, hb, ?_⟩
            rw [keepS, keepD _ _ (by decide), hread]
          · intro hreq
            simp only [hreq, if_true] at hD
            obtain ⟨ds, hf, hw⟩ := syncDiscussions_written env fuel s _ _ _ wP wD hD
            refine ⟨ds, hf, fun huniq d hmem => ?_⟩
            obtain ⟨b, hb, hread⟩ := hw huniq d hmem
            refine ⟨b, hb, ?_⟩
            rw [keepS, hread]
          · obtain ⟨_, b, hb, hread⟩ := hok rfl
            exact ⟨b, hb, hread⟩

/-- A run of `Sync` that comes back either failed before the kinds without changing a
file, or got past the load of the state. -/
theorem Sync_prologue (env : Env) (fuel : Nat) (opts : SyncOptions) (w : World)
    (r : Except SyncError Unit) (w' : World) (h : Sync env fuel opts w = some (r, w')) :
    (w'.files = w.files ∧ r ≠ .ok ()) ∨
      ∃ wE wL loaded, NewClient env = .ok () ∧
        EnsureDirs (New opts.OutputDir) w = (.ok (), wE) ∧
        LoadSyncState env.json (New opts.OutputDir) wE = (.ok loaded, wL) := by
  cases hN : NewClient env with
  | error e =>
    unfold Sync at h
    simp only [hN, Option.some.injEq, Prod.mk.injEq] at h
    obtain ⟨hr, hw⟩ := h
    subst hr hw
    exact Or.inl ⟨rfl, fun h => Except.noConfusion h⟩
  | ok u =>
    cases u
    obtain ⟨_, _, _, _, filesE⟩ := EnsureDirs_frame (New opts.OutputDir) w
    cases hE : EnsureDirs (New opts.OutputDir) w with
    | mk rE wE =>
      rw [hE] at filesE
      cases rE with
      | error e =>
        unfold Sync at h
        simp only [hN, hE, Option.some.injEq, Prod.mk.injEq] at h
        obtain ⟨hr, hw⟩ := h
        subst hr hw
        exact Or.inl ⟨filesE, fun h => Except.noConfusion h⟩
      | ok u =>
        cases u
        obtain ⟨_, _, filesL, _⟩ := LoadSyncState_frame env.json (New opts.OutputDir) wE
        cases hL : LoadSyncState env.json (New opts.OutputDir) wE with
        | mk rL wL =>
          rw [hL] at filesL
          cases rL with
          | error e =>
            unfold Sync at h
            simp only [hN, hE, hL, Option.some.injEq, Prod.mk.injEq] at h
            obtain ⟨hr, hw⟩ := h
            subst hr hw
            exact Or.inl ⟨filesL.trans filesE, fun h => Except.noConfusion h⟩
          | ok loaded => exact Or.inr ⟨wE, wL, loaded, rfl, rfl, hL⟩

/-- With a stored watermark that is not after `t`, what is too old for the lower bound
of a run is too old for the lower bound of a run that finds the watermark `t`. -/
theorem olderThan_getSince (opts : SyncOptions) (stored : Option Time) (t : Time)
    (h : opts.Since = none → ∀ t₀, stored = some t₀ → t₀ ≤ t) :
    ∀ x, olderThan (getSince opts stored) x = true →
      olderThan (getSince opts (some t)) x = true := by
  intro x hx
  cases hs : opts.Since with
  | some o => simpa [getSince, hs] using hx
  | none =>
    simp only [getSince, hs] at hx ⊢
    cases hst : stored with
    | none => simp [hst, olderThan] at hx
    | some t₀ =>
      have := h hs t₀ hst
      simp only [hst, olderThan, decide_eq_true_eq] at hx ⊢
      exact lt_of_lt_of_le hx this

/-- The watermark of a requested kind after the advance. -/
theorem advance_watermark (opts : SyncOptions) (t : Time) (loaded : SyncState) :
    (opts.Issues = true → (advance opts t loaded).watermark .issues = some t) ∧
      (opts.PRs = true → (advance opts t loaded).watermark .prs = some t) ∧
      (opts.Discussions = true → (advance opts t loaded).watermark .discussions = some t) := by
  refine ⟨?_, ?_, ?_⟩ <;> intro h <;> simp [advance, SyncState.watermark, h]

/-! ## Lemmas on the calls of the sync of a kind -/

/-- The calls of an atomic write to a path that is no temporary file; a success has
renamed a file onto the path. -/
theorem atomicWrite_calls (path : Path) (hq : isTmpPath path = false)
    (data : Except Error Bytes) (w : World) :
    ∃ ops, (atomicWrite path data w).2.trace = w.trace ++ ops ∧
      (∀ c ∈ ops, WriteOp path c.op) ∧
      ((atomicWrite path data w).1 = .ok () →
        ∃ b src, data = .ok b ∧ (⟨.rename src path, true⟩ : Call) ∈ ops) := by
  obtain ⟨ops, htrace, _, hsucc, _⟩ := atomicWrite_steps path hq data w
  obtain ⟨ops', hF, hops, _⟩ := atomicWrite_frame path data w
  have hsame : ops' = ops := List.append_cancel_left (hF.1.symm.trans htrace)
  subst hsame
  refine ⟨ops', htrace, hops, ?_⟩
  intro hres
  obtain ⟨b, tmp, hb, _, _, hcalls⟩ := hsucc hres
  exact ⟨b, tmp, hb, by rw [hcalls]; simp⟩

theorem saveRecords_calls {R : Type} (save : R → World → Except Error Unit × World)
    (number : R → Int) (path : R → Path) (data : R → Except Error Bytes)
    (hsave : ∀ r w, save r w = atomicWrite (path r) (data r) w)
    (hpath : ∀ r, isTmpPath (path r) = false) :
    ∀ (rs : List R) (w : World), ∃ saves,
      (saveRecords save number rs w).2.trace = w.trace ++ saves ∧
        (∀ c ∈ saves, ∃ r ∈ rs, WriteOp (path r) c.op) ∧
        ((saveRecords save number rs w).1 = .ok () → ∀ r ∈ rs, ∃ b src, data r = .ok b ∧
          (⟨.rename src (path r), true⟩ : Call) ∈ saves) ∧
        (∀ err, (saveRecords save number rs w).1 = .error err →
          ∃ r ∈ rs, ∃ e, err = .save (number r) e) := by
  intro rs
  induction rs with
  | nil =>
    intro w
    refine ⟨[], by simp [saveRecords], by simp, by simp, ?_⟩
    intro err h
    simp [saveRecords] at h
  | cons x rest ih =>
    intro w
    obtain ⟨ops, htrace, hops, hok⟩ := atomicWrite_calls (path x) (hpath x) (data x) w
    rw [← hsave] at htrace hok
    unfold saveRecords
    cases hs : save x w with
    | mk res w₁ =>
      rw [hs] at htrace hok
      cases res with
      | error e =>
        refine ⟨ops, htrace, fun c hc => ⟨x, List.mem_cons_self _ _, hops c hc⟩, ?_, ?_⟩
        · intro h
          exact Except.noConfusion h
        · intro err h
          simp only [Except.error.injEq] at h
          exact ⟨x, List.mem_cons_self _ _, e, h.symm⟩
      | ok u =>
        cases u
        obtain ⟨saves, htrace₂, hops₂, hok₂, herr₂⟩ := ih w₁
        simp only
        refine ⟨ops ++ saves, by rw [htrace₂, htrace, List.append_assoc], ?_, ?_, ?_⟩
        · intro c hc
          rcases List.mem_append.mp hc with hc | hc
          · exact ⟨x, List.mem_cons_self _ _, hops c hc⟩
          · obtain ⟨r, hr, hw⟩ := hops₂ c hc
            exact ⟨r, List.mem_cons_of_mem _ hr, hw⟩
        · intro h r hr
          rcases List.mem_cons.mp hr with rfl | hr
          · obtain ⟨b, src, hb, hmem⟩ := hok rfl
            exact ⟨b, src, hb, List.mem_append_left _ hmem⟩
          · obtain ⟨b, src, hb, hmem⟩ := hok₂ h r hr
            exact ⟨b, src, hb, List.mem_append_right _ hmem⟩
        · intro err h
          obtain ⟨r, hr, e, he⟩ := herr₂ err h
          exact ⟨r, List.mem_cons_of_mem _ hr, e, he⟩

/-- A result that follows the outcome of the fetch the way the syncs of the three kinds
do persists that fetch. -/
theorem persistsRun_of_cases {V R : Type} (s : Storage) (kind : Kind)
    (cursor : V → Option String) (number : R → Int) (marshal : R → Except Error Bytes)
    (save : R → World → Except Error Unit × World)
    (hsave : ∀ r w, save r w = atomicWrite (recordPath s kind (number r)) (marshal r) w)
    (run : FetchRun V R) (w : World) (result : Option (Except KindError Unit × World))
    (hnone : run.outcome = none → result = none)
    (herror : ∀ err, run.outcome = some (.error err) →
      result = some (.error (.fetch err),
        ⟨w.files, w.dirs, w.faults, w.rand,
          w.trace ++ queryCalls kind true (run.requests.map cursor)⟩))
    (hok : ∀ records, run.outcome = some (.ok records) →
      result = some (saveRecords save number records
        ⟨w.files, w.dirs, w.faults, w.rand,
          w.trace ++ queryCalls kind false (run.requests.map cursor)⟩)) :
    PersistsRun s kind cursor number marshal run w result := by
  unfold PersistsRun
  cases ho : run.outcome with
  | none => simp [hnone ho]
  | some out =>
    cases out with
    | error err =>
      rw [herror err ho]
      refine ⟨by simp, ?_⟩
      intro res w₁ h
      simp only [Option.some.injEq, Prod.mk.injEq] at h
      obtain ⟨hr, hw⟩ := h
      subst hr hw
      refine ⟨?_, ?_⟩
      · intro e he
        simp only [Option.some.injEq, Except.error.injEq] at he
        subst he
        exact ⟨rfl, rfl⟩
      · intro records he
        simp at he
    | ok records =>
      rw [hok records ho]
      refine ⟨by simp, ?_⟩
      intro res w₁ h
      simp only [Option.some.injEq] at h
      refine ⟨?_, ?_⟩
      · intro e he
        simp at he
      · intro records' he
        simp only [Option.some.injEq, Except.ok.injEq] at he
        subst he
        obtain ⟨saves, htrace, hops, hok', herr⟩ := saveRecords_calls save number
          (fun r => recordPath s kind (number r)) marshal hsave
          (fun r => isTmpPath_recordPath s kind (number r)) records
          ⟨w.files, w.dirs, w.faults, w.rand,
            w.trace ++ queryCalls kind false (run.requests.map cursor)⟩
        rw [h] at htrace hok' herr
        exact ⟨saves, htrace, hops, hok', herr⟩

/-! ## Theorems on the lower bounds handed to the fetchers -/

/-- C12. Effective since. In a run of `Sync` that gets past the load of the sync state
(the token is set, `EnsureDirs` succeeded and `LoadSyncState` returned `loaded`), the
loaded state is the one stored in the state file, all watermarks absent when there is
no state file. With `since k` the override `opts.Since` when one is given, whatever is
stored, and otherwise the watermark `loaded` holds for kind `k` (the one loaded at the
start, not one the run has advanced meanwhile): the run is the orchestration of the
requested kinds in which the sync of kind `k` gets `since k`; the sync of a kind
persists the run of the fetcher of that kind called with `since k`, that is, its page
requests are those of `FetchIssues`, `FetchPullRequests` or `FetchDiscussions` called
with `since k`, its error is the error of that fetch or the save error of a record that
fetch returned, and on success every record that fetch returned was written; and every
page request of the issue fetch carries `since .issues`. -/
theorem Sync_hands_effective_since (env : Env) (fuel : Nat) (opts : SyncOptions)
    (w wE wL : World) (loaded : SyncState) (hN : NewClient env = .ok ())
    (hE : EnsureDirs (New opts.OutputDir) w = (.ok (), wE))
    (hL : LoadSyncState env.json (New opts.OutputDir) wE = (.ok loaded, wL)) :
    storedState env.json (New opts.OutputDir) w.files = .ok loaded ∧
      (readAt w.files (statePath (New opts.OutputDir)) = none →
        ∀ k, loaded.watermark k = none) ∧
      ∃ since : Kind → Option Time,
        (∀ k t, opts.Since = some t → since k = some t) ∧
          (∀ k, opts.Since = none → since k = loaded.watermark k) ∧
          Sync env fuel opts w =
            syncKindsWith env fuel opts (New opts.OutputDir) since (env.now wL.trace)
              loaded wL ∧
          (∀ v ∈ (FetchIssues env.issueRemote fuel opts.Owner opts.Repo
              (since .issues)).requests, v.since = since .issues) ∧
          (∀ w₀, PersistsRun (New opts.OutputDir) .issues issueVars.cursor Issue.Number
            env.json.marshalIssue
            (FetchIssues env.issueRemote fuel opts.Owner opts.Repo (since .issues)) w₀
            (syncIssues env fuel (New opts.OutputDir) opts.Owner opts.Repo
              (since .issues) w₀)) ∧
          (∀ w₀, PersistsRun (New opts.OutputDir) .prs pageVars.cursor PullRequest.Number
            env.json.marshalPR
            (FetchPullRequests env.prRemote fuel opts.Owner opts.Repo (since .prs)) w₀
            (syncPRs env fuel (New opts.OutputDir) opts.Owner opts.Repo (since .prs) w₀)) ∧
          ∀ w₀, PersistsRun (New opts.OutputDir) .discussions pageVars.cursor
            Discussion.Number env.json.marshalDiscussion
            (FetchDiscussions env.discussionRemote fuel opts.Owner opts.Repo
              (since .discussions)) w₀
            (syncDiscussions env fuel (New opts.OutputDir) opts.Owner opts.Repo
              (since .discussions) w₀) := by
  have hstored := (loaded_eq_stored env (New opts.OutputDir) w wE wL loaded hE hL).1
  refine ⟨hstored, ?_, fun k => getSince opts (loaded.watermark k), ?_, ?_,
    Sync_eq_kinds env fuel opts w wE wL loaded hN hE hL, ?_, ?_, ?_, ?_⟩
  · intro hnone k
    unfold storedState at hstored
    rw [hnone] at hstored
    simp only [Except.ok.injEq] at hstored
    subst hstored
    cases k <;> rfl
  · intro k t ht
    simp [getSince, ht]
  · intro k ht
    simp [getSince, ht]
  · intro v hv
    rw [FetchIssues_eq, issuesLoop_eq] at hv
    simp only [List.mem_map] at hv
    obtain ⟨c, _, rfl⟩ := hv
    rfl
  · intro w₀
    refine persistsRun_of_cases (New opts.OutputDir) .issues issueVars.cursor Issue.Number
      env.json.marshalIssue
      (fun r => SaveIssue (New opts.OutputDir) r.Number (env.json.marshalIssue r))
      (fun r w => SaveIssue_eq _ r.Number _ w) _ w₀ _ ?_ ?_ ?_
    · intro h
      unfold syncIssues
      simp only [h]
    · intro err h
      unfold syncIssues
      simp only [h]
    · intro records h
      unfold syncIssues
      simp only [h]
  · intro w₀
    refine persistsRun_of_cases (New opts.OutputDir) .prs pageVars.cursor PullRequest.Number
      env.json.marshalPR
      (fun r => SavePR (New opts.OutputDir) r.Number (env.json.marshalPR r))
      (fun r w => SavePR_eq _ r.Number _ w) _ w₀ _ ?_ ?_ ?_
    · intro h
      unfold syncPRs
      simp only [h]
    · intro err h
      unfold syncPRs
      simp only [h]
    · intro records h
      unfold syncPRs
      simp only [h]
  · intro w₀
    refine persistsRun_of_cases (New opts.OutputDir) .discussions pageVars.cursor Discussion.Number
      env.json.marshalDiscussion
      (fun r => SaveDiscussion (New opts.OutputDir) r.Number (env.json.marshalDiscussion r))
      (fun r w => SaveDiscussion_eq _ r.Number _ w) _ w₀ _ ?_ ?_ ?_
    · intro h
      unfold syncDiscussions
      simp only [h]
    · intro err h
      unfold syncDiscussions
      simp only [h]
    · intro records h
      unfold syncDiscussions
      simp only [h]

/-- C12, on the example with the override 25 and the stored pull-request watermark 5:
every kind is fetched with the lower bound 25. The three issue requests carry 25; the
pull requests and discussions updated at 40 and 30 are written and those updated at 20
are not. -/
theorem Sync_hands_effective_since_witness :
    (∃ since : Kind → Option Time,
        (∀ k, since k = some 25) ∧
          Sync exEnv 3 exSinceOptions exWorld =
            syncKindsWith exEnv 3 exSinceOptions (New "out") since 104
              { Issues := none, PRs := some 5, Discussions := none }
              (LoadSyncState exEnv.json (New "out") (EnsureDirs (New "out") exWorld).2).2) ∧
      (FetchIssues exEnv.issueRemote 3 "o" "r" (some 25)).requests.map issueVars.since =
        [some 25, some 25, some 25] ∧
      readAt (worldAfter (Sync exEnv 3 exSinceOptions exWorld) exWorld).files
        (recordPath (New "out") .prs 4) = some "pr 4" ∧
      readAt (worldAfter (Sync exEnv 3 exSinceOptions exWorld) exWorld).files
        (recordPath (New "out") .prs 3) = none ∧
      readAt (worldAfter (Sync exEnv 3 exSinceOptions exWorld) exWorld).files
        (recordPath (New "out") .discussions 4) = some "discussion 4" ∧
      readAt (worldAfter (Sync exEnv 3 exSinceOptions exWorld) exWorld).files
        (recordPath (New "out") .discussions 3) = none := by
  obtain ⟨_, _, since, hover, _, hsync, _⟩ :=
    Sync_hands_effective_since exEnv 3 exSinceOptions exWorld
      (EnsureDirs (New exSinceOptions.OutputDir) exWorld).2
      (LoadSyncState exEnv.json (New exSinceOptions.OutputDir)
        (EnsureDirs (New exSinceOptions.OutputDir) exWorld).2).2
      { Issues := none, PRs := some 5, Discussions := none } rfl rfl rfl
  exact ⟨⟨since, fun k => hover k 25 rfl, hsync⟩, rfl, rfl, rfl, rfl, rfl⟩

/-! ## Lemmas on the fuel of a run -/

theorem pageLoop_isSome {P R : Type} (ask : Option String → Except Error P)
    (info : P → PageInfo) (body : P → List R → List R) (stops : P → Bool) :
    ∀ (fuel : Nat) (cursor : Option String) (acc : List R),
      (pageLoop ask info body stops fuel cursor acc).outcome.isSome =
        answersWithin ask info stops fuel cursor := by
  intro fuel
  induction fuel with
  | zero => intro cursor acc; rfl
  | succ fuel ih =>
    intro cursor acc
    simp only [pageLoop, answersWithin]
    cases hq : ask cursor with
    | error err => rfl
    | ok p =>
      by_cases hs : stops p = true
      · simp [hs]
      · simp [hs, ih]

/-- A page loop that came back comes back the same with more fuel. -/
theorem pageLoop_mono {P R : Type} (ask : Option String → Except Error P)
    (info : P → PageInfo) (body : P → List R → List R) (stops : P → Bool) :
    ∀ (fuel fuel' : Nat) (cursor : Option String) (acc : List R),
      (pageLoop ask info body stops fuel cursor acc).outcome ≠ none → fuel ≤ fuel' →
      pageLoop ask info body stops fuel' cursor acc =
        pageLoop ask info body stops fuel cursor acc := by
  intro fuel
  induction fuel with
  | zero => intro fuel' cursor acc h; simp [pageLoop] at h
  | succ fuel ih =>
    intro fuel' cursor acc h hle
    cases fuel' with
    | zero => omega
    | succ fuel' =>
      simp only [pageLoop] at h ⊢
      cases hq : ask cursor with
      | error err => rfl
      | ok p =>
        simp only [hq] at h ⊢
        by_cases hs : stops p = true
        · simp [hs]
        · simp only [hs, if_false] at h ⊢
          rw [ih fuel' _ _ h (by omega)]

theorem FetchIssues_isSome (query : issueVars → Except Error issueQuery) (fuel : Nat)
    (owner repo : String) (since : Option Time) :
    (FetchIssues query fuel owner repo since).outcome.isSome =
      answersWithin (fun c => query ⟨owner, repo, since, c⟩) issueQuery.PageInfo issuesStops
        fuel none := by
  rw [FetchIssues_eq, issuesLoop_eq]
  exact pageLoop_isSome _ _ _ _ _ _ _

theorem FetchPullRequests_isSome (query : pageVars → Except Error prQuery) (fuel : Nat)
    (owner repo : String) (since : Option Time) :
    (FetchPullRequests query fuel owner repo since).outcome.isSome =
      answersWithin (fun c => query ⟨owner, repo, c⟩) prQuery.PageInfo (prsStops since)
        fuel none := by
  unfold FetchPullRequests
  rw [prsLoop_eq]
  exact pageLoop_isSome _ _ _ _ _ _ _

theorem FetchDiscussions_isSome (query : pageVars → Except Error discussionQuery) (fuel : Nat)
    (owner repo : String) (since : Option Time) :
    (FetchDiscussions query fuel owner repo since).outcome.isSome =
      answersWithin (fun c => query ⟨owner, repo, c⟩) discussionQuery.PageInfo
        (discussionsStops since) fuel none := by
  unfold FetchDiscussions
  rw [discussionsLoop_eq]
  exact pageLoop_isSome _ _ _ _ _ _ _

theorem FetchIssues_mono (query : issueVars → Except Error issueQuery) (fuel fuel' : Nat)
    (owner repo : String) (since : Option Time)
    (h : (FetchIssues query fuel owner repo since).outcome ≠ none) (hle : fuel ≤ fuel') :
    FetchIssues query fuel' owner repo since = FetchIssues query fuel owner repo since := by
  rw [FetchIssues_eq, issuesLoop_eq] at h
  rw [FetchIssues_eq, FetchIssues_eq, issuesLoop_eq, issuesLoop_eq]
  simp only
  rw [pageLoop_mono _ _ _ _ fuel fuel' _ _ h hle]

theorem FetchPullRequests_mono (query : pageVars → Except Error prQuery) (fuel fuel' : Nat)
    (owner repo : String) (since : Option Time)
    (h : (FetchPullRequests query fuel owner repo since).outcome ≠ none) (hle : fuel ≤ fuel') :
    FetchPullRequests query fuel' owner repo since =
      FetchPullRequests query fuel owner repo since := by
  unfold FetchPullRequests at h ⊢
  rw [prsLoop_eq] at h
  rw [prsLoop_eq, prsLoop_eq]
  simp only
  rw [pageLoop_mono _ _ _ _ fuel fuel' _ _ h hle]

theorem FetchDiscussions_mono (query : pageVars → Except Error discussionQuery)
    (fuel fuel' : Nat) (owner repo : String) (since : Option Time)
    (h : (FetchDiscussions query fuel owner repo since).outcome ≠ none) (hle : fuel ≤ fuel') :
    FetchDiscussions query fuel' owner repo since =
      FetchDiscussions query fuel owner repo since := by
  unfold FetchDiscussions at h ⊢
  rw [discussionsLoop_eq] at h
  rw [discussionsLoop_eq, discussionsLoop_eq]
  simp only
  rw [pageLoop_mono _ _ _ _ fuel fuel' _ _ h hle]

theorem syncIssues_none (env : Env) (fuel : Nat) (s : Storage) (owner repo : String)
    (since : Option Time) (w : World) :
    syncIssues env fuel s owner repo since w = none ↔
      (FetchIssues env.issueRemote fuel owner repo since).outcome = none := by
  unfold syncIssues
  simp only
  generalize FetchIssues env.issueRemote fuel owner repo since = run
  cases ho : run.outcome with
  | none => simp
  | some res => cases res <;> simp

theorem syncIssues_mono (env : Env) (fuel fuel' : Nat) (s : Storage) (owner repo : String)
    (since : Option Time) (w : World) (x : Except KindError Unit × World)
    (h : syncIssues env fuel s owner repo since w = some x) (hle : fuel ≤ fuel') :
    syncIssues env fuel' s owner repo since w = some x := by
  have hsome : (FetchIssues env.issueRemote fuel owner repo since).outcome ≠ none := by
    intro hnone
    rw [(syncIssues_none env fuel s owner repo since w).mpr hnone] at h
    exact Option.noConfusion h
  unfold syncIssues at h ⊢
  rw [FetchIssues_mono env.issueRemote fuel fuel' owner repo since hsome hle]
  exact h

theorem syncPRs_none (env : Env) (fuel : Nat) (s : Storage) (owner repo : String)
    (since : Option Time) (w : World) :
    syncPRs env fuel s owner repo since w = none ↔
      (FetchPullRequests env.prRemote fuel owner repo since).outcome = none := by
  unfold syncPRs
  simp only
  generalize FetchPullRequests env.prRemote fuel owner repo since = run
  cases ho : run.outcome with
  | none => simp
  | some res => cases res <;> simp

theorem syncPRs_mono (env : Env) (fuel fuel' : Nat) (s : Storage) (owner repo : String)
    (since : Option Time) (w : World) (x : Except KindError Unit × World)
    (h : syncPRs env fuel s owner repo since w = some x) (hle : fuel ≤ fuel') :
    syncPRs env fuel' s owner repo since w = some x := by
  have hsome : (FetchPullRequests env.prRemote fuel owner repo since).outcome ≠ none := by
    intro hnone
    rw [(syncPRs_none env fuel s owner repo since w).mpr hnone] at h
    exact Option.noConfusion h
  unfold syncPRs at h ⊢
  rw [FetchPullRequests_mono env.prRemote fuel fuel' owner repo since hsome hle]
  exact h

theorem syncDiscussions_none (env : Env) (fuel : Nat) (s : Storage) (owner repo : String)
    (since : Option Time) (w : World) :
    syncDiscussions env fuel s owner repo since w = none ↔
      (FetchDiscussions env.discussionRemote fuel owner repo since).outcome = none := by
  unfold syncDiscussions
  simp only
  generalize FetchDiscussions env.discussionRemote fuel owner repo since = run
  cases ho : run.outcome with
  | none => simp
  | some res => cases res <;> simp

theorem syncDiscussions_mono (env : Env) (fuel fuel' : Nat) (s : Storage) (owner repo : String)
    (since : Option Time) (w : World) (x : Except KindError Unit × World)
    (h : syncDiscussions env fuel s owner repo since w = some x) (hle : fuel ≤ fuel') :
    syncDiscussions env fuel' s owner repo since w = some x := by
  have hsome : (FetchDiscussions env.discussionRemote fuel owner repo since).outcome ≠ none := by
    intro hnone
    rw [(syncDiscussions_none env fuel s owner repo since w).mpr hnone] at h
    exact Option.noConfusion h
  unfold syncDiscussions at h ⊢
  rw [FetchDiscussions_mono env.discussionRemote fuel fuel' owner repo since hsome hle]
  exact h

/-- The kinds of a run that came back come back the same with more fuel. -/
theorem syncKindsWith_mono (env : Env) (fuel fuel' : Nat) (opts : SyncOptions) (s : Storage)
    (since : Kind → Option Time) (t : Time) (loaded : SyncState) (w : World)
    (x : Except SyncError Unit × World)
    (h : syncKindsWith env fuel opts s since t loaded w = some x) (hle : fuel ≤ fuel') :
    syncKindsWith env fuel' opts s since t loaded w = some x := by
  have stepI : ∀ y, (if opts.Issues = true then
        syncIssues env fuel s opts.Owner opts.Repo (since .issues) w
      else some (.ok (), w)) = some y →
      (if opts.Issues = true then
        syncIssues env fuel' s opts.Owner opts.Repo (since .issues) w
      else some (.ok (), w)) = some y := by
    intro y hy
    cases hreq : opts.Issues with
    | false => simpa [hreq] using hy
    | true =>
      simp only [hreq, if_true] at hy ⊢
      exact syncIssues_mono env fuel fuel' s _ _ _ w y hy hle
  have stepP : ∀ w₀ y, (if opts.PRs = true then
        syncPRs env fuel s opts.Owner opts.Repo (since .prs) w₀
      else some (.ok (), w₀)) = some y →
      (if opts.PRs = true then
        syncPRs env fuel' s opts.Owner opts.Repo (since .prs) w₀
      else some (.ok (), w₀)) = some y := by
    intro w₀ y hy
    cases hreq : opts.PRs with
    | false => simpa [hreq] using hy
    | true =>
      simp only [hreq, if_true] at hy ⊢
      exact syncPRs_mono env fuel fuel' s _ _ _ w₀ y hy hle
  have stepD : ∀ w₀ y, (if opts.Discussions = true then
        syncDiscussions env fuel s opts.Owner opts.Repo (since .discussions) w₀
      else some (.ok (), w₀)) = some y →
      (if opts.Discussions = true then
        syncDiscussions env fuel' s opts.Owner opts.Repo (since .discussions) w₀
      else some (.ok (), w₀)) = some y := by
    intro w₀ y hy
    cases hreq : opts.Discussions with
    | false => simpa [hreq] using hy
    | true =>
      simp only [hreq, if_true] at hy ⊢
      exact syncDiscussions_mono env fuel fuel' s _ _ _ w₀ y hy hle
  unfold syncKindsWith at h ⊢
  split at h
  · exact Option.noConfusion h
  · rename_i err wI hI
    rw [stepI _ hI]
    exact h
  · rename_i wI hI
    rw [stepI _ hI]
    simp only
    split at h
    · exact Option.noConfusion h
    · rename_i err wP hP
      rw [stepP _ _ hP]
      exact h
    · rename_i wP hP
      rw [stepP _ _ hP]
      simp only
      split at h
      · exact Option.noConfusion h
      · rename_i err wD hD
        rw [stepD _ _ hD]
        exact h
      · rename_i wD hD
        rw [stepD _ _ hD]
        exact h

/-- A run of `Sync` that came back comes back the same with more fuel. -/
theorem Sync_mono (env : Env) (fuel fuel' : Nat) (opts : SyncOptions) (w : World)
    (x : Except SyncError Unit × World) (h : Sync env fuel opts w = some x)
    (hle : fuel ≤ fuel') : Sync env fuel' opts w = some x := by
  cases hN : NewClient env with
  | error e =>
    unfold Sync at h ⊢
    simp only [hN] at h ⊢
    exact h
  | ok u =>
    cases u
    cases hE : EnsureDirs (New opts.OutputDir) w with
    | mk rE wE =>
      cases rE with
      | error e =>
        unfold Sync at h ⊢
        simp only [hN, hE] at h ⊢
        exact h
      | ok u =>
        cases u
        cases hL : LoadSyncState env.json (New opts.OutputDir) wE with
        | mk rL wL =>
          cases rL with
          | error e =>
            unfold Sync at h ⊢
            simp only [hN, hE, hL] at h ⊢
            exact h
          | ok loaded =>
            rw [Sync_eq_kinds env fuel opts w wE wL loaded hN hE hL] at h
            rw [Sync_eq_kinds env fuel' opts w wE wL loaded hN hE hL]
            exact syncKindsWith_mono env fuel fuel' opts _ _ _ loaded wL x h hle

/-- The kinds of a run come back when the sync of every requested kind does. -/
theorem syncKindsWith_total (env : Env) (fuel : Nat) (opts : SyncOptions) (s : Storage)
    (since : Kind → Option Time) (t : Time) (loaded : SyncState) (w : World)
    (hI : opts.Issues = true →
      (FetchIssues env.issueRemote fuel opts.Owner opts.Repo (since .issues)).outcome ≠ none)
    (hP : opts.PRs = true →
      (FetchPullRequests env.prRemote fuel opts.Owner opts.Repo (since .prs)).outcome ≠ none)
    (hD : opts.Discussions = true →
      (FetchDiscussions env.discussionRemote fuel opts.Owner opts.Repo
        (since .discussions)).outcome ≠ none) :
    ∃ x, syncKindsWith env fuel opts s since t loaded w = some x := by
  have stepI : ∀ w₀, ∃ y, (if opts.Issues = true then
        syncIssues env fuel s opts.Owner opts.Repo (since .issues) w₀
      else some (.ok (), w₀)) = some y := by
    intro w₀
    cases hreq : opts.Issues with
    | false => exact ⟨(.ok (), w₀), by simp⟩
    | true =>
      simp only [if_true]
      cases hs : syncIssues env fuel s opts.Owner opts.Repo (since .issues) w₀ with
      | none => exact absurd ((syncIssues_none _ _ _ _ _ _ _).mp hs) (hI hreq)
      | some y => exact ⟨y, rfl⟩
  have stepP : ∀ w₀, ∃ y, (if opts.PRs = true then
        syncPRs env fuel s opts.Owner opts.Repo (since .prs) w₀
      else some (.ok (), w₀)) = some y := by
    intro w₀
    cases hreq : opts.PRs with
    | false => exact ⟨(.ok (), w₀), by simp⟩
    | true =>
      simp only [if_true]
      cases hs : syncPRs env fuel s opts.Owner opts.Repo (since .prs) w₀ with
      | none => exact absurd ((syncPRs_none _ _ _ _ _ _ _).mp hs) (hP hreq)
      | some y => exact ⟨y, rfl⟩
  have stepD : ∀ w₀, ∃ y, (if opts.Discussions = true then
        syncDiscussions env fuel s opts.Owner opts.Repo (since .discussions) w₀
      else some (.ok (), w₀)) = some y := by
    intro w₀
    cases hreq : opts.Discussions with
    | false => exact ⟨(.ok (), w₀), by simp⟩
    | true =>
      simp only [if_true]
      cases hs : syncDiscussions env fuel s opts.Owner opts.Repo (since .discussions) w₀ with
      | none => exact absurd ((syncDiscussions_none _ _ _ _ _ _ _).mp hs) (hD hreq)
      | some y => exact ⟨y, rfl⟩
  unfold syncKindsWith
  obtain ⟨⟨rI, wI⟩, hI'⟩ := stepI w
  rw [hI']
  cases rI with
  | error e => exact ⟨_, rfl⟩
  | ok u =>
    cases u
    simp only
    obtain ⟨⟨rP, wP⟩, hP'⟩ := stepP wI
    rw [hP']
    cases rP with
    | error e => exact ⟨_, rfl⟩
    | ok u =>
      cases u
      simp only
      obtain ⟨⟨rD, wD⟩, hD'⟩ := stepD wP
      rw [hD']
      cases rD with
      | error e => exact ⟨_, rfl⟩
      | ok u =>
        cases u
        simp only
        cases hS : SaveSyncState env.json s (advance opts t loaded) wD with
        | mk rS wS =>
          cases rS with
          | error e => exact ⟨_, rfl⟩
          | ok u => cases u; exact ⟨_, rfl⟩

/-- A run of `Sync` comes back when the fetch of every requested kind, called with the
lower bound the run hands it, comes back. -/
theorem Sync_total (env : Env) (fuel : Nat) (opts : SyncOptions) (w : World)
    (hfuel : ∀ loaded, storedState env.json (New opts.OutputDir) w.files = .ok loaded →
      (opts.Issues = true →
        (FetchIssues env.issueRemote fuel opts.Owner opts.Repo
          (getSince opts loaded.Issues)).outcome ≠ none) ∧
      (opts.PRs = true →
        (FetchPullRequests env.prRemote fuel opts.Owner opts.Repo
          (getSince opts loaded.PRs)).outcome ≠ none) ∧
      (opts.Discussions = true →
        (FetchDiscussions env.discussionRemote fuel opts.Owner opts.Repo
          (getSince opts loaded.Discussions)).outcome ≠ none)) :
    ∃ x, Sync env fuel opts w = some x := by
  cases hN : NewClient env with
  | error e =>
    unfold Sync
    simp only [hN]
    exact ⟨_, rfl⟩
  | ok u =>
    cases u
    cases hE : EnsureDirs (New opts.OutputDir) w with
    | mk rE wE =>
      cases rE with
      | error e =>
        unfold Sync
        simp only [hN, hE]
        exact ⟨_, rfl⟩
      | ok u =>
        cases u
        cases hL : LoadSyncState env.json (New opts.OutputDir) wE with
        | mk rL wL =>
          cases rL with
          | error e =>
            unfold Sync
            simp only [hN, hE, hL]
            exact ⟨_, rfl⟩
          | ok loaded =>
            rw [Sync_eq_kinds env fuel opts w wE wL loaded hN hE hL]
            obtain ⟨hI, hP, hD⟩ :=
              hfuel loaded (loaded_eq_stored env _ w wE wL loaded hE hL).1
            exact syncKindsWith_total env fuel opts _ _ _ loaded wL hI hP hD

/-- A run of `Sync` comes back when the remote of every requested kind, asked page after
page with the lower bound the run hands the fetch, gives within `fuel` requests an
error or a page at which the loop of that kind stops. -/
theorem Sync_comes_back (env : Env) (fuel : Nat) (opts : SyncOptions) (w : World)
    (hfuel : ∀ loaded, storedState env.json (New opts.OutputDir) w.files = .ok loaded →
      (opts.Issues = true →
        answersWithin
          (fun c => env.issueRemote ⟨opts.Owner, opts.Repo, getSince opts loaded.Issues, c⟩)
          issueQuery.PageInfo issuesStops fuel none = true) ∧
      (opts.PRs = true →
        answersWithin (fun c => env.prRemote ⟨opts.Owner, opts.Repo, c⟩) prQuery.PageInfo
          (prsStops (getSince opts loaded.PRs)) fuel none = true) ∧
      (opts.Discussions = true →
        answersWithin (fun c => env.discussionRemote ⟨opts.Owner, opts.Repo, c⟩)
          discussionQuery.PageInfo (discussionsStops (getSince opts loaded.Discussions))
          fuel none = true)) :
    ∃ r w', Sync env fuel opts w = some (r, w') := by
  obtain ⟨⟨r, w'⟩, hx⟩ := Sync_total env fuel opts w (by
    intro loaded hstored
    obtain ⟨hI, hP, hD⟩ := hfuel loaded hstored
    refine ⟨fun hreq => ?_, fun hreq => ?_, fun hreq => ?_⟩
    · intro hnone
      have := FetchIssues_isSome env.issueRemote fuel opts.Owner opts.Repo
        (getSince opts loaded.Issues)
      rw [hnone, hI hreq] at this
      exact Bool.noConfusion this
    · intro hnone
      have := FetchPullRequests_isSome env.prRemote fuel opts.Owner opts.Repo
        (getSince opts loaded.PRs)
      rw [hnone, hP hreq] at this
      exact Bool.noConfusion this
    · intro hnone
      have := FetchDiscussions_isSome env.discussionRemote fuel opts.Owner opts.Repo
        (getSince opts loaded.Discussions)
      rw [hnone, hD hreq] at this
      exact Bool.noConfusion this)
  exact ⟨r, w', hx⟩

/-! ## Theorems on a run that fails -/

/-- C10. All-or-nothing watermark persistence. A run of `Sync` comes back when the
remote of every requested kind, asked page after page with the lower bound of the run,
gives within `fuel` requests an error or a page at which the loop of that kind stops;
a run that came back comes back with the same result and world on any larger fuel. In
a run of `Sync` that comes back: if the fetch of a requested kind returns an error or a
fetched record of a requested kind cannot be marshalled, or if any page request or any
system call other than the read of the state file fails, then `Sync` returns an error.
If `Sync` returns the error of a kind (its fetch or one of its record saves failed),
then no call of the run creates, writes, removes or renames the state file, so the
state file holds what it held before the run; no call fetches or saves for a kind later
in the order issues, pull requests, discussions; and the target of every rename that
succeeded, that is every record saved before the failure, still exists. -/
theorem Sync_failure_keeps_watermarks (env : Env) (fuel : Nat) (opts : SyncOptions)
    (w : World) :
    ((∀ loaded, storedState env.json (New opts.OutputDir) w.files = .ok loaded →
        (opts.Issues = true →
          answersWithin
            (fun c => env.issueRemote ⟨opts.Owner, opts.Repo, getSince opts loaded.Issues, c⟩)
            issueQuery.PageInfo issuesStops fuel none = true) ∧
        (opts.PRs = true →
          answersWithin (fun c => env.prRemote ⟨opts.Owner, opts.Repo, c⟩) prQuery.PageInfo
            (prsStops (getSince opts loaded.PRs)) fuel none = true) ∧
        (opts.Discussions = true →
          answersWithin (fun c => env.discussionRemote ⟨opts.Owner, opts.Repo, c⟩)
            discussionQuery.PageInfo (discussionsStops (getSince opts loaded.Discussions))
            fuel none = true)) →
      ∃ r w', Sync env fuel opts w = some (r, w')) ∧
    ∀ r w', Sync env fuel opts w = some (r, w') →
      (∀ fuel', fuel ≤ fuel' → Sync env fuel' opts w = some (r, w')) ∧
      (∀ loaded, storedState env.json (New opts.OutputDir) w.files = .ok loaded →
        ((opts.Issues = true ∧
            ((∃ e, (FetchIssues env.issueRemote fuel opts.Owner opts.Repo
                (getSince opts loaded.Issues)).outcome = some (.error e)) ∨
              ∃ issues issue e, (FetchIssues env.issueRemote fuel opts.Owner opts.Repo
                  (getSince opts loaded.Issues)).outcome = some (.ok issues) ∧
                issue ∈ issues ∧ env.json.marshalIssue issue = .error e)) ∨
          (opts.PRs = true ∧
            ((∃ e, (FetchPullRequests env.prRemote fuel opts.Owner opts.Repo
                (getSince opts loaded.PRs)).outcome = some (.error e)) ∨
              ∃ prs pr e, (FetchPullRequests env.prRemote fuel opts.Owner opts.Repo
                  (getSince opts loaded.PRs)).outcome = some (.ok prs) ∧
                pr ∈ prs ∧ env.json.marshalPR pr = .error e)) ∨
          (opts.Discussions = true ∧
            ((∃ e, (FetchDiscussions env.discussionRemote fuel opts.Owner opts.Repo
                (getSince opts loaded.Discussions)).outcome = some (.error e)) ∨
              ∃ discussions disc e,
                (FetchDiscussions env.discussionRemote fuel opts.Owner opts.Repo
                  (getSince opts loaded.Discussions)).outcome = some (.ok discussions) ∧
                disc ∈ discussions ∧ env.json.marshalDiscussion disc = .error e))) →
        ∃ err, r = .error err) ∧
      ∃ ops, w'.trace = w.trace ++ ops ∧
        ((∃ c ∈ ops, c.ok = false ∧ c.op ≠ .readFile (statePath (New opts.OutputDir))) →
          ∃ err, r = .error err) ∧
        (∀ err k, r = .error err → err.failedKind = some k →
          (∀ c ∈ ops, c.op.modifies (statePath (New opts.OutputDir)) = false) ∧
            readAt w'.files (statePath (New opts.OutputDir)) =
              readAt w.files (statePath (New opts.OutputDir)) ∧
            (∀ c ∈ ops, ∀ k', k.rank < k'.rank →
              c.op.worksFor (New opts.OutputDir) k' = false) ∧
            (∀ src dst, (⟨.rename src dst, true⟩ : Call) ∈ ops →
              (readAt w'.files dst).isSome = true)) := by
  refine ⟨Sync_comes_back env fuel opts w, ?_⟩
  intro r w' h
  refine ⟨fun fuel' hle => Sync_mono env fuel fuel' opts w (r, w') h hle, ?_⟩
  obtain ⟨ops, frame, hok, herr⟩ := Sync_run env fuel opts w r w' h
  obtain ⟨htrace, hfiles, _, hrenamed⟩ := frame
  refine ⟨?_, ops, htrace, ?_, ?_⟩
  · intro loaded hstored hfail
    cases r with
    | error err => exact ⟨err, rfl⟩
    | ok u =>
      cases u
      obtain ⟨hI, hP, hD⟩ := Sync_ok env fuel opts w w' h loaded hstored
      exfalso
      rcases hfail with ⟨hreq, hf⟩ | ⟨hreq, hf⟩ | ⟨hreq, hf⟩
      · obtain ⟨issues, hout, hm⟩ := hI hreq
        rcases hf with ⟨e, he⟩ | ⟨issues', issue, e, he, hmem, hme⟩
        · rw [hout] at he
          simp at he
        · rw [hout] at he
          simp only [Option.some.injEq, Except.ok.injEq] at he
          subst he
          obtain ⟨b, hb⟩ := hm issue hmem
          rw [hb] at hme
          exact Except.noConfusion hme
      · obtain ⟨prs, hout, hm⟩ := hP hreq
        rcases hf with ⟨e, he⟩ | ⟨prs', pr, e, he, hmem, hme⟩
        · rw [hout] at he
          simp at he
        · rw [hout] at he
          simp only [Option.some.injEq, Except.ok.injEq] at he
          subst he
          obtain ⟨b, hb⟩ := hm pr hmem
          rw [hb] at hme
          exact Except.noConfusion hme
      · obtain ⟨discussions, hout, hm⟩ := hD hreq
        rcases hf with ⟨e, he⟩ | ⟨discussions', disc, e, he, hmem, hme⟩
        · rw [hout] at he
          simp at he
        · rw [hout] at he
          simp only [Option.some.injEq, Except.ok.injEq] at he
          subst he
          obtain ⟨b, hb⟩ := hm disc hmem
          rw [hb] at hme
          exact Except.noConfusion hme
  · rintro ⟨c, hc, hfalse, hne⟩
    cases r with
    | error err => exact ⟨err, rfl⟩
    | ok u =>
      cases u
      rcases (hok rfl).1 c hc with h1 | h1
      · rw [h1] at hfalse
        exact Bool.noConfusion hfalse
      · exact absurd h1 hne
  · intro err k hr hk
    have hclass := herr err k hr hk
    have hmod : ∀ c ∈ ops, c.op.modifies (statePath (New opts.OutputDir)) = false := by
      intro c hc
      rcases hclass c hc with hp | ⟨k', _, hkop⟩
      · exact PrologueOp_modifies _ _ hp
      · exact KindOp_modifies _ k' _ hkop
    refine ⟨hmod, ?_, ?_, ?_⟩
    · refine hfiles _ (isTmpPath_statePath _) ?_
      intro src hmem
      have := hmod _ hmem
      simp [Op.modifies] at this
    · intro c hc k' hlt
      rcases hclass c hc with hp | ⟨k'', hle, hkop⟩
      · exact PrologueOp_worksFor _ k' _ hp
      · refine KindOp_worksFor _ k'' k' _ hkop ?_
        intro heq
        rw [heq] at hlt
        omega
    · intro src dst hmem
      rcases hclass _ hmem with hp | ⟨k', _, hkop⟩
      · rcases hp with ⟨k', hp⟩ | hp <;> exact Op.noConfusion hp
      · exact hrenamed src dst hmem (KindOp_rename _ k' src dst hkop)

/-- C10, on the example with a fault: three requests per kind are enough, so the run
comes back; on this and any larger fuel the write of the second issue fails, `Sync`
returns the error of the issues kind, the first issue stays written, and the state
file is the one from before the run. -/
theorem Sync_failure_keeps_watermarks_witness :
    (∃ r w', Sync exEnv 3 exOptions exFaultyWorld = some (r, w')) ∧
    (∀ fuel', 3 ≤ fuel' → Sync exEnv fuel' exOptions exFaultyWorld =
      some (.error (.syncIssues (.save 4 "write failed")),
        worldAfter (Sync exEnv 3 exOptions exFaultyWorld) exFaultyWorld)) ∧
    readAt (worldAfter (Sync exEnv 3 exOptions exFaultyWorld) exFaultyWorld).files
      (recordPath (New "out") .issues 5) = some "issue 5" ∧
    readAt (worldAfter (Sync exEnv 3 exOptions exFaultyWorld) exFaultyWorld).files
      (recordPath (New "out") .issues 4) = none ∧
    readAt (worldAfter (Sync exEnv 3 exOptions exFaultyWorld) exFaultyWorld).files
      (statePath (New "out")) = some "[null,5,null]" ∧
    ∃ ops, (worldAfter (Sync exEnv 3 exOptions exFaultyWorld) exFaultyWorld).trace =
        exFaultyWorld.trace ++ ops ∧
      ((∃ c ∈ ops, c.ok = false ∧ c.op ≠ .readFile (statePath (New exOptions.OutputDir))) →
        ∃ err, (.error (.syncIssues (.save 4 "write failed")) : Except SyncError Unit) =
          .error err) ∧
      (∀ err k,
        (.error (.syncIssues (.save 4 "write failed")) : Except SyncError Unit) = .error err →
        err.failedKind = some k →
        (∀ c ∈ ops, c.op.modifies (statePath (New exOptions.OutputDir)) = false) ∧
          readAt (worldAfter (Sync exEnv 3 exOptions exFaultyWorld) exFaultyWorld).files
              (statePath (New exOptions.OutputDir)) =
            readAt exFaultyWorld.files (statePath (New exOptions.OutputDir)) ∧
          (∀ c ∈ ops, ∀ k', k.rank < k'.rank →
            c.op.worksFor (New exOptions.OutputDir) k' = false) ∧
          (∀ src dst, (⟨.rename src dst, true⟩ : Call) ∈ ops →
            (readAt (worldAfter (Sync exEnv 3 exOptions exFaultyWorld) exFaultyWorld).files
              dst).isSome = true)) :=
  ⟨(Sync_failure_keeps_watermarks exEnv 3 exOptions exFaultyWorld).1 (by
      intro loaded hstored
      have hl : loaded = ⟨none, some 5, none⟩ := by
        have := hstored.symm.trans
          (rfl : storedState exEnv.json (New exOptions.OutputDir) exFaultyWorld.files =
            .ok ⟨none, some 5, none⟩)
        injection this
      subst hl
      exact ⟨fun _ => rfl, fun _ => rfl, fun _ => rfl⟩),
    ((Sync_failure_keeps_watermarks exEnv 3 exOptions exFaultyWorld).2
      (.error (.syncIssues (.save 4 "write failed")))
      (worldAfter (Sync exEnv 3 exOptions exFaultyWorld) exFaultyWorld) rfl).1,
    rfl, rfl, rfl,
    ((Sync_failure_keeps_watermarks exEnv 3 exOptions exFaultyWorld).2
      (.error (.syncIssues (.save 4 "write failed")))
      (worldAfter (Sync exEnv 3 exOptions exFaultyWorld) exFaultyWorld) rfl).2.2⟩

/-! ## Theorems on a repeated run -/

/-- A fetch of issues that comes back on a served page sequence returns every node of
every page, decoded, whatever the fuel. -/
theorem FetchIssues_of_served (query : issueVars → Except Error issueQuery) (fuel : Nat)
    (owner repo : String) (since : Option Time) (pages : List issueQuery)
    (hs : ServesFrom (fun c => query ⟨owner, repo, since, c⟩) issueQuery.PageInfo none pages)
    (he : endsAtLastPage issueQuery.PageInfo pages = true) (issues : List Issue)
    (h : (FetchIssues query fuel owner repo since).outcome = some (.ok issues)) :
    issues = (allNodes issueQuery.Nodes pages).map convertIssue := by
  have hsome : (FetchIssues query fuel owner repo since).outcome ≠ none := by
    rw [h]
    exact Option.noConfusion
  have hm := FetchIssues_mono query fuel (max fuel pages.length) owner repo since hsome
    (le_max_left _ _)
  have hall : (FetchIssues query (max fuel pages.length) owner repo since).outcome =
      some (.ok ((allNodes issueQuery.Nodes pages).map convertIssue)) := by
    rw [FetchIssues_eq, issuesLoop_eq]
    simp only
    rw [(pageLoop_served (fun c => query ⟨owner, repo, since, c⟩) issueQuery.PageInfo
      (fun q acc => issuesPage q.Nodes acc) issuesStops issuesEmit issuesBody_eq
      issuesStops_of_last pages none [] _ hs he (le_max_right _ _)).2]
    rw [requestedPages_issues pages he, ← allNodes_map]
    rfl
  rw [hm, h] at hall
  exact Except.ok.inj (Option.some.inj hall)

/-- C13 as worded fails. A second run of `Sync` against the same remotes, from the world
the first run left, creates or changes a record file in each of these cases. After a
first run that failed at the second issue, the second run creates the file of issue 4.
With the clock at the start of the first run (14) behind the stored discussion
watermark (35), both runs succeed and the second creates the file of discussion 4,
which is older than 35 and not older than 14. So two successful runs in succession do
not leave the record files alike in general. A pull-request remote that serves two
versions of the number 5 has the first run leave the older version in the file and the
second run put the newer one there; and against an issue remote that lists issue 2 only
under a lower bound the second run creates the file of issue 2. -/
theorem Sync_twice_changes_records :
    (Sync exEnv 3 exOptions exFaultyWorld =
        some (.error (.syncIssues (.save 4 "write failed")), exFailedFirst) ∧
      Sync exEnv 3 exOptions exFailedFirst =
        some (.ok (), worldAfter (Sync exEnv 3 exOptions exFailedFirst) exFailedFirst) ∧
      readAt exFailedFirst.files (recordPath (New "out") .issues 4) = none ∧
      readAt (worldAfter (Sync exEnv 3 exOptions exFailedFirst) exFailedFirst).files
        (recordPath (New "out") .issues 4) = some "issue 4") ∧
    (storedState exSkewEnv.json (New "out") exSkewWorld.files =
        .ok { Issues := none, PRs := none, Discussions := some 35 } ∧
      Sync exSkewEnv 3 exDiscussionOptions exSkewWorld = some (.ok (), exSkewFirst) ∧
      readAt exSkewFirst.files (statePath (New "out")) = some "[null,null,14]" ∧
      Sync exSkewEnv 3 exDiscussionOptions exSkewFirst =
        some (.ok (),
          worldAfter (Sync exSkewEnv 3 exDiscussionOptions exSkewFirst) exSkewFirst) ∧
      readAt exSkewFirst.files (recordPath (New "out") .discussions 4) = none ∧
      readAt (worldAfter (Sync exSkewEnv 3 exDiscussionOptions exSkewFirst) exSkewFirst).files
        (recordPath (New "out") .discussions 4) = some "discussion 4") ∧
    (¬ ∀ (env : Env) (fuel : Nat) (opts : SyncOptions) (w w₁ w₂ : World),
      Sync env fuel opts w = some (.ok (), w₁) → Sync env fuel opts w₁ = some (.ok (), w₂) →
      ∀ q, isTmpPath q = false → q ≠ statePath (New opts.OutputDir) →
        readAt w₂.files q = readAt w₁.files q) ∧
    (Sync exVersionEnv 3 exPROptions exEmptyWorld = some (.ok (), exVersionFirst) ∧
      Sync exVersionEnv 3 exPROptions exVersionFirst =
        some (.ok (), worldAfter (Sync exVersionEnv 3 exPROptions exVersionFirst)
          exVersionFirst) ∧
      readAt exVersionFirst.files (recordPath (New "out") .prs 5) = some "pr 5 at 5" ∧
      readAt (worldAfter (Sync exVersionEnv 3 exPROptions exVersionFirst) exVersionFirst).files
        (recordPath (New "out") .prs 5) = some "pr 5 at 40") ∧
    (Sync exOddEnv 3 exIssueOptions exEmptyWorld = some (.ok (), exOddFirst) ∧
      Sync exOddEnv 3 exIssueOptions exOddFirst =
        some (.ok (), worldAfter (Sync exOddEnv 3 exIssueOptions exOddFirst) exOddFirst) ∧
      readAt exOddFirst.files (recordPath (New "out") .issues 2) = none ∧
      readAt (worldAfter (Sync exOddEnv 3 exIssueOptions exOddFirst) exOddFirst).files
        (recordPath (New "out") .issues 2) = some "issue 2") := by
  refine ⟨⟨rfl, rfl, rfl, rfl⟩, ⟨rfl, rfl, rfl, rfl, rfl, rfl⟩, ?_, ⟨rfl, rfl, rfl, rfl⟩,
    ⟨rfl, rfl, rfl, rfl⟩⟩
  intro hall
  have hsame := hall exSkewEnv 3 exDiscussionOptions exSkewWorld exSkewFirst
    (worldAfter (Sync exSkewEnv 3 exDiscussionOptions exSkewFirst) exSkewFirst) rfl rfl
    (recordPath (New "out") .discussions 4) rfl (by decide)
  have hnew : readAt
      (worldAfter (Sync exSkewEnv 3 exDiscussionOptions exSkewFirst) exSkewFirst).files
      (recordPath (New "out") .discussions 4) = some "discussion 4" := rfl
  have hold : readAt exSkewFirst.files (recordPath (New "out") .discussions 4) = none := rfl
  rw [hnew, hold] at hsame
  exact Option.noConfusion hsame

/-- What is not before the lower bound of a run that finds the watermark `t` is not
before the lower bound of a run whose stored watermark is not after `t`. -/
theorem notBefore_getSince (opts : SyncOptions) (stored : Option Time) (t : Time)
    (h : opts.Since = none → ∀ t₀, stored = some t₀ → t₀ ≤ t) (x : Time)
    (hx : notBefore (getSince opts (some t)) x = true) :
    notBefore (getSince opts stored) x = true := by
  rw [← notBefore_eq] at hx ⊢
  cases hold : olderThan (getSince opts stored) x with
  | false => rfl
  | true =>
    rw [olderThan_getSince opts stored t h x hold] at hx
    exact Bool.noConfusion hx

/-- C13 as amended. Idempotence of sync after a successful first run. A first run of
`Sync` succeeds, from the world `w` with the stored state `loaded`, the clock showing
`t` at its start. A second run with the same options starts from the files the first
run left, against the same remotes and the same `encoding/json`, with any clock, any
fuel and any faults; it comes back when the remote of every requested kind, asked with
the lower bound `t`, gives within its fuel an error or a page at which the loop stops. For every requested kind: unless
an override is given, the stored watermark is not after `t`; among the nodes of the
pages the remote served to the fetch of the first run, a number identifies one record;
and the issue remote filters on the server, serving for each of the two lower bounds
the issues of one list that were not updated before it. The state document the first
run wrote reads back as the state it encodes. Then every record of a requested kind
that the second run fetches was fetched by the first and its file holds, after the
first run, the bytes the second run serializes it to; and after the second run, whatever its
result, every file that is not the state file or a temporary file holds byte for byte what it held
after the first run: no record file is created, changed or removed. -/
theorem Sync_twice_keeps_records (env env₂ : Env) (fuel fuel₂ : Nat) (opts : SyncOptions)
    (w w₁ w₁' : World) (loaded : SyncState) (t : Time)
    (h₁ : Sync env fuel opts w = some (.ok (), w₁))
    (hstored : storedState env.json (New opts.OutputDir) w.files = .ok loaded)
    (ht : t = env.now
      (LoadSyncState env.json (New opts.OutputDir)
        (EnsureDirs (New opts.OutputDir) w).2).2.trace)
    (hclock : opts.Since = none →
      (opts.Issues = true → ∀ t₀, loaded.Issues = some t₀ → t₀ ≤ t) ∧
        (opts.PRs = true → ∀ t₀, loaded.PRs = some t₀ → t₀ ≤ t) ∧
        (opts.Discussions = true → ∀ t₀, loaded.Discussions = some t₀ → t₀ ≤ t))
    (hjson : ∀ bytes, env.json.marshalState (advance opts t loaded) = .ok bytes →
      env.json.unmarshalState bytes = .ok (advance opts t loaded))
    (hremoteI : env₂.issueRemote = env.issueRemote) (hremoteP : env₂.prRemote = env.prRemote)
    (hremoteD : env₂.discussionRemote = env.discussionRemote) (hsameJson : env₂.json = env.json)
    (huniqI : opts.Issues = true →
      ∀ v ∈ (FetchIssues env.issueRemote fuel opts.Owner opts.Repo
        (getSince opts loaded.Issues)).requests,
      ∀ v' ∈ (FetchIssues env.issueRemote fuel opts.Owner opts.Repo
        (getSince opts loaded.Issues)).requests,
      ∀ p p' n n', env.issueRemote v = .ok p → n ∈ p.Nodes →
        env.issueRemote v' = .ok p' → n' ∈ p'.Nodes → n.Number = n'.Number → n = n')
    (huniqP : opts.PRs = true →
      ∀ v ∈ (FetchPullRequests env.prRemote fuel opts.Owner opts.Repo
        (getSince opts loaded.PRs)).requests,
      ∀ v' ∈ (FetchPullRequests env.prRemote fuel opts.Owner opts.Repo
        (getSince opts loaded.PRs)).requests,
      ∀ p p' n n', env.prRemote v = .ok p → n ∈ p.Nodes →
        env.prRemote v' = .ok p' → n' ∈ p'.Nodes → n.Number = n'.Number → n = n')
    (huniqD : opts.Discussions = true →
      ∀ v ∈ (FetchDiscussions env.discussionRemote fuel opts.Owner opts.Repo
        (getSince opts loaded.Discussions)).requests,
      ∀ v' ∈ (FetchDiscussions env.discussionRemote fuel opts.Owner opts.Repo
        (getSince opts loaded.Discussions)).requests,
      ∀ p p' n n', env.discussionRemote v = .ok p → n ∈ p.Nodes →
        env.discussionRemote v' = .ok p' → n' ∈ p'.Nodes → n.Number = n'.Number → n = n')
    (hfilter : opts.Issues = true → ∃ all,
      FiltersIssues env.issueRemote opts.Owner opts.Repo all (getSince opts loaded.Issues) ∧
        FiltersIssues env.issueRemote opts.Owner opts.Repo all (getSince opts (some t)))
    (hfiles : w₁'.files = w₁.files) :
    (((opts.Issues = true →
          answersWithin
            (fun c => env₂.issueRemote ⟨opts.Owner, opts.Repo, getSince opts (some t), c⟩)
            issueQuery.PageInfo issuesStops fuel₂ none = true) ∧
        (opts.PRs = true →
          answersWithin (fun c => env₂.prRemote ⟨opts.Owner, opts.Repo, c⟩) prQuery.PageInfo
            (prsStops (getSince opts (some t))) fuel₂ none = true) ∧
        (opts.Discussions = true →
          answersWithin (fun c => env₂.discussionRemote ⟨opts.Owner, opts.Repo, c⟩)
            discussionQuery.PageInfo (discussionsStops (getSince opts (some t)))
            fuel₂ none = true)) →
      ∃ r₂ w₂, Sync env₂ fuel₂ opts w₁' = some (r₂, w₂)) ∧
      (opts.Issues = true → ∀ issues₁ issues₂,
        (FetchIssues env.issueRemote fuel opts.Owner opts.Repo
          (getSince opts loaded.Issues)).outcome = some (.ok issues₁) →
        (FetchIssues env₂.issueRemote fuel₂ opts.Owner opts.Repo
          (getSince opts (some t))).outcome = some (.ok issues₂) →
        ∀ issue ∈ issues₂, issue ∈ issues₁) ∧
      (opts.PRs = true → ∀ prs₁ prs₂,
        (FetchPullRequests env.prRemote fuel opts.Owner opts.Repo
          (getSince opts loaded.PRs)).outcome = some (.ok prs₁) →
        (FetchPullRequests env₂.prRemote fuel₂ opts.Owner opts.Repo
          (getSince opts (some t))).outcome = some (.ok prs₂) →
        ∀ pr ∈ prs₂, pr ∈ prs₁) ∧
      (opts.Discussions = true → ∀ ds₁ ds₂,
        (FetchDiscussions env.discussionRemote fuel opts.Owner opts.Repo
          (getSince opts loaded.Discussions)).outcome = some (.ok ds₁) →
        (FetchDiscussions env₂.discussionRemote fuel₂ opts.Owner opts.Repo
          (getSince opts (some t))).outcome = some (.ok ds₂) →
        ∀ d ∈ ds₂, d ∈ ds₁) ∧
      (opts.Issues = true → ∀ issues₂,
        (FetchIssues env₂.issueRemote fuel₂ opts.Owner opts.Repo
          (getSince opts (some t))).outcome = some (.ok issues₂) →
        ∀ issue ∈ issues₂, ∀ b, env₂.json.marshalIssue issue = .ok b →
          readAt w₁.files (recordPath (New opts.OutputDir) .issues issue.Number) = some b) ∧
      (opts.PRs = true → ∀ prs₂,
        (FetchPullRequests env₂.prRemote fuel₂ opts.Owner opts.Repo
          (getSince opts (some t))).outcome = some (.ok prs₂) →
        ∀ pr ∈ prs₂, ∀ b, env₂.json.marshalPR pr = .ok b →
          readAt w₁.files (recordPath (New opts.OutputDir) .prs pr.Number) = some b) ∧
      (opts.Discussions = true → ∀ ds₂,
        (FetchDiscussions env₂.discussionRemote fuel₂ opts.Owner opts.Repo
          (getSince opts (some t))).outcome = some (.ok ds₂) →
        ∀ d ∈ ds₂, ∀ b, env₂.json.marshalDiscussion d = .ok b →
          readAt w₁.files (recordPath (New opts.OutputDir) .discussions d.Number) = some b) ∧
      ∀ r₂ w₂, Sync env₂ fuel₂ opts w₁' = some (r₂, w₂) →
        ∀ q, isTmpPath q = false → q ≠ statePath (New opts.OutputDir) →
          readAt w₂.files q = readAt w₁.files q := by
  have hsubI : opts.Issues = true → ∀ issues₁ issues₂,
      (FetchIssues env.issueRemote fuel opts.Owner opts.Repo
        (getSince opts loaded.Issues)).outcome = some (.ok issues₁) →
      (FetchIssues env.issueRemote fuel₂ opts.Owner opts.Repo
        (getSince opts (some t))).outcome = some (.ok issues₂) →
      ∀ issue ∈ issues₂, issue ∈ issues₁ := by
    intro hreq issues₁ issues₂ hf₁ hf₂ issue hmem
    obtain ⟨all, ⟨pages₁, hs₁, he₁, hn₁⟩, ⟨pages₂, hs₂, he₂, hn₂⟩⟩ := hfilter hreq
    rw [FetchIssues_of_served _ _ _ _ _ pages₁ hs₁ he₁ issues₁ hf₁, hn₁]
    rw [FetchIssues_of_served _ _ _ _ _ pages₂ hs₂ he₂ issues₂ hf₂, hn₂] at hmem
    obtain ⟨n, hn, rfl⟩ := List.mem_map.mp hmem
    rw [List.mem_filter] at hn
    exact List.mem_map.mpr ⟨n, List.mem_filter.mpr ⟨hn.1,
      notBefore_getSince opts loaded.Issues t (fun hs => (hclock hs).1 hreq) _ hn.2⟩, rfl⟩
  have hsubP : opts.PRs = true → ∀ prs₁ prs₂,
      (FetchPullRequests env.prRemote fuel opts.Owner opts.Repo
        (getSince opts loaded.PRs)).outcome = some (.ok prs₁) →
      (FetchPullRequests env.prRemote fuel₂ opts.Owner opts.Repo
        (getSince opts (some t))).outcome = some (.ok prs₂) →
      ∀ pr ∈ prs₂, pr ∈ prs₁ :=
    fun hreq prs₁ prs₂ => FetchPullRequests_sub env.prRemote fuel fuel₂ _ _ _ _
      (olderThan_getSince opts loaded.PRs t (fun hs => (hclock hs).2.1 hreq)) prs₁ prs₂
  have hsubD : opts.Discussions = true → ∀ ds₁ ds₂,
      (FetchDiscussions env.discussionRemote fuel opts.Owner opts.Repo
        (getSince opts loaded.Discussions)).outcome = some (.ok ds₁) →
      (FetchDiscussions env.discussionRemote fuel₂ opts.Owner opts.Repo
        (getSince opts (some t))).outcome = some (.ok ds₂) →
      ∀ d ∈ ds₂, d ∈ ds₁ :=
    fun hreq ds₁ ds₂ => FetchDiscussions_sub env.discussionRemote fuel fuel₂ _ _ _ _
      (olderThan_getSince opts loaded.Discussions t (fun hs => (hclock hs).2.2 hreq)) ds₁ ds₂
  -- the first run
  rcases Sync_prologue env fuel opts w _ w₁ h₁ with ⟨_, hne⟩ | ⟨wE, wL, loaded', hN, hE, hL⟩
  · exact absurd rfl hne
  obtain ⟨hst', hfilesL⟩ := loaded_eq_stored env (New opts.OutputDir) w wE wL loaded' hE hL
  have hl : loaded' = loaded := by
    rw [hstored] at hst'
    exact (Except.ok.inj hst').symm
  subst hl
  have htL : t = env.now wL.trace := by rw [ht, hE, hL]
  have hk₁ := Sync_eq_kinds env fuel opts w wE wL loaded' hN hE hL
  rw [h₁, ← htL] at hk₁
  obtain ⟨wI, wP, wD, bytes, hbytes, hstate⟩ :=
    syncKindsWith_written env fuel opts (New opts.OutputDir) _ t loaded' wL w₁ hk₁.symm
  -- what the second run fetches is in its file already
  have hinI : opts.Issues = true → ∀ issues₂,
      (FetchIssues env₂.issueRemote fuel₂ opts.Owner opts.Repo
        (getSince opts (some t))).outcome = some (.ok issues₂) →
      ∀ issue ∈ issues₂, ∀ b, env₂.json.marshalIssue issue = .ok b →
        readAt w₁.files (recordPath (New opts.OutputDir) .issues issue.Number) = some b := by
    intro hreq issues₂ hf₂ issue hmem b hb
    obtain ⟨issues₁, hf₁, hw⟩ := wI hreq
    simp only [SyncState.watermark] at hf₁
    rw [hremoteI] at hf₂
    have hin := hsubI hreq issues₁ issues₂ hf₁ hf₂ issue hmem
    obtain ⟨b', hb', hread⟩ := hw (by
      intro a ha c hc hnum
      obtain ⟨v, p, n, hvr, hv, hn, rfl⟩ := FetchIssues_mem _ _ _ _ _ _ hf₁ a ha
      obtain ⟨v', p', n', hvr', hv', hn', rfl⟩ := FetchIssues_mem _ _ _ _ _ _ hf₁ c hc
      rw [huniqI hreq v hvr v' hvr' p p' n n' hv hn hv' hn' hnum]) issue hin
    rw [hsameJson, hb'] at hb
    rw [hread, Except.ok.inj hb]
  have hinP : opts.PRs = true → ∀ prs₂,
      (FetchPullRequests env₂.prRemote fuel₂ opts.Owner opts.Repo
        (getSince opts (some t))).outcome = some (.ok prs₂) →
      ∀ pr ∈ prs₂, ∀ b, env₂.json.marshalPR pr = .ok b →
        readAt w₁.files (recordPath (New opts.OutputDir) .prs pr.Number) = some b := by
    intro hreq prs₂ hf₂ pr hmem b hb
    obtain ⟨prs₁, hf₁, hw⟩ := wP hreq
    simp only [SyncState.watermark] at hf₁
    rw [hremoteP] at hf₂
    have hin := hsubP hreq prs₁ prs₂ hf₁ hf₂ pr hmem
    obtain ⟨b', hb', hread⟩ := hw (by
      intro a ha c hc hnum
      obtain ⟨v, p, n, hvr, hv, hn, rfl⟩ := FetchPullRequests_mem _ _ _ _ _ _ hf₁ a ha
      obtain ⟨v', p', n', hvr', hv', hn', rfl⟩ := FetchPullRequests_mem _ _ _ _ _ _ hf₁ c hc
      rw [huniqP hreq v hvr v' hvr' p p' n n' hv hn hv' hn' hnum]) pr hin
    rw [hsameJson, hb'] at hb
    rw [hread, Except.ok.inj hb]
  have hinD : opts.Discussions = true → ∀ ds₂,
      (FetchDiscussions env₂.discussionRemote fuel₂ opts.Owner opts.Repo
        (getSince opts (some t))).outcome = some (.ok ds₂) →
      ∀ d ∈ ds₂, ∀ b, env₂.json.marshalDiscussion d = .ok b →
        readAt w₁.files (recordPath (New opts.OutputDir) .discussions d.Number) = some b := by
    intro hreq ds₂ hf₂ d hmem b hb
    obtain ⟨ds₁, hf₁, hw⟩ := wD hreq
    simp only [SyncState.watermark] at hf₁
    rw [hremoteD] at hf₂
    have hin := hsubD hreq ds₁ ds₂ hf₁ hf₂ d hmem
    obtain ⟨b', hb', hread⟩ := hw (by
      intro a ha c hc hnum
      obtain ⟨v, p, n, hvr, hv, hn, rfl⟩ := FetchDiscussions_mem _ _ _ _ _ _ hf₁ a ha
      obtain ⟨v', p', n', hvr', hv', hn', rfl⟩ := FetchDiscussions_mem _ _ _ _ _ _ hf₁ c hc
      rw [huniqD hreq v hvr v' hvr' p p' n n' hv hn hv' hn' hnum]) d hin
    rw [hsameJson, hb'] at hb
    rw [hread, Except.ok.inj hb]
  -- the state the second run loads
  have hloads : ∀ loaded₂, storedState env₂.json (New opts.OutputDir) w₁'.files = .ok loaded₂ →
      loaded₂ = advance opts t loaded' := by
    intro loaded₂ hst₂
    unfold storedState at hst₂
    rw [hfiles, hstate, hsameJson] at hst₂
    simp only at hst₂
    rw [hjson bytes hbytes] at hst₂
    exact (Except.ok.inj hst₂).symm
  obtain ⟨hwI, hwP, hwD⟩ := advance_watermark opts t loaded'
  refine ⟨?_, by rw [hremoteI]; exact hsubI, by rw [hremoteP]; exact hsubP,
    by rw [hremoteD]; exact hsubD, hinI, hinP, hinD, ?_⟩
  · intro hfuel
    refine Sync_comes_back env₂ fuel₂ opts w₁' ?_
    intro loaded₂ hst₂
    rw [hloads loaded₂ hst₂]
    refine ⟨fun hreq => ?_, fun hreq => ?_, fun hreq => ?_⟩
    · have := hwI hreq
      simp only [SyncState.watermark] at this
      rw [this]
      exact hfuel.1 hreq
    · have := hwP hreq
      simp only [SyncState.watermark] at this
      rw [this]
      exact hfuel.2.1 hreq
    · have := hwD hreq
      simp only [SyncState.watermark] at this
      rw [this]
      exact hfuel.2.2 hreq
  -- the second run
  intro r₂ w₂ h₂
  rcases Sync_prologue env₂ fuel₂ opts w₁' r₂ w₂ h₂ with
    ⟨hsame, _⟩ | ⟨wE₂, wL₂, loaded₂, hN₂, hE₂, hL₂⟩
  · intro q _ _
    rw [hsame, hfiles]
  obtain ⟨hst₂, hfilesL₂⟩ :=
    loaded_eq_stored env₂ (New opts.OutputDir) w₁' wE₂ wL₂ loaded₂ hE₂ hL₂
  have hl₂ := hloads loaded₂ hst₂
  subst hl₂
  have hk₂ := Sync_eq_kinds env₂ fuel₂ opts w₁' wE₂ wL₂ _ hN₂ hE₂ hL₂
  rw [h₂] at hk₂
  have hstart : ∀ q, readAt wL₂.files q = readAt w₁.files q := by
    intro q
    rw [hfilesL₂, hfiles]
  intro q hq hne
  rw [← hstart q]
  refine syncKindsWith_same env₂ fuel₂ opts (New opts.OutputDir) _ _ _ wL₂ r₂ w₂ hk₂.symm
    ?_ ?_ ?_ q hq hne
  · intro hreq issues₂ hf₂ issue hmem b hb
    simp only [hwI hreq] at hf₂
    rw [hstart]
    exact hinI hreq issues₂ hf₂ issue hmem b hb
  · intro hreq prs₂ hf₂ pr hmem b hb
    simp only [hwP hreq] at hf₂
    rw [hstart]
    exact hinP hreq prs₂ hf₂ pr hmem b hb
  · intro hreq ds₂ hf₂ d hmem b hb
    simp only [hwD hreq] at hf₂
    rw [hstart]
    exact hinD hreq ds₂ hf₂ d hmem b hb

/-- On the pages of the example with the filtering remote a number identifies one
record. -/
theorem exFilterFirstEnv_numbers :
    (∀ v v' p p' n n', exFilterFirstEnv.issueRemote v = .ok p → n ∈ p.Nodes →
        exFilterFirstEnv.issueRemote v' = .ok p' → n' ∈ p'.Nodes → n.Number = n'.Number →
        n = n') ∧
      (∀ v v' p p' n n', exFilterFirstEnv.discussionRemote v = .ok p → n ∈ p.Nodes →
        exFilterFirstEnv.discussionRemote v' = .ok p' → n' ∈ p'.Nodes →
        n.Number = n'.Number → n = n') := by
  have hnodes : ∀ v p n, exFilterRemote v = .ok p → n ∈ p.Nodes → n ∈ exFilterNodes := by
    intro v p n hv hn
    unfold exFilterRemote at hv
    cases hc : v.cursor with
    | some c =>
      rw [hc] at hv
      exact Except.noConfusion hv
    | none =>
      rw [hc] at hv
      have hp := Except.ok.inj hv
      rw [← hp] at hn
      exact (List.mem_filter.mp hn).1
  refine ⟨?_, ?_⟩
  · intro v v' p p' n n' hv hn hv' hn' hnum
    have h := hnodes v p n hv hn
    have h' := hnodes v' p' n' hv' hn'
    simp only [exFilterNodes, List.mem_cons, List.mem_singleton, List.not_mem_nil,
      or_false] at h h'
    rcases h with rfl | rfl | rfl <;> rcases h' with rfl | rfl | rfl <;>
      first | rfl | exact absurd hnum (by decide)
  · intro v v' p p' n n' hv hn hv' hn' hnum
    have hp := pagedRemote_mem discussionQuery.PageInfo exDiscussionPages v.cursor p hv
    have hp' := pagedRemote_mem discussionQuery.PageInfo exDiscussionPages v'.cursor p' hv'
    simp only [exDiscussionPages, List.mem_cons, List.mem_singleton, List.not_mem_nil,
      or_false] at hp hp'
    rcases hp with rfl | rfl | rfl <;>
      simp only [List.mem_cons, List.mem_singleton, List.not_mem_nil, or_false] at hn <;>
      rcases hp' with rfl | rfl | rfl <;>
      simp only [List.mem_cons, List.mem_singleton, List.not_mem_nil, or_false] at hn' <;>
      rcases hn with rfl | rfl <;> rcases hn' with rfl | rfl <;>
      first | rfl | exact absurd hnum (by decide)

/-- C13 as amended, on the example with the filtering issue remote: the first run
writes the issues 7, 5, 4, five discussions and the watermark 104; the second run, with
the clock past 200, is handed the lower bound 104, fetches the issue 7 (updated at 150)
again and no discussion, writes the same bytes to the file of issue 7, and leaves
every record file as the first run wrote it. -/
theorem Sync_twice_keeps_records_witness :
    Sync exFilterFirstEnv 3 exOptions exWorld = some (.ok (), exFilterFirst) ∧
      (∃ r₂ w₂, Sync exFilterSecondEnv 3 exOptions exFilterFirst = some (r₂, w₂)) ∧
      Sync exFilterSecondEnv 3 exOptions exFilterFirst =
        some (.ok (),
          worldAfter (Sync exFilterSecondEnv 3 exOptions exFilterFirst) exFilterFirst) ∧
      (∃ issues, (FetchIssues exFilterSecondEnv.issueRemote 3 "o" "r" (some 104)).outcome =
          some (.ok issues) ∧ issues.map Issue.Number = [7] ∧
        ∀ issue ∈ issues, ∀ b, exFilterSecondEnv.json.marshalIssue issue = .ok b →
          readAt exFilterFirst.files (recordPath (New "out") .issues issue.Number) =
            some b) ∧
      readAt exFilterFirst.files (recordPath (New "out") .issues 7) = some "issue 7" ∧
      ∀ q, isTmpPath q = false → q ≠ statePath (New exOptions.OutputDir) →
        readAt (worldAfter (Sync exFilterSecondEnv 3 exOptions exFilterFirst)
            exFilterFirst).files q =
          readAt exFilterFirst.files q :=
  have hall := Sync_twice_keeps_records exFilterFirstEnv exFilterSecondEnv 3 3 exOptions
    exWorld exFilterFirst exFilterFirst
    { Issues := none, PRs := some 5, Discussions := none } 104 rfl rfl rfl
    (fun _ => ⟨fun _ t₀ h => Option.noConfusion h, fun h => Bool.noConfusion h,
      fun _ t₀ h => Option.noConfusion h⟩)
    (by
      intro bytes h
      cases h
      rfl)
    rfl rfl rfl rfl
    (fun _ v _ v' _ => exFilterFirstEnv_numbers.1 v v')
    (fun h => Bool.noConfusion h)
    (fun _ v _ v' _ => exFilterFirstEnv_numbers.2 v v')
    (fun _ => ⟨exFilterNodes,
      ⟨[⟨⟨false, "c1"⟩, exFilterNodes⟩], ⟨rfl, trivial⟩, rfl, rfl⟩,
      ⟨[⟨⟨false, "c1"⟩, [exIssueNode 7 150]⟩], ⟨rfl, trivial⟩, rfl, rfl⟩⟩)
    rfl
  ⟨rfl, hall.1 ⟨fun _ => rfl, fun h => Bool.noConfusion h, fun _ => rfl⟩, rfl,
    ⟨_, rfl, rfl, hall.2.2.2.2.1 rfl _ rfl⟩, rfl, hall.2.2.2.2.2.2.2 _ _ rfl⟩

end GhDumpster
